import Mathlib

/-!
# Block decoder of the mod loader (`steampipeconfig/parse/decode.go`)

A shallow embedding of the block decoder: the run context is passed explicitly and
returned by every function that mutates it, a Go runtime panic is the result `none`,
and the operations of the HCL library (expression evaluation, body decoding,
identifier syntax) are fields of an environment record `Env`, so every theorem holds
for whatever the library computes.
-/

set_option autoImplicit false

namespace hcl

/-- Source position (`hcl.Pos`). -/
structure Pos where
  Line : Nat
  Column : Nat
  Byte : Nat
deriving DecidableEq, Repr

/-- Source range (`hcl.Range`). -/
structure Range where
  Filename : String
  Start : Pos
  End : Pos
deriving DecidableEq, Repr

/-- Severity of a diagnostic (`hcl.DiagnosticSeverity`). -/
inductive DiagnosticSeverity where
  | DiagInvalid
  | DiagError
  | DiagWarning
deriving DecidableEq, Repr

/-- An expression of the configuration language (`hcl.Expression`): its source text and
the names its traversals refer to (`Variables()`). Evaluation is `Env.Value`. -/
structure Expression where
  Source : String
  Variables : List String
deriving DecidableEq, Repr

/-- One diagnostic (`hcl.Diagnostic`); `Subject` and `Expression` are nil-able pointers. -/
structure Diagnostic where
  Severity : DiagnosticSeverity
  Summary : String
  Detail : String
  Subject : Option Range
  Expression : Option Expression
deriving DecidableEq, Repr

/-- A list of diagnostics (`hcl.Diagnostics`). -/
abbrev Diagnostics := List Diagnostic

/-- True when some diagnostic has error severity (`Diagnostics.HasErrors`). -/
def Diagnostics.HasErrors (d : Diagnostics) : Bool :=
  d.any (fun x => decide (x.Severity = DiagnosticSeverity.DiagError))

/-- One attribute of a block body (`hcl.Attribute`). -/
structure Attribute where
  Name : String
  Expr : Expression
  Range : hcl.Range
  NameRange : hcl.Range
deriving DecidableEq, Repr

/-- A declaration block (`hcl.Block`) together with what the HCL library extracts from
its body: `Attributes` and `Blocks` are the attributes and nested blocks that
`Body.Content`, `Body.PartialContent` and `Body.JustAttributes` hand to the decoder of
this block type, `BodyDiags` the diagnostics of that extraction, `SrcRange` the range of
the body. `Labels` and `LabelRanges` are separate slices, as in the library; `BlockType` is the field `Type`. -/
inductive Block where
  | mk (BlockType : String) (Labels : List String) (LabelRanges : List Range) (DefRange : Range)
      (Attributes : List Attribute) (Blocks : List Block) (BodyDiags : Diagnostics)
      (SrcRange : Range) : Block

namespace Block

def BlockType : Block → String
  | mk t _ _ _ _ _ _ _ => t

def Labels : Block → List String
  | mk _ l _ _ _ _ _ _ => l

def LabelRanges : Block → List Range
  | mk _ _ lr _ _ _ _ _ => lr

def DefRange : Block → Range
  | mk _ _ _ d _ _ _ _ => d

def Attributes : Block → List Attribute
  | mk _ _ _ _ a _ _ _ => a

def Blocks : Block → List Block
  | mk _ _ _ _ _ b _ _ => b

def BodyDiags : Block → Diagnostics
  | mk _ _ _ _ _ _ d _ => d

def SrcRange : Block → Range
  | mk _ _ _ _ _ _ _ s => s

/-- The assignment `block.Labels = labels`. -/
def setLabels : Block → List String → Block
  | mk t _ lr d a b bd s, labels => mk t labels lr d a b bd s

/-- Lookup in the attribute map of the body content (`content.Attributes[name]`). -/
def getAttribute (b : Block) (name : String) : Option Attribute :=
  b.Attributes.find? (fun a => a.Name == name)

end Block

end hcl

namespace cty

/-- Values of the expression language (`cty.Value`), as far as the decoder inspects them. -/
inductive Value where
  | NullVal
  | BoolVal (b : Bool)
  | NumberVal (n : Int)
  | StringVal (s : String)
  | TupleVal (elems : List Value)
  | ObjectVal (fields : List (String × Value))

/-- Whether the type of the value is an object type (`Type.IsObjectType`). -/
def Value.IsObjectType : Value → Bool
  | ObjectVal _ => true
  | _ => false

/-- Whether the type of the value is a tuple type (`Type.IsTupleType`). -/
def Value.IsTupleType : Value → Bool
  | TupleVal _ => true
  | _ => false

end cty

namespace modconfig

open hcl

/-- Arguments of a query provider (`modconfig.QueryArgs`): named or positional, each in its
textual database form. -/
structure QueryArgs where
  Args : List (String × String)
  ArgsList : List String
deriving DecidableEq, Repr

/-- The empty argument record (`NewQueryArgs`). -/
def NewQueryArgs : QueryArgs := { Args := [], ArgsList := [] }

/-- Definition of one parameter (`modconfig.ParamDef`). -/
structure ParamDef where
  Name : String
  FullName : String
  Description : Option String
  Default : Option String
deriving DecidableEq, Repr

/-- Where a resource was declared (`modconfig.ResourceMetadata`). -/
structure ResourceMetadata where
  ResourceName : String
  FileName : String
  StartLineNumber : Nat
  EndLineNumber : Nat
deriving DecidableEq, Repr

/-- A reference from a resource to a named entity (`modconfig.ResourceReference`). -/
structure ResourceReference where
  To : String
  From : String
  BlockName : String
deriving DecidableEq, Repr

/-- A decoded resource (any implementation of `modconfig.HclResource`). The Go types
differ by block type only in the properties they declare, so one record stands for all of
them: `BlockType` tells which Go type it is, `FullName` is what `Name()` returns, `SQL` and
`Query` are what `GetSQL()` and `GetQuery()` return (the query by its name), and
`Properties` holds every other decoded property by name. -/
structure HclResource where
  BlockType : String
  ShortName : String
  FullName : String
  UnqualifiedName : String
  DeclRange : Range
  SQL : String
  Query : Option String
  Args : Option QueryArgs
  Params : List ParamDef
  Value : Option cty.Value
  Properties : List (String × cty.Value)
  Children : List String
  Inputs : List String
  References : List ResourceReference
  Mod : Option String
  Metadata : Option ResourceMetadata

namespace HclResource

/-- The method `Name()`. -/
def Name (r : HclResource) : String := r.FullName

/-- The method `GetQuery()`. -/
def GetQuery (r : HclResource) : Option String := r.Query

/-- The method `GetSQL()`. -/
def GetSQL (r : HclResource) : String := r.SQL

/-- The method `SetArgs`. -/
def SetArgs (r : HclResource) (args : Option QueryArgs) : HclResource := { r with Args := args }

/-- The method `SetParams`. -/
def SetParams (r : HclResource) (params : List ParamDef) : HclResource :=
  { r with Params := params }

/-- The method `SetMetadata`. -/
def SetMetadata (r : HclResource) (m : ResourceMetadata) : HclResource :=
  { r with Metadata := some m }

/-- The method `SetMod`, as `Panel.SetMod` does it: the resource remembers its mod, keeps its
old name as the unqualified name and prefixes its full name with the short name of the mod. -/
def SetMod (r : HclResource) (modShortName : String) : HclResource :=
  { r with Mod := some modShortName, UnqualifiedName := r.FullName,
           FullName := modShortName ++ "." ++ r.FullName }

end HclResource

/-- The resource constructors `NewQuery`, `NewControl`, `NewPanel`, ... as `NewControl` and
`NewPanel` do it: the short name is `block.Labels[0]` (a panic when there is no label), the
full name is the block type, a dot and the short name. -/
def NewResource (blockType : String) (block : Block) : Option HclResource :=
  match block.Labels with
  | [] => none
  | label :: _ =>
    some { BlockType := blockType, ShortName := label, FullName := blockType ++ "." ++ label,
           UnqualifiedName := blockType ++ "." ++ label, DeclRange := block.DefRange,
           SQL := "", Query := none, Args := none, Params := [], Value := none,
           Properties := [], Children := [], Inputs := [], References := [], Mod := none,
           Metadata := none }

/-- Modelled from the spec: the constructor `NewLocal(name, val, declRange)` is declared
outside the files embedded here; a local carries the attribute name as its short name, the
value and
the declaration range, and is named `local.<name>`. -/
def NewLocal (name : String) (val : cty.Value) (declRange : Range) : HclResource :=
  { BlockType := "locals", ShortName := name, FullName := "local." ++ name,
    UnqualifiedName := "local." ++ name, DeclRange := declRange,
    SQL := "", Query := none, Args := none, Params := [], Value := some val,
    Properties := [], Children := [], Inputs := [], References := [], Mod := none,
    Metadata := none }

-- block type names (`modconfig.BlockType...`)
def BlockTypeMod : String := "mod"
def BlockTypeQuery : String := "query"
def BlockTypeControl : String := "control"
def BlockTypeBenchmark : String := "benchmark"
def BlockTypeReport : String := "report"
def BlockTypeContainer : String := "container"
def BlockTypeChart : String := "chart"
def BlockTypeCounter : String := "counter"
def BlockTypeHierarchy : String := "hierarchy"
def BlockTypeImage : String := "image"
def BlockTypeInput : String := "input"
def BlockTypeTable : String := "table"
def BlockTypeText : String := "text"
def BlockTypeLocals : String := "locals"
def BlockTypeVariable : String := "variable"
def BlockTypeParam : String := "param"

end modconfig

namespace parse

open hcl modconfig

/-- Modelled from the spec: the type `decodeResult` is declared outside the files embedded
here. The outcome of decoding one block: the accumulated diagnostics and the names of the
unmet dependencies extracted from evaluation diagnostics. -/
structure decodeResult where
  Diags : Diagnostics
  Depends : List String
deriving DecidableEq, Repr

/-- Summaries of the diagnostics the evaluator reports for a symbol that is not resolved
yet (`missingVariableErrors`). -/
def missingVariableErrors : List String :=
  ["Unknown variable", "Unsupported attribute", "Missing map element"]

/-- The detail message of every diagnostic about an invalid identifier
(`badIdentifierDetail`). -/
def badIdentifierDetail : String :=
  "A name must start with a letter or underscore and may contain only letters, digits, underscores, and dashes."

/-- Modelled from the spec: the unmet names one diagnostic stands for, found by matching
its summary against the recognised missing-symbol shapes; the names are those the
expression of the diagnostic refers to. -/
def diagToDependencies (d : Diagnostic) : List String :=
  if missingVariableErrors.contains d.Summary then
    match d.Expression with
    | some e => e.Variables
    | none => []
  else []

namespace decodeResult

/-- The zero value `&decodeResult{}`. -/
def empty : decodeResult := { Diags := [], Depends := [] }

/-- Modelled from the spec: a block is successful iff its result has zero error-severity
diagnostics. -/
def Success (p : decodeResult) : Bool := !p.Diags.HasErrors

/-- Modelled from the spec: diagnostics accumulate in the result. -/
def addDiags (p : decodeResult) (diags : Diagnostics) : decodeResult :=
  { p with Diags := p.Diags ++ diags }

/-- Modelled from the spec: the diagnostics accumulate and the unmet dependency names are
extracted from them; the body content and the resource that the three-argument calls pass
along play no part in the spec and are left out. -/
def handleDecodeDiags (p : decodeResult) (diags : Diagnostics) : decodeResult :=
  { Diags := p.Diags ++ diags, Depends := p.Depends ++ diags.flatMap diagToDependencies }

/-- Modelled from the spec: merging takes over the diagnostics and the unmet dependencies
of the other result. -/
def Merge (p other : decodeResult) : decodeResult :=
  { Diags := p.Diags ++ other.Diags, Depends := p.Depends ++ other.Depends }

end decodeResult

/-- Modelled from the spec: the mod as the decoder sees it. Its typed resource maps are
keyed by fully-qualified name, and that name contains the type, so they are kept as one
map from name to resource. -/
structure Mod where
  ShortName : String
  FullName : String
  Resources : List (String × HclResource)

namespace Mod

/-- The resource bound to a name in the maps of the mod. -/
def lookup (m : Mod) (name : String) : Option HclResource := m.Resources.lookup name

/-- Modelled from the spec: the error for a second resource of the same fully-qualified
name (DuplicateNameError). -/
def duplicateNameError (name : String) : Diagnostic :=
  { Severity := DiagnosticSeverity.DiagError,
    Summary := "mod defines more than one resource named " ++ name,
    Detail := "", Subject := none, Expression := none }

/-- Modelled from the spec: `Mod.AddResource` is declared outside the files embedded here.
It puts the resource into the map under its name and fails with the duplicate-name error,
changing nothing, when the name is already bound. -/
def AddResource (m : Mod) (r : HclResource) : Mod × Diagnostics :=
  match m.lookup r.Name with
  | some _ => (m, [duplicateNameError r.Name])
  | none => ({ m with Resources := m.Resources ++ [(r.Name, r)] }, [])

/-- The mod itself as a resource (the value `runCtx.CurrentMod` used as `HclResource`). -/
def asResource (m : Mod) : HclResource :=
  { BlockType := BlockTypeMod, ShortName := m.ShortName, FullName := m.FullName,
    UnqualifiedName := m.FullName,
    DeclRange := { Filename := "", Start := ⟨0, 0, 0⟩, End := ⟨0, 0, 0⟩ },
    SQL := "", Query := none, Args := none, Params := [], Value := none,
    Properties := [], Children := [], Inputs := [], References := [], Mod := none,
    Metadata := none }

end Mod

/-- Modelled from the spec: the type `RunContext` is declared outside the files embedded
here. The state of one load: the current mod, the block types the options ask for (none:
all), the symbol table of resolved resources (what expressions are evaluated against), the
wait-list from a resource name to its unmet names, and the stack of the blocks being
decoded. -/
structure RunContext where
  CurrentMod : Mod
  BlockTypes : List String
  Symbols : List (String × HclResource)
  Dependencies : List (String × List String)
  DecodeStack : List Block

/-- The symbol table expressions are evaluated against (`hcl.EvalContext`). -/
abbrev EvalContext := List (String × HclResource)

namespace RunContext

/-- The field `EvalCtx`: the evaluation context built from the symbol table. -/
def EvalCtx (r : RunContext) : EvalContext := r.Symbols

/-- Modelled from the spec: the block types to load are an option of the load; as the
comment at the call in `decodeBlock` has it, if the options specify block types, a block is
included when its type is among them. -/
def ShouldIncludeBlock (r : RunContext) (block : Block) : Bool :=
  r.BlockTypes.isEmpty || r.BlockTypes.contains block.BlockType

/-- Modelled from the spec: an anonymous block is an unlabelled one. -/
def IsBlockAnonymous (_r : RunContext) (block : Block) : Bool := block.Labels.isEmpty

/-- Modelled from the spec: marks the block as the one being decoded. -/
def PushDecodeBlock (r : RunContext) (block : Block) : RunContext :=
  { r with DecodeStack := block :: r.DecodeStack }

/-- Modelled from the spec: ends the scope opened by the matching push. -/
def PopDecodeBlock (r : RunContext) : RunContext :=
  { r with DecodeStack := r.DecodeStack.tail }

/-- Modelled from the spec: records that `resourceName` cannot be resolved until
`missingNames` are available; adding the entry that is already recorded is a no-op. The
block is what the retry decodes again and is not part of the entry. -/
def AddDependencies (r : RunContext) (_block : Block) (resourceName : String)
    (missingNames : List String) : RunContext × Diagnostics :=
  if r.Dependencies.lookup resourceName = some missingNames then (r, [])
  else
    ({ r with Dependencies :=
          (resourceName, missingNames) ::
            r.Dependencies.filter (fun e => !(e.1 == resourceName)) }, [])

/-- Modelled from the spec: resets the wait-list. -/
def ClearDependencies (r : RunContext) : RunContext := { r with Dependencies := [] }

/-- Modelled from the spec: puts a decoded named resource into the symbol table and fails
with the duplicate-name error, changing nothing, when the symbol table already binds the
name. The mod's map is filled by the call of `Mod.AddResource` that `handleDecodeResult`
makes itself. -/
def AddResource (r : RunContext) (resource : HclResource) : RunContext × Diagnostics :=
  match r.Symbols.lookup resource.Name with
  | some _ => (r, [Mod.duplicateNameError resource.Name])
  | none => ({ r with Symbols := r.Symbols ++ [(resource.Name, resource)] }, [])

/-- The mod and the symbol table are in step: every name that the mod binds is bound in the
symbol table too. A fresh run context is in step, and `handleDecodeResult` adds a resource
to the mod and to the symbol table under the same test. -/
def inStep (r : RunContext) : Bool :=
  r.CurrentMod.Resources.all (fun e => (r.Symbols.lookup e.1).isSome)

end RunContext

/-- What the decoder takes from the HCL library and from helpers declared outside the files
embedded here. Results that Go returns as `(value, error)` are a value and an optional message. -/
structure Env where
  /-- `hclsyntax.ValidIdentifier` -/
  ValidIdentifier : String → Bool
  /-- `Expression.Value(evalCtx)` -/
  Value : Expression → EvalContext → cty.Value × Diagnostics
  /-- `gohcl.DecodeBody(block.Body, evalCtx, resource)`: the resource with the decoded
  properties filled in -/
  DecodeBody : Block → EvalContext → HclResource → HclResource × Diagnostics
  /-- `gohcl.DecodeExpression(expr, evalCtx, dest)` for a property: the decoded value, if any -/
  DecodeExpression : Expression → EvalContext → Option cty.Value × Diagnostics
  /-- `gohcl.DecodeExpression(expr, evalCtx, dest)` for a string: the decoded text, if any -/
  DecodeString : Expression → EvalContext → Option String × Diagnostics
  ctyToPostgresString : cty.Value → String × Option String
  ctyObjectToMapOfPgStrings : cty.Value → List (String × String) × Option String
  ctyTupleToArrayOfPgStrings : cty.Value → List String × Option String
  /-- `modconfig.NewParamDef(block, parentName)` -/
  NewParamDef : Block → String → ParamDef
  /-- `AddReferences(resource, block, runCtx)`: the references it adds to the resource -/
  AddReferences : HclResource → Block → RunContext → List ResourceReference × Diagnostics
  /-- the post-decode hook `resource.OnDecoded(block)` of the resource types -/
  OnDecoded : HclResource → Block → HclResource × Diagnostics
  /-- `modconfig.QueryProviderBlocks` -/
  QueryProviderBlocks : List String
  /-- whether the Go type for a block type implements `modconfig.QueryProvider` -/
  ImplementsQueryProvider : String → Bool
  /-- whether the Go type for a block type implements `modconfig.ResourceWithMetadata` -/
  ImplementsResourceWithMetadata : String → Bool
  /-- whether the Go type for a block type implements `modconfig.ModTreeItem` -/
  ImplementsModTreeItem : String → Bool
  /-- `GetMetadataForParsedResource(name, srcRange, runCtx.FileData, runCtx.CurrentMod)` -/
  GetMetadataForParsedResource : String → Range → RunContext → ResourceMetadata × Option String
  /-- `var_config.DecodeVariableBlock` followed by `modconfig.NewVariable` -/
  DecodeVariableBlock : Block → HclResource × Diagnostics
  /-- `resolveChildrenFromNames(names, block, supportedChildren, runCtx)`: the names of the
  children found -/
  resolveChildrenFromNames : List String → Block → List String → RunContext → List String × Diagnostics
  /-- `RunContext.BlocksToDecode()`: the blocks in dependency order and the ordering error -/
  BlocksToDecode : RunContext → List Block × Option String
  /-- `RunContext.GetAnonymousResourceName(block)`: the synthetic name of an unlabelled
  block, derived from its lexical position -/
  GetAnonymousResourceName : RunContext → Block → String

/-- The error diagnostic of `decode` for a failed dependency ordering. -/
def orderingDiag (detail : String) : Diagnostic :=
  { Severity := DiagnosticSeverity.DiagError,
    Summary := "failed to determine required dependency order",
    Detail := detail, Subject := none, Expression := none }

/-- The function `validateName`. `none` is the index panic of `block.LabelRanges[0]`. -/
def validateName (env : Env) (block : Block) : Option Diagnostics :=
  if block.Labels.length == 0 then some []
  else
    match block.Labels with
    | [] => none
    | label :: _ =>
      if !env.ValidIdentifier label then
        match block.LabelRanges with
        | [] => none
        | labelRange :: _ =>
          some [{ Severity := DiagnosticSeverity.DiagError, Summary := "Invalid name",
                  Detail := badIdentifierDetail, Subject := some labelRange,
                  Expression := none }]
      else some []

/-- The function `resourceForBlock`: a shell resource for the block. `none` is the panic of
a constructor on a block without label. -/
def resourceForBlock (block : Block) (runCtx : RunContext) :
    Option (Option HclResource × Diagnostics) :=
  if block.BlockType = BlockTypeMod then some (some runCtx.CurrentMod.asResource, [])
  else if block.BlockType = BlockTypeQuery then
    (NewResource BlockTypeQuery block).map (fun r => (some r, []))
  else if block.BlockType = BlockTypeControl then
    (NewResource BlockTypeControl block).map (fun r => (some r, []))
  else if block.BlockType = BlockTypeBenchmark then
    (NewResource BlockTypeBenchmark block).map (fun r => (some r, []))
  else if block.BlockType = BlockTypeReport then
    (NewResource BlockTypeReport block).map (fun r => (some r, []))
  else if block.BlockType = BlockTypeContainer then
    (NewResource BlockTypeContainer block).map (fun r => (some r, []))
  else if block.BlockType = BlockTypeChart then
    (NewResource BlockTypeChart block).map (fun r => (some r, []))
  else if block.BlockType = BlockTypeCounter then
    (NewResource BlockTypeCounter block).map (fun r => (some r, []))
  else if block.BlockType = BlockTypeHierarchy then
    (NewResource BlockTypeHierarchy block).map (fun r => (some r, []))
  else if block.BlockType = BlockTypeImage then
    (NewResource BlockTypeImage block).map (fun r => (some r, []))
  else if block.BlockType = BlockTypeInput then
    (NewResource BlockTypeInput block).map (fun r => (some r, []))
  else if block.BlockType = BlockTypeTable then
    (NewResource BlockTypeTable block).map (fun r => (some r, []))
  else if block.BlockType = BlockTypeText then
    (NewResource BlockTypeText block).map (fun r => (some r, []))
  else
    some (none,
      [{ Severity := DiagnosticSeverity.DiagError,
         Summary := "resourceForBlock called for unsupported block type " ++ block.BlockType,
         Detail := "", Subject := some block.DefRange, Expression := none }])

/-- The function `getBodyContent`: the content of the body under the schema implied by the
resource, with the diagnostics of the extraction. -/
def getBodyContent (block : Block) (_resource : HclResource) : Block × Diagnostics :=
  (block, block.BodyDiags)

/-- The function `decodeResource`: the generic decoder. `none` is a panic: of a resource
constructor, or of decoding into a nil resource, which `resourceForBlock` never returns
without an error. -/
def decodeResource (env : Env) (block : Block) (runCtx : RunContext) :
    Option (Option HclResource × decodeResult) :=
  let res := decodeResult.empty
  -- get shell resource
  match resourceForBlock block runCtx with
  | none => none
  | some (resource?, diags) =>
    let res := res.handleDecodeDiags diags
    if diags.HasErrors then some (none, res)
    else
      match resource? with
      | none => none
      | some resource =>
        let (resource, diags) := env.DecodeBody block runCtx.EvalCtx resource
        if diags.length > 0 then
          -- hack get the content
          let (_, contentDiags) := getBodyContent block resource
          let res := res.addDiags contentDiags
          some (some resource, res.handleDecodeDiags diags)
        else some (some resource, res)

/-- The error of `decodeLocals` for an attribute whose name is no identifier. -/
def invalidLocalNameDiag (attr : Attribute) : Diagnostic :=
  { Severity := DiagnosticSeverity.DiagError, Summary := "Invalid local value name",
    Detail := badIdentifierDetail, Subject := some attr.NameRange, Expression := none }

/-- The loop of `decodeLocals` over the attributes, in the order the iteration visits them. -/
def decodeLocalsLoop (env : Env) (runCtx : RunContext) :
    List Attribute → List HclResource → decodeResult → List HclResource × decodeResult
  | [], locals, res => (locals, res)
  | attr :: rest, locals, res =>
    if !env.ValidIdentifier attr.Name then
      decodeLocalsLoop env runCtx rest locals
        { res with Diags := res.Diags ++ [invalidLocalNameDiag attr] }
    else
      let (val, diags) := env.Value attr.Expr runCtx.EvalCtx
      let res := res.handleDecodeDiags diags
      decodeLocalsLoop env runCtx rest (locals ++ [NewLocal attr.Name val attr.Range]) res

/-- The function `decodeLocals`. The attributes `block.Body.JustAttributes()` returns are
`block.Attributes`, listed in the order the loop visits the map. -/
def decodeLocals (env : Env) (block : Block) (runCtx : RunContext) :
    List HclResource × decodeResult :=
  let res := decodeResult.empty
  let attrs := block.Attributes
  let diags := block.BodyDiags
  if attrs.length == 0 then ([], { res with Diags := diags })
  else decodeLocalsLoop env runCtx attrs [] res

/-- The function `decodeVariable`. The variable stays nil unless the result is successful. -/
def decodeVariable (env : Env) (block : Block) (_runCtx : RunContext) :
    Option HclResource × decodeResult :=
  let res := decodeResult.empty
  let diags := block.BodyDiags
  let res := res.handleDecodeDiags diags
  let (v, diags) := env.DecodeVariableBlock block
  let res := res.handleDecodeDiags diags
  if res.Success then (some v, res) else (none, res)

/-- The function `decodeParam`. -/
def decodeParam (env : Env) (block : Block) (runCtx : RunContext) (parentName : String) :
    ParamDef × Diagnostics :=
  let paramDef := env.NewParamDef block parentName
  let diags := block.BodyDiags
  let (paramDef, diags) :=
    match block.getAttribute "description" with
    | some attr =>
      let (d, moreDiags) := env.DecodeString attr.Expr runCtx.EvalCtx
      (match d with
        | some text => { paramDef with Description := some text }
        | none => paramDef, diags ++ moreDiags)
    | none => (paramDef, diags)
  match block.getAttribute "default" with
  | some attr =>
    let (v, moreDiags) := env.Value attr.Expr runCtx.EvalCtx
    let diags := diags ++ moreDiags
    if !moreDiags.HasErrors then
      match env.ctyToPostgresString v with
      | (valStr, none) => ({ paramDef with Default := some valStr }, diags)
      | (_, some err) =>
        (paramDef, diags ++
          [{ Severity := DiagnosticSeverity.DiagError,
             Summary := parentName ++ " has invalid parameter config",
             Detail := err, Subject := some attr.Range, Expression := none }])
    else (paramDef, diags)
  | none => (paramDef, diags)

/-- The function `decodeArgs`. -/
def decodeArgs (env : Env) (attr : Attribute) (evalCtx : EvalContext) (controlName : String) :
    Option QueryArgs × Diagnostics :=
  let params := NewQueryArgs
  let (v, diags) := env.Value attr.Expr evalCtx
  if diags.HasErrors then (none, diags)
  else
    let (params, err) : QueryArgs × Option String :=
      if v.IsObjectType then
        let (m, err) := env.ctyObjectToMapOfPgStrings v
        ({ params with Args := m }, err)
      else if v.IsTupleType then
        let (l, err) := env.ctyTupleToArrayOfPgStrings v
        ({ params with ArgsList := l }, err)
      else (params, some "\x27params\x27 property must be either a map or an array")
    match err with
    | some msg =>
      (some params, diags ++
        [{ Severity := DiagnosticSeverity.DiagError,
           Summary := controlName ++ " has invalid parameter config",
           Detail := msg, Subject := some attr.Range, Expression := none }])
    | none => (some params, diags)

/-- The error of `decodeQueryProvider` for a block with both inline SQL and a query. -/
def bothSqlAndQueryDiag (resourceName : String) (attr : Attribute) : Diagnostic :=
  { Severity := DiagnosticSeverity.DiagError,
    Summary := resourceName ++
      " has both \x27SQL\x27 and \x27query\x27 property set - only 1 of these may be set",
    Detail := "", Subject := some attr.Range, Expression := none }

/-- The error of `decodeQueryProvider` for a param block next to a query reference. -/
def queryWithParamDiag (resourceName : String) (block : Block) : Diagnostic :=
  { Severity := DiagnosticSeverity.DiagError,
    Summary := resourceName ++
      " has \x27query\x27 property set so cannot define param blocks",
    Detail := "", Subject := some block.DefRange, Expression := none }

/-- The loop of `decodeQueryProvider` over `content.Blocks`: the param definitions and the
diagnostics it appends, and the resource with the references of the param blocks. -/
def decodeParamsLoop (env : Env) (runCtx : RunContext) :
    List Block → HclResource → List ParamDef → Diagnostics →
      HclResource × List ParamDef × Diagnostics
  | [], resource, params, diags => (resource, params, diags)
  | block :: rest, resource, params, diags =>
    if block.BlockType = BlockTypeParam then
      let diags :=
        if resource.GetQuery.isSome then diags ++ [queryWithParamDiag resource.Name block]
        else diags
      let (paramDef, moreDiags) := decodeParam env block runCtx resource.Name
      if !moreDiags.HasErrors then
        let params := params ++ [paramDef]
        let (refs, moreDiags) := env.AddReferences resource block runCtx
        let resource := { resource with References := resource.References ++ refs }
        decodeParamsLoop env runCtx rest resource params (diags ++ moreDiags)
      else decodeParamsLoop env runCtx rest resource params (diags ++ moreDiags)
    else decodeParamsLoop env runCtx rest resource params diags

/-- The function `decodeQueryProvider`. `none` is a panic: of the resource constructor, of
decoding into a nil resource (which `resourceForBlock` never returns without an error), or
the explicit one for a resource that is no query provider. The diagnostics of `decodeArgs`
live in a variable of their own, scoped to the `if`, and are dropped after the test. -/
def decodeQueryProvider (env : Env) (block : Block) (runCtx : RunContext) :
    Option (Option HclResource × decodeResult) :=
  match resourceForBlock block runCtx with
  | none => none
  | some (resource?, diags) =>
    let res := decodeResult.empty.handleDecodeDiags diags
    if diags.HasErrors then some (none, res)
    else
      match resource? with
      | none => none
      | some resource =>
        let (resource, diags) := env.DecodeBody block runCtx.EvalCtx resource
        let res := res.handleDecodeDiags diags
        if !env.ImplementsQueryProvider resource.BlockType then none
        else
          let diags := block.BodyDiags
          let (res, diags) :=
            if resource.GetQuery.isSome && resource.GetSQL != "" then
              let diags :=
                match block.getAttribute "query" with
                | some attr => diags ++ [bothSqlAndQueryDiag resource.Name attr]
                | none => diags
              (res.handleDecodeDiags diags, diags)
            else (res, diags)
          let resource :=
            match block.getAttribute "args" with
            | some attr =>
              let (args, argDiags) := decodeArgs env attr runCtx.EvalCtx resource.Name
              if !argDiags.HasErrors then resource.SetArgs args else resource
            | none => resource
          let (resource, params, diags) :=
            decodeParamsLoop env runCtx block.Blocks resource [] diags
          let resource := resource.SetParams params
          let res := res.handleDecodeDiags diags
          some (some resource, res)

/-- Assignment through the pointer `dest` of `decodeProperty`: the property of the resource
takes the decoded value. -/
def setProperty (r : HclResource) (property : String) (v : cty.Value) : HclResource :=
  { r with Properties := (property, v) :: r.Properties.filter (fun e => !(e.1 == property)) }

/-- The function `decodeProperty`; the destination is the named property of the resource. -/
def decodeProperty (env : Env) (content : Block) (property : String) (dest : HclResource)
    (runCtx : RunContext) : HclResource × Diagnostics :=
  match content.getAttribute property with
  | some title =>
    let (v, diags) := env.DecodeExpression title.Expr runCtx.EvalCtx
    (match v with
      | some v => setProperty dest property v
      | none => dest, diags)
  | none => (dest, [])

/-- The strings of a decoded list of names (`NamedItemList.StringList`). -/
def stringList : Option cty.Value → List String
  | some (cty.Value.TupleVal elems) =>
    elems.filterMap (fun v => match v with
      | cty.Value.StringVal s => some s
      | _ => none)
  | _ => []

/-- The function `decodeBenchmark`. Resolving the children of the base changes the base
resource only, which is outside the state kept here. `none` is the panic of the
constructor on a block without label. -/
def decodeBenchmark (env : Env) (block : Block) (runCtx : RunContext) :
    Option (Option HclResource × decodeResult) :=
  match NewResource BlockTypeBenchmark block with
  | none => none
  | some benchmark =>
    let res := decodeResult.empty
    let content := block
    let res := res.handleDecodeDiags block.BodyDiags
    let (benchmark, diags) := decodeProperty env content "children" benchmark runCtx
    let res := res.handleDecodeDiags diags
    let (benchmark, diags) := decodeProperty env content "description" benchmark runCtx
    let res := res.handleDecodeDiags diags
    let (benchmark, diags) := decodeProperty env content "documentation" benchmark runCtx
    let res := res.handleDecodeDiags diags
    let (benchmark, diags) := decodeProperty env content "tags" benchmark runCtx
    let res := res.handleDecodeDiags diags
    let (benchmark, diags) := decodeProperty env content "title" benchmark runCtx
    let res := res.handleDecodeDiags diags
    let (benchmark, res) :=
      if res.Success then
        let supportedChildren := [BlockTypeBenchmark, BlockTypeControl]
        let (children, diags) :=
          env.resolveChildrenFromNames (stringList (benchmark.Properties.lookup "children"))
            block supportedChildren runCtx
        ({ benchmark with Children := children }, res.handleDecodeDiags diags)
      else (benchmark, res)
    let (benchmark, diags) := decodeProperty env content "base" benchmark runCtx
    let res := res.handleDecodeDiags diags
    let (benchmark, diags) := decodeProperty env content "width" benchmark runCtx
    let res := res.handleDecodeDiags diags
    some (some benchmark, res)

/-- The function `decodeReportContainer`. The argument `decodeBlocks` stands for the call
`decodeReportContainerBlocks(content, reportContainer, runCtx)`; resolving the children of
the base changes the base resource only, which is outside the state kept here. -/
def decodeReportContainer (env : Env)
    (decodeBlocks : HclResource → RunContext → Option (decodeResult × HclResource × RunContext))
    (block : Block) (runCtx : RunContext) :
    Option (Option HclResource × decodeResult × RunContext) :=
  match NewResource block.BlockType block with
  | none => none
  | some reportContainer =>
    let res := decodeResult.empty
    let content := block
    let res := res.handleDecodeDiags block.BodyDiags
    let (reportContainer, diags) := decodeProperty env content "title" reportContainer runCtx
    let res := res.handleDecodeDiags diags
    let (reportContainer, diags) := decodeProperty env content "base" reportContainer runCtx
    let res := res.handleDecodeDiags diags
    let (reportContainer, diags) := decodeProperty env content "width" reportContainer runCtx
    let res := res.handleDecodeDiags diags
    if !res.Success then some (some reportContainer, res, runCtx)
    else if content.Blocks.length > 0 then
      match decodeBlocks reportContainer runCtx with
      | none => none
      | some (blocksRes, reportContainer, runCtx) =>
        some (some reportContainer, res.Merge blocksRes, runCtx)
    else some (some reportContainer, res, runCtx)

/-- The function `addResourceMetadata`. -/
def addResourceMetadata (env : Env) (resourceWithMetadata : HclResource) (srcRange : Range)
    (runCtx : RunContext) : HclResource × Diagnostics :=
  match env.GetMetadataForParsedResource resourceWithMetadata.Name srcRange runCtx with
  | (_, some err) =>
    (resourceWithMetadata,
      [{ Severity := DiagnosticSeverity.DiagError, Summary := err, Detail := "",
         Subject := some srcRange, Expression := none }])
  | (metadata, none) => (resourceWithMetadata.SetMetadata metadata, [])

/-- The function `handleDecodeResult`; it returns the resource, the result and the run
context as it leaves them. `none` is the panic of a method call on a nil resource. -/
def handleDecodeResult (env : Env) (resource : Option HclResource) (res : decodeResult)
    (block : Block) (runCtx : RunContext) :
    Option (Option HclResource × decodeResult × RunContext) :=
  let anonymousResource := block.Labels.length == 0
  if res.Success then
    match resource with
    | none => none
    | some resource =>
      -- call post decode hook
      let (resource, moreDiags) := env.OnDecoded resource block
      let res := res.addDiags moreDiags
      -- add references
      let (refs, moreDiags) := env.AddReferences resource block runCtx
      let resource := { resource with References := resource.References ++ refs }
      let res := res.addDiags moreDiags
      -- if resource is NOT a mod, set mod pointer and add resource to current mod
      let (resource, res, runCtx) :=
        if resource.BlockType ≠ BlockTypeMod then
          let resource := resource.SetMod runCtx.CurrentMod.ShortName
          if !anonymousResource then
            let (mod, moreDiags) := runCtx.CurrentMod.AddResource resource
            (resource, res.addDiags moreDiags, { runCtx with CurrentMod := mod })
          else (resource, res, runCtx)
        else (resource, res, runCtx)
      -- if resource supports metadata, save it
      let (resource, res) :=
        if env.ImplementsResourceWithMetadata resource.BlockType then
          let (resource, moreDiags) := addResourceMetadata env resource block.SrcRange runCtx
          (resource, res.addDiags moreDiags)
        else (resource, res)
      -- if resource is NOT anonymous, add into the run context
      if !anonymousResource then
        let (runCtx, moreDiags) := runCtx.AddResource resource
        some (some resource, res.addDiags moreDiags, runCtx)
      else some (some resource, res, runCtx)
  else
    if res.Depends.length > 0 then
      match resource with
      | none => none
      | some resource =>
        let (runCtx, moreDiags) := runCtx.AddDependencies block resource.Name res.Depends
        some (some resource, res.addDiags moreDiags, runCtx)
    else some (resource, res, runCtx)

/-- The loop at the end of `decodeBlock`: `handleDecodeResult` for every resource in turn,
all sharing the one result. -/
def handleDecodeResults (env : Env) (block : Block) :
    List (Option HclResource) → decodeResult → RunContext →
      Option (List (Option HclResource) × decodeResult × RunContext)
  | [], res, runCtx => some ([], res, runCtx)
  | resource :: rest, res, runCtx =>
    match handleDecodeResult env resource res block runCtx with
    | none => none
    | some (resource, res, runCtx) =>
      match handleDecodeResults env block rest res runCtx with
      | none => none
      | some (rest, res, runCtx) => some (resource :: rest, res, runCtx)

/-- The dispatch of `decodeBlock` on the block type: the resources and the result of the
type-specific decoder. -/
def decodeByType (env : Env)
    (decodeBlocks : HclResource → RunContext → Option (decodeResult × HclResource × RunContext))
    (block : Block) (runCtx : RunContext) :
    Option (List (Option HclResource) × decodeResult × RunContext) :=
  if env.QueryProviderBlocks.contains block.BlockType then
    (decodeQueryProvider env block runCtx).map (fun (resource, res) => ([resource], res, runCtx))
  else if block.BlockType = BlockTypeLocals then
    let (locals, res) := decodeLocals env block runCtx
    some (locals.map some, res, runCtx)
  else if block.BlockType = BlockTypeContainer ∨ block.BlockType = BlockTypeReport then
    (decodeReportContainer env decodeBlocks block runCtx).map
      (fun (resource, res, runCtx) => ([resource], res, runCtx))
  else if block.BlockType = BlockTypeVariable then
    let (resource, res) := decodeVariable env block runCtx
    some ([resource], res, runCtx)
  else if block.BlockType = BlockTypeBenchmark then
    (decodeBenchmark env block runCtx).map (fun (resource, res) => ([resource], res, runCtx))
  else
    (decodeResource env block runCtx).map (fun (resource, res) => ([resource], res, runCtx))

/-- The body of `decodeBlock`, with the decoding of the nested blocks of a container as the
argument `decodeBlocks`. The assignment to `block.Labels` is the rebinding of `block`; the
deferred `PopDecodeBlock` is applied at each return that follows the push. -/
def decodeBlockWith (env : Env)
    (decodeBlocks : HclResource → RunContext → Option (decodeResult × HclResource × RunContext))
    (block : Block) (runCtx : RunContext) :
    Option (List (Option HclResource) × decodeResult × RunContext) :=
  let res := decodeResult.empty
  -- if opts specifies block types, check whether this type is included
  if !runCtx.ShouldIncludeBlock block then some ([], res, runCtx)
  else
    -- if this block is anonymous, give it a unique name
    let anonymousBlock := runCtx.IsBlockAnonymous block
    let block :=
      if anonymousBlock then block.setLabels [env.GetAnonymousResourceName runCtx block]
      else block
    let runCtx := runCtx.PushDecodeBlock block
    -- check name is valid
    match validateName env block with
    | none => none
    | some diags =>
      if diags.HasErrors then some ([], res.addDiags diags, runCtx.PopDecodeBlock)
      else
        match decodeByType env decodeBlocks block runCtx with
        | none => none
        | some (resources, res, runCtx) =>
          match handleDecodeResults env block resources res runCtx with
          | none => none
          | some (resources, res, runCtx) => some (resources, res, runCtx.PopDecodeBlock)

/-- The inner loop of `decodeReportContainerBlocks` over the resources of one nested block:
inputs are collected apart, every other resource that is a tree item becomes a child.
`none` is the panic of the type assertion to an input. -/
def collectChildren (env : Env) (b : Block) :
    List (Option HclResource) → List String → List String → Option (List String × List String)
  | [], children, inputs => some (children, inputs)
  | resource :: rest, children, inputs =>
    if b.BlockType = BlockTypeInput then
      match resource with
      | none => none
      | some r =>
        if r.BlockType = BlockTypeInput then collectChildren env b rest children (inputs ++ [r.Name])
        else none
    else
      match resource with
      | some r =>
        if env.ImplementsModTreeItem r.BlockType then
          collectChildren env b rest (children ++ [r.Name]) inputs
        else collectChildren env b rest children inputs
      | none => collectChildren env b rest children inputs

mutual

/-- The function `decodeBlock`: the decoded resources, the result and the run context as
the call leaves it; `none` is a panic. -/
def decodeBlock (env : Env) : Block → RunContext →
    Option (List (Option HclResource) × decodeResult × RunContext)
  | Block.mk t l lr d a bs bd s, runCtx =>
    decodeBlockWith env
      (fun reportContainer ctx =>
        decodeReportContainerBlocksFrom env bs reportContainer decodeResult.empty [] [] ctx)
      (Block.mk t l lr d a bs bd s) runCtx

/-- The loop of `decodeReportContainerBlocks` from a given state of its variables `res`,
`children` and `inputs`; at the end the children and inputs are set on the container. -/
def decodeReportContainerBlocksFrom (env : Env) : List Block → HclResource → decodeResult →
    List String → List String → RunContext → Option (decodeResult × HclResource × RunContext)
  | [], reportContainer, res, children, inputs, runCtx =>
    some (res, { reportContainer with Children := children, Inputs := inputs }, runCtx)
  | b :: rest, reportContainer, res, children, inputs, runCtx =>
    match decodeBlock env b runCtx with
    | none => none
    | some (resources, blockRes, runCtx) =>
      let res := res.Merge blockRes
      if !blockRes.Success then
        decodeReportContainerBlocksFrom env rest reportContainer res children inputs runCtx
      else
        match collectChildren env b resources children inputs with
        | none => none
        | some (children, inputs) =>
          decodeReportContainerBlocksFrom env rest reportContainer res children inputs runCtx

end

/-- The function `decodeReportContainerBlocks`. -/
def decodeReportContainerBlocks (env : Env) (content : Block) (reportContainer : HclResource)
    (runCtx : RunContext) : Option (decodeResult × HclResource × RunContext) :=
  decodeReportContainerBlocksFrom env content.Blocks reportContainer decodeResult.empty [] []
    runCtx

/-- The loop of `decode` over the blocks, from a given state of `diags`. -/
def decodeLoop (env : Env) : List Block → RunContext → Diagnostics →
    Option (Diagnostics × RunContext)
  | [], runCtx, diags => some (diags, runCtx)
  | block :: rest, runCtx, diags =>
    match decodeBlock env block runCtx with
    | none => none
    | some (_, res, runCtx) =>
      if !res.Success then decodeLoop env rest runCtx (diags ++ res.Diags)
      else decodeLoop env rest runCtx diags

/-- The function `decode`: the diagnostics it returns and the run context it leaves. -/
def decode (env : Env) (runCtx : RunContext) : Option (Diagnostics × RunContext) :=
  -- build list of blocks to decode
  let (blocks, err) := env.BlocksToDecode runCtx
  -- now clear dependencies from run context - they will be rebuilt
  let runCtx := runCtx.ClearDependencies
  let diags : Diagnostics :=
    match err with
    | some e => [orderingDiag e]
    | none => []
  decodeLoop env blocks runCtx diags

/-- The pass over the blocks in the words of the spec: `decodeBlock` is attempted on every
block once, in the order given, each from the run context the block before it left,
whatever the result of that block was; the results are listed block by block. -/
def decodeEach (env : Env) : List Block → RunContext → Option (List decodeResult × RunContext)
  | [], runCtx => some ([], runCtx)
  | block :: rest, runCtx =>
    match decodeBlock env block runCtx with
    | none => none
    | some (_, res, runCtx) =>
      match decodeEach env rest runCtx with
      | none => none
      | some (results, runCtx) => some (res :: results, runCtx)

/-- The diagnostics of the unsuccessful results, in order. -/
def diagsOfUnsuccessful (results : List decodeResult) : Diagnostics :=
  (results.filter (fun res => !res.Success)).flatMap (fun res => res.Diags)

/-- The ordering diagnostic, if the ordering failed. -/
def orderingDiags : Option String → Diagnostics
  | some e => [orderingDiag e]
  | none => []

end parse

/-! ## Concrete inputs

An environment whose library functions are the simplest ones, and a few blocks, for
evaluating the decoder on concrete declarations. -/

namespace parse.demo

open hcl modconfig parse

/-- Identifier check on ASCII names: a letter or underscore first, then letters, digits,
underscores and dashes. -/
def validIdentifier (s : String) : Bool :=
  match s.toList with
  | [] => false
  | c :: cs =>
    (c.isAlpha || c == '_') && cs.all (fun d => d.isAlphanum || d == '_' || d == '-')

def range0 : Range := { Filename := "mod.sp", Start := ⟨1, 1, 0⟩, End := ⟨1, 1, 0⟩ }

def lineRange (line : Nat) : Range :=
  { Filename := "mod.sp", Start := ⟨line, 1, 0⟩, End := ⟨line, 1, 0⟩ }

/-- The resource with the properties of the body filled in: `sql` is taken from the source
text of the attribute, `query` is the name the attribute refers to. -/
def decodeBody (block : Block) (_ctx : EvalContext) (r : HclResource) :
    HclResource × Diagnostics :=
  let r := match block.getAttribute "sql" with
    | some a => { r with SQL := a.Expr.Source }
    | none => r
  let r := match block.getAttribute "query" with
    | some a => { r with Query := a.Expr.Variables.head? }
    | none => r
  (r, [])

/-- An environment in which evaluation never fails and no helper reports anything; a source
text that opens with a bracket evaluates to a tuple, any other to a string. -/
def env : Env where
  ValidIdentifier := validIdentifier
  Value := fun e _ =>
    (if e.Source.toList.head? == some '[' then cty.Value.TupleVal []
     else cty.Value.StringVal e.Source, [])
  DecodeBody := decodeBody
  DecodeExpression := fun e _ => (some (cty.Value.StringVal e.Source), [])
  DecodeString := fun e _ => (some e.Source, [])
  ctyToPostgresString := fun _ => ("", none)
  ctyObjectToMapOfPgStrings := fun _ => ([], none)
  ctyTupleToArrayOfPgStrings := fun _ => ([], none)
  NewParamDef := fun b parent =>
    { Name := b.Labels.headD "", FullName := "param." ++ parent ++ "." ++ b.Labels.headD "",
      Description := none, Default := none }
  AddReferences := fun _ _ _ => ([], [])
  OnDecoded := fun r _ => (r, [])
  QueryProviderBlocks := [BlockTypeQuery, BlockTypeControl, BlockTypeChart]
  ImplementsQueryProvider := fun t => [BlockTypeQuery, BlockTypeControl, BlockTypeChart].contains t
  ImplementsResourceWithMetadata := fun _ => false
  ImplementsModTreeItem := fun _ => true
  GetMetadataForParsedResource := fun n _ _ =>
    ({ ResourceName := n, FileName := "mod.sp", StartLineNumber := 1, EndLineNumber := 1 }, none)
  DecodeVariableBlock := fun b =>
    (NewLocal (b.Labels.headD "") cty.Value.NullVal b.DefRange, [])
  resolveChildrenFromNames := fun names _ _ _ => (names, [])
  BlocksToDecode := fun _ => ([], none)
  GetAnonymousResourceName := fun _ b => "anonymous_" ++ b.BlockType ++ "_0"

def attr (name source : String) (vars : List String) (line : Nat) : Attribute :=
  { Name := name, Expr := { Source := source, Variables := vars }, Range := lineRange line,
    NameRange := lineRange line }

/-- An empty mod `m` and the run context of a fresh load. -/
def mod0 : Mod := { ShortName := "m", FullName := "mod.m", Resources := [] }

def ctx0 : RunContext :=
  { CurrentMod := mod0, BlockTypes := [], Symbols := [], Dependencies := [], DecodeStack := [] }

/-- The block `param "p1" {}`. -/
def paramP1 : Block := Block.mk "param" ["p1"] [lineRange 4] (lineRange 4) [] [] [] (lineRange 4)

/-- The block `query "q2" { sql = "select 1"  query = query.q1 }`. -/
def queryBoth : Block :=
  Block.mk "query" ["q2"] [lineRange 1] (lineRange 1)
    [attr "sql" "select 1" [] 2, attr "query" "query.q1" ["query.q1"] 3] [] [] (lineRange 1)

/-- The block `query "q2" { sql = "select 1"  query = query.q1  param "p1" {} }`. -/
def queryBothParam : Block :=
  Block.mk "query" ["q2"] [lineRange 1] (lineRange 1)
    [attr "sql" "select 1" [] 2, attr "query" "query.q1" ["query.q1"] 3] [paramP1] []
    (lineRange 1)

/-- The block `query "q3" { sql = "select 1"  args = ["a"]  param "p1" {} }`. -/
def queryArgsParam : Block :=
  Block.mk "query" ["q3"] [lineRange 1] (lineRange 1)
    [attr "sql" "select 1" [] 2, attr "args" "[\"a\"]" [] 3] [paramP1] [] (lineRange 1)

/-- The block `query "1bad" { sql = "select 1" }`. -/
def queryBadName : Block :=
  Block.mk "query" ["1bad"] [lineRange 7] (lineRange 7) [attr "sql" "select 1" [] 8] [] []
    (lineRange 7)

/-- The block `locals { a = "x"  9z = "y"  b = "z" }`, without label. -/
def localsBlock : Block :=
  Block.mk "locals" [] [] (lineRange 10)
    [attr "a" "x" [] 11, attr "9z" "y" [] 12, attr "b" "z" [] 13] [] [] (lineRange 10)

/-- The unlabelled block `chart { sql = "select 1" }`. -/
def chartAnonymous : Block :=
  Block.mk "chart" [] [] (lineRange 20) [attr "sql" "select 1" [] 21] [] [] (lineRange 20)

/-- The block `container "c1" { chart { sql = "select 1" } }`. -/
def containerC1 : Block :=
  Block.mk "container" ["c1"] [lineRange 19] (lineRange 19) [] [chartAnonymous] []
    (lineRange 19)

/-- The block `query "q1" { sql = "select 2" }`. -/
def queryQ1 : Block :=
  Block.mk "query" ["q1"] [lineRange 30] (lineRange 30) [attr "sql" "select 2" [] 31] [] []
    (lineRange 30)

/-- The result of a decode that met the unresolved name `var.v1`. -/
def resWaiting : decodeResult :=
  { Diags := [{ Severity := DiagnosticSeverity.DiagError, Summary := "Unknown variable",
                Detail := "", Subject := none,
                Expression := some { Source := "var.v1", Variables := ["var.v1"] } }],
    Depends := ["var.v1"] }

/-- The query `m.query.q1` of a first declaration `query "q1" { sql = "select 1" }`. -/
def firstQ1 : HclResource :=
  { NewLocal "" cty.Value.NullVal range0 with
    BlockType := "query", ShortName := "q1", FullName := "m.query.q1", SQL := "select 1" }

/-- A run context whose mod and symbol table both bind `m.query.q1`, as they do after a
first declaration of that query. -/
def ctxBoth : RunContext :=
  { CurrentMod :=
      { ShortName := "m", FullName := "mod.m", Resources := [("m.query.q1", firstQ1)] },
    BlockTypes := [], Symbols := [("m.query.q1", firstQ1)], Dependencies := [],
    DecodeStack := [] }

/-- A second declaration of the query: the block `query "q1" { sql = "select 3" }`. -/
def queryQ1Again : Block :=
  Block.mk "query" ["q1"] [lineRange 40] (lineRange 40) [attr "sql" "select 3" [] 41] [] []
    (lineRange 40)

/-- The environment `env` with a dependency ordering that fails on a cycle. -/
def envCycle : Env :=
  { env with
    BlocksToDecode := fun _ => ([], some "cycle: benchmark.x -> benchmark.y -> benchmark.x") }

/-- The environment `env` with the blocks to decode given. -/
def envBlocks (blocks : List Block) : Env :=
  { env with BlocksToDecode := fun _ => (blocks, none) }

/-- A run context in the middle of a load: `query "q1"` is being decoded. -/
def ctxDecoding : RunContext :=
  { ctx0 with DecodeStack := [queryQ1] }

/-- The shell resource that `resourceForBlock` creates for a query block with this label. -/
def queryShell (label : String) : HclResource :=
  { BlockType := "query", ShortName := label, FullName := "query." ++ label,
    UnqualifiedName := "query." ++ label, DeclRange := lineRange 1,
    SQL := "", Query := none, Args := none, Params := [], Value := none,
    Properties := [], Children := [], Inputs := [], References := [], Mod := none,
    Metadata := none }

end parse.demo

/-! # The resource model (`steampipeconfig/modconfig`)

Pointers to a base card and to the mods of a resource map are values here: the base and
the mods are part of the value that points to them, so these structures are finite and the
recursive methods on them terminate. The parents of a tree item are pointers into a memory
of tree items, and a path is a slice of a backing array in that memory, so that parents and
arrays are shared as they are in Go. Go maps are association lists with the entries in the
order a `range` loop visits them. -/

namespace modconfig

open hcl

/-- Lookup in a Go map (`value, ok := m[key]`). -/
def mapGet {V : Type} (m : List (String × V)) (key : String) : Option V := m.lookup key

/-- Assignment into a Go map (`m[key] = value`): the entry of the key is replaced, or the
new entry is added. -/
def mapSet {V : Type} (m : List (String × V)) (key : String) (value : V) :
    List (String × V) :=
  if (m.lookup key).isSome then m.map (fun e => if e.1 == key then (key, value) else e)
  else m ++ [(key, value)]

/-- The values of a Go map in the order a `range` loop visits them. -/
def mapValues {V : Type} (m : List (String × V)) : List V := m.map (fun e => e.2)

/-- The function `typehelpers.SafeString` on a string pointer: the empty string for nil. -/
def SafeString (s : Option String) : String := s.getD ""

/-- A path from the root of the tree to a node, as fully-qualified names (`NodePath`, a
`[]string`): a slice, that is the backing array it points to, its length and its
capacity. Two paths may point to the same array. -/
structure NodePath where
  array : Nat
  len : Nat
  cap : Nat
deriving DecidableEq, Repr

/-- A value of the interface `ModTreeItem` in the role of a parent: a pointer to a tree
item. Two children of one parent hold the same pointer. -/
abbrev ModTreeItem := Nat

/-- What a `ModTreeItem` points to: the mod, whose paths are the one path holding its name,
or any other tree item with its name, its lazily computed `Paths` and its own `parents`, as
`DashboardCard` and `Panel` declare them. -/
inductive TreeItem where
  | mod (name : String) : TreeItem
  | item (name : String) (Paths : List NodePath) (parents : List ModTreeItem) : TreeItem
deriving DecidableEq, Repr

/-- The memory that the paths live in: the backing arrays of the `[]string` slices, each as
long as its capacity, and the tree items that the pointers of the parents point to. -/
structure Heap where
  arrays : List (List String) := []
  items : List TreeItem := []
deriving DecidableEq, Repr

namespace Heap

/-- The strings of a path: the first `len` elements of its backing array. -/
def read (h : Heap) (path : NodePath) : List String :=
  (h.arrays.getD path.array []).take path.len

/-- A new backing array of the capacity given that starts with the elements, and the slice
of those elements. -/
def alloc (h : Heap) (elems : List String) (cap : Nat) : Heap × NodePath :=
  ({ h with arrays := h.arrays ++ [elems ++ List.replicate (cap - elems.length) ""] },
    { array := h.arrays.length, len := elems.length, cap := cap })

/-- The capacity that the Go runtime gives the new array when `append` adds one element to
a full slice of strings: 1 for a slice without capacity, else twice the old capacity (the
rule for slices of fewer than 256 elements, which paths are). -/
def growCap (oldCap : Nat) : Nat := if oldCap == 0 then 1 else 2 * oldCap

/-- The built-in `append(path, s)`: while the slice has spare capacity the string is written
into the backing array right behind the slice, whatever stands there, and the result points
to the same array; a full slice is copied to a new array. -/
def appendString (h : Heap) (path : NodePath) (s : String) : Heap × NodePath :=
  if path.len < path.cap then
    ({ h with
       arrays := h.arrays.set path.array ((h.arrays.getD path.array []).set path.len s) },
      { path with len := path.len + 1 })
  else h.alloc (h.read path ++ [s]) (growCap path.cap)

/-- The field `Paths` of the tree item a pointer points to. -/
def pathsOf (h : Heap) (ptr : ModTreeItem) : List NodePath :=
  match h.items.get? ptr with
  | some (TreeItem.item _ paths _) => paths
  | _ => []

/-- The assignment to the field `Paths` of the tree item a pointer points to. -/
def setPaths (h : Heap) (ptr : ModTreeItem) (paths : List NodePath) : Heap :=
  match h.items.get? ptr with
  | some (TreeItem.item name _ parents) =>
    { h with items := h.items.set ptr (TreeItem.item name paths parents) }
  | _ => h

end Heap

/-- The inner loop of `SetPaths` for the item `name` over the paths of one parent:
`c.Paths = append(c.Paths, append(parentPath, c.Name()))`. -/
def appendPaths (name : String) : List NodePath → List NodePath → Heap → List NodePath × Heap
  | [], paths, h => (paths, h)
  | parentPath :: rest, paths, h =>
    let (h, path) := h.appendString parentPath name
    appendPaths name rest (paths ++ [path]) h

/-- The outer loop of `SetPaths` for a tree item that a pointer points to, with `GetPaths`
of the parents as the argument `getPaths`. The field `Paths` is read and assigned in the
memory. -/
def TreeItem.setPathsLoop (getPaths : Heap → ModTreeItem → Option (List NodePath × Heap))
    (ptr : ModTreeItem) (name : String) : List ModTreeItem → Heap → Option Heap
  | [], h => some h
  | parent :: rest, h =>
    match getPaths h parent with
    | none => none
    | some (parentPaths, h) =>
      let (paths, h) := appendPaths name parentPaths (h.pathsOf ptr) h
      TreeItem.setPathsLoop getPaths ptr name rest (h.setPaths ptr paths)

/-- The method `GetPaths` of the tree item a pointer points to: the paths, and the memory
as the call leaves it. For the mod it is `Mod.GetPaths`, a new one-element slice at every
call; for another item it is the lazy load that `DashboardCard.GetPaths` and
`Panel.GetPaths` share. The first argument bounds the depth of the calls; `none` is a nil
pointer, or a chain of parents longer than that bound. -/
def Heap.GetPaths : Nat → Heap → ModTreeItem → Option (List NodePath × Heap)
  | 0, _, _ => none
  | fuel + 1, h, ptr =>
    match h.items.get? ptr with
    | none => none
    | some (TreeItem.mod name) =>
      let (h, path) := h.alloc [name] 1
      some ([path], h)
    | some (TreeItem.item name paths parents) =>
      -- lazy load
      if paths.length == 0 then
        match TreeItem.setPathsLoop (Heap.GetPaths fuel) ptr name parents h with
        | none => none
        | some h => some (h.pathsOf ptr, h)
      else some (paths, h)

/-- The outer loop of `SetPaths` for a card or a panel `name` that is the receiver of the
call, with `GetPaths` of the parents as the argument `getPaths`: the paths of the receiver
and the memory. -/
def setPathsLoop (getPaths : Heap → ModTreeItem → Option (List NodePath × Heap))
    (name : String) : List ModTreeItem → List NodePath → Heap → Option (List NodePath × Heap)
  | [], paths, h => some (paths, h)
  | parent :: rest, paths, h =>
    match getPaths h parent with
    | none => none
    | some (parentPaths, h) =>
      let (paths, h) := appendPaths name parentPaths paths h
      setPathsLoop getPaths name rest paths h

/-- The fields of `DashboardCard` other than the base; `Type_` is the field `Type`, the
query is kept by its name. -/
structure DashboardCardFields where
  FullName : String := ""
  ShortName : String := ""
  UnqualifiedName : String := ""
  Title : Option String := none
  Width : Option Int := none
  Type_ : Option String := none
  Icon : Option String := none
  Display : Option String := none
  SQL : Option String := none
  Query : Option String := none
  PreparedStatementName : String := ""
  Args : Option QueryArgs := none
  Params : List ParamDef := []
  DeclRange : Range := { Filename := "", Start := ⟨0, 0, 0⟩, End := ⟨0, 0, 0⟩ }
  Mod : Option String := none
  Paths : List NodePath := []
  parents : List ModTreeItem := []
  metadata : Option ResourceMetadata := none

/-- The struct `DashboardCard`: its fields and the card its `Base` points to. -/
inductive DashboardCard where
  | mk (fields : DashboardCardFields) (Base : Option DashboardCard) : DashboardCard

namespace DashboardCard

def fields : DashboardCard → DashboardCardFields
  | mk f _ => f

def Base : DashboardCard → Option DashboardCard
  | mk _ b => b

def Title (c : DashboardCard) : Option String := c.fields.Title

def Width (c : DashboardCard) : Option Int := c.fields.Width

def Type_ (c : DashboardCard) : Option String := c.fields.Type_

def Icon (c : DashboardCard) : Option String := c.fields.Icon

def Display (c : DashboardCard) : Option String := c.fields.Display

def SQL (c : DashboardCard) : Option String := c.fields.SQL

def Paths (c : DashboardCard) : List NodePath := c.fields.Paths

def parents (c : DashboardCard) : List ModTreeItem := c.fields.parents

/-- The method `Name`. -/
def Name (c : DashboardCard) : String := c.fields.FullName

/-- The method `setBaseProperties`. -/
def setBaseProperties : DashboardCard → DashboardCard
  | mk f none => mk f none
  | mk f (some base) =>
    let f := if f.Title.isNone then { f with Title := base.Title } else f
    let f := if f.Type_.isNone then { f with Type_ := base.Type_ } else f
    let f := if f.Icon.isNone then { f with Icon := base.Icon } else f
    let f := if f.Width.isNone then { f with Width := base.Width } else f
    let f := if f.SQL.isNone then { f with SQL := base.SQL } else f
    mk f (some base)

/-- The method `OnDecoded`: the card as the hook leaves it, and the diagnostics (nil). -/
def OnDecoded (c : DashboardCard) (_block : Block) : DashboardCard × Diagnostics :=
  (c.setBaseProperties, [])

/-- The method `AddParent`: the card with the parent appended, and the error (nil). -/
def AddParent : DashboardCard → ModTreeItem → DashboardCard × Option String
  | mk f b, parent => (mk { f with parents := f.parents ++ [parent] } b, none)

/-- The method `GetParents`. -/
def GetParents (c : DashboardCard) : List ModTreeItem := c.parents

/-- The method `SetPaths`: the card and the memory as the call leaves them; `fuel` bounds
the depth of the calls of `GetPaths` on the parents. -/
def SetPaths (fuel : Nat) : DashboardCard → Heap → Option (DashboardCard × Heap)
  | mk f b, h =>
    match setPathsLoop (Heap.GetPaths fuel) f.FullName f.parents f.Paths h with
    | none => none
    | some (paths, h) => some (mk { f with Paths := paths } b, h)

/-- The method `GetPaths`: the paths, and the card and the memory as the call leaves
them. -/
def GetPaths (fuel : Nat) (c : DashboardCard) (h : Heap) :
    Option (List NodePath × DashboardCard × Heap) :=
  -- lazy load
  if c.Paths.length == 0 then
    match c.SetPaths fuel h with
    | none => none
    | some (c, h) => some (c.Paths, c, h)
  else some (c.Paths, c, h)

end DashboardCard

/-- The fields of `Panel` other than its child panels; `Type_` is the field `Type`. -/
structure PanelFields where
  FullName : String := ""
  ShortName : String := ""
  Title : Option String := none
  Type_ : Option String := none
  Width : Option Int := none
  Height : Option Int := none
  Source : Option String := none
  SQL : Option String := none
  Text : Option String := none
  DeclRange : Range := { Filename := "", Start := ⟨0, 0, 0⟩, End := ⟨0, 0, 0⟩ }
  Mod : Option String := none
  Children : List String := []
  Paths : List NodePath := []
  parents : List ModTreeItem := []
  metadata : Option ResourceMetadata := none
  UnqualifiedName : String := ""

/-- The struct `Panel`: its fields and its child panels. -/
inductive Panel where
  | mk (fields : PanelFields) (Panels : List Panel) : Panel

namespace Panel

def fields : Panel → PanelFields
  | mk f _ => f

def Panels : Panel → List Panel
  | mk _ ps => ps

def Paths (p : Panel) : List NodePath := p.fields.Paths

def parents (p : Panel) : List ModTreeItem := p.fields.parents

/-- The method `Name`. -/
def Name (p : Panel) : String := p.fields.FullName

/-- The method `AddParent`: the panel with the parent appended, and the error (nil). -/
def AddParent : Panel → ModTreeItem → Panel × Option String
  | mk f ps, parent => (mk { f with parents := f.parents ++ [parent] } ps, none)

/-- The method `GetParents`. -/
def GetParents (p : Panel) : List ModTreeItem := p.parents

/-- The method `SetPaths`: the panel and the memory as the call leaves them; `fuel` bounds
the depth of the calls of `GetPaths` on the parents. -/
def SetPaths (fuel : Nat) : Panel → Heap → Option (Panel × Heap)
  | mk f ps, h =>
    match setPathsLoop (Heap.GetPaths fuel) f.FullName f.parents f.Paths h with
    | none => none
    | some (paths, h) => some (mk { f with Paths := paths } ps, h)

/-- The method `GetPaths`: the paths, and the panel and the memory as the call leaves
them. -/
def GetPaths (fuel : Nat) (p : Panel) (h : Heap) : Option (List NodePath × Panel × Heap) :=
  -- lazy load
  if p.Paths.length == 0 then
    match p.SetPaths fuel h with
    | none => none
    | some (p, h) => some (p.Paths, p, h)
  else some (p.Paths, p, h)

end Panel

/-- The struct `Variable`, as far as its methods here read it. -/
structure Variable where
  ShortName : String := ""
  FullName : String := ""
  Description : String := ""
  Default : cty.Value := cty.Value.NullVal
  DescriptionSet : Bool := false
  Value : cty.Value := cty.Value.NullVal
  ValueSourceType : String := ""
  DeclRange : Range := { Filename := "", Start := ⟨0, 0, 0⟩, End := ⟨0, 0, 0⟩ }
  Mod : Option String := none
  UnqualifiedName : String := ""

/-- The equality methods that are declared outside the files embedded here: `Equals` of
the resource types other than the variable (one function, the record tells the type),
`Equals` of a reference, and `RawEquals` of the value library. -/
structure Equalities where
  ResourceEquals : HclResource → HclResource → Bool
  ReferenceEquals : ResourceReference → ResourceReference → Bool
  RawEquals : cty.Value → cty.Value → Bool

namespace Variable

/-- The method `Variable.Equals`. -/
def Equals (eq : Equalities) (v other : Variable) : Bool :=
  v.ShortName == other.ShortName &&
    v.FullName == other.FullName &&
    v.Description == other.Description &&
    eq.RawEquals v.Default other.Default &&
    eq.RawEquals v.Value other.Value

/-- The method `Name`. -/
def Name (v : Variable) : String := v.FullName

/-- The variable as a value of the interface `HclResource`. -/
def asHclResource (v : Variable) : HclResource :=
  { BlockType := BlockTypeVariable, ShortName := v.ShortName, FullName := v.FullName,
    UnqualifiedName := v.UnqualifiedName, DeclRange := v.DeclRange,
    SQL := "", Query := none, Args := none, Params := [], Value := some v.Value,
    Properties := [], Children := [], Inputs := [], References := [], Mod := v.Mod,
    Metadata := none }

end Variable

/-- The struct `WorkspaceResourceMaps` over the type of the mods it holds. `Dashboards` is
the map the workspace walks when it verifies runtime dependencies. -/
structure WorkspaceResourceMapsOf (M : Type) where
  Mods : List (String × M) := []
  Queries : List (String × HclResource) := []
  Controls : List (String × HclResource) := []
  Benchmarks : List (String × HclResource) := []
  Variables : List (String × Variable) := []
  Reports : List (String × HclResource) := []
  ReportContainers : List (String × HclResource) := []
  ReportCharts : List (String × HclResource) := []
  ReportCounters : List (String × HclResource) := []
  ReportHierarchies : List (String × HclResource) := []
  ReportImages : List (String × HclResource) := []
  ReportTables : List (String × HclResource) := []
  ReportTexts : List (String × HclResource) := []
  References : List (String × ResourceReference) := []
  LocalQueries : List (String × HclResource) := []
  LocalControls : List (String × HclResource) := []
  LocalBenchmarks : List (String × HclResource) := []
  Dashboards : List (String × HclResource) := []

/-- One dependency of a mod on another mod (`ModVersionConstraint`), as `Mod.Save` reads
it. -/
structure ModVersionConstraint where
  Name : String := ""
  VersionString : String := ""
deriving DecidableEq, Repr

/-- The struct `Require`, with the fields that `Mod.Save` reads; the struct itself and its
methods are declared outside the files embedded here. -/
structure Require where
  SteampipeVersionString : String := ""
  Plugins : List String := []
  Mods : List ModVersionConstraint := []
deriving DecidableEq, Repr

/-- The fields of `Mod` other than its resource maps; the resources of the typed maps are
kept in the uniform record, the variables in their own struct. -/
structure ModFields where
  ShortName : String := ""
  FullName : String := ""
  ModDependencyPath : String := ""
  Categories : Option (List String) := none
  Color : Option String := none
  Description : Option String := none
  Documentation : Option String := none
  Icon : Option String := none
  Tags : List (String × String) := []
  Title : Option String := none
  References : List ResourceReference := []
  VersionString : String := ""
  Queries : List (String × HclResource) := []
  Controls : List (String × HclResource) := []
  Benchmarks : List (String × HclResource) := []
  Dashboards : List (String × HclResource) := []
  DashboardContainers : List (String × HclResource) := []
  DashboardCards : List (String × HclResource) := []
  DashboardCharts : List (String × HclResource) := []
  DashboardHierarchies : List (String × HclResource) := []
  DashboardImages : List (String × HclResource) := []
  DashboardInputs : List (String × HclResource) := []
  DashboardTables : List (String × HclResource) := []
  DashboardTexts : List (String × HclResource) := []
  Variables : List (String × Variable) := []
  Locals : List (String × HclResource) := []
  ModPath : String := ""
  DeclRange : Range := { Filename := "", Start := ⟨0, 0, 0⟩, End := ⟨0, 0, 0⟩ }
  /-- the blocks `require` and `requires` -/
  Require : Option modconfig.Require := none
  LegacyRequire : Option modconfig.Require := none
  /-- the parsed version, in its textual form -/
  Version : Option String := none

/-- The struct `Mod`: its fields and its resource maps (`resourceMaps`), which hold mods in
turn. -/
inductive Mod where
  | mk (fields : ModFields) (resourceMaps : WorkspaceResourceMapsOf Mod) : Mod

/-- The struct `WorkspaceResourceMaps`. -/
abbrev WorkspaceResourceMaps := WorkspaceResourceMapsOf Mod

namespace Mod

def fields : Mod → ModFields
  | mk f _ => f

def resourceMaps : Mod → WorkspaceResourceMaps
  | mk _ maps => maps

def ShortName (m : Mod) : String := m.fields.ShortName

def FullName (m : Mod) : String := m.fields.FullName

def Tags (m : Mod) : List (String × String) := m.fields.Tags

def Categories (m : Mod) : Option (List String) := m.fields.Categories

def Variables (m : Mod) : List (String × Variable) := m.fields.Variables

def Locals (m : Mod) : List (String × HclResource) := m.fields.Locals

/-- The method `Name`. -/
def Name (m : Mod) : String := m.FullName

/-- The method `Mod.GetPaths`: a new slice that holds the name of the mod, and the memory
with its backing array. -/
def GetPaths (m : Mod) (h : Heap) : List NodePath × Heap :=
  let (h, path) := h.alloc [m.Name] 1
  ([path], h)

/-- The mod as a tree item that a `ModTreeItem` points to. -/
def asTreeItem (m : Mod) : TreeItem := TreeItem.mod m.Name

/-- One loop of `WalkResources` over a typed map, from the state `s` of the visitor: the
state after the loop, and `false` when the visitor has returned false, which ends the
walk. The visitor is a function of its state, as the closure it is in Go. -/
def walkLoop {σ : Type} (resourceFunc : σ → HclResource → σ × Bool) :
    List HclResource → σ → σ × Bool
  | [], s => (s, true)
  | r :: rest, s =>
    let (s, goOn) := resourceFunc s r
    if !goOn then (s, false) else walkLoop resourceFunc rest s

/-- The method `WalkResources`: the state of the visitor after the walk. -/
def WalkResources {σ : Type} (m : Mod) (resourceFunc : σ → HclResource → σ × Bool) (s : σ) :
    σ :=
  let (s, goOn) := walkLoop resourceFunc (mapValues m.fields.Queries) s
  if !goOn then s else
  let (s, goOn) := walkLoop resourceFunc (mapValues m.fields.Controls) s
  if !goOn then s else
  let (s, goOn) := walkLoop resourceFunc (mapValues m.fields.Benchmarks) s
  if !goOn then s else
  let (s, goOn) := walkLoop resourceFunc (mapValues m.fields.Dashboards) s
  if !goOn then s else
  let (s, goOn) := walkLoop resourceFunc (mapValues m.fields.DashboardContainers) s
  if !goOn then s else
  let (s, goOn) := walkLoop resourceFunc (mapValues m.fields.DashboardCards) s
  if !goOn then s else
  let (s, goOn) := walkLoop resourceFunc (mapValues m.fields.DashboardCharts) s
  if !goOn then s else
  let (s, goOn) := walkLoop resourceFunc (mapValues m.fields.DashboardHierarchies) s
  if !goOn then s else
  let (s, goOn) := walkLoop resourceFunc (mapValues m.fields.DashboardImages) s
  if !goOn then s else
  let (s, goOn) := walkLoop resourceFunc (mapValues m.fields.DashboardInputs) s
  if !goOn then s else
  let (s, goOn) := walkLoop resourceFunc (mapValues m.fields.DashboardTables) s
  if !goOn then s else
  let (s, goOn) := walkLoop resourceFunc (mapValues m.fields.DashboardTexts) s
  if !goOn then s else
  let (s, goOn) :=
    walkLoop resourceFunc ((mapValues m.fields.Variables).map Variable.asHclResource) s
  if !goOn then s else
  let (s, _) := walkLoop resourceFunc (mapValues m.fields.Locals) s
  s

/-- The method `containsResource`: the visitor sets `res` and breaks out of the walk at a
resource of that name. -/
def containsResource (m : Mod) (childName : String) : Bool :=
  m.WalkResources
    (fun res item => if item.Name = childName then (true, false) else (res, true)) false

/-- The resources of the typed maps in the fixed order of the types: queries, controls,
benchmarks, dashboards, dashboard containers, cards, charts, hierarchies, images, inputs,
tables, texts, variables, locals; within a type in the order of its map. -/
def allResources (m : Mod) : List HclResource :=
  mapValues m.fields.Queries ++ mapValues m.fields.Controls ++
  mapValues m.fields.Benchmarks ++ mapValues m.fields.Dashboards ++
  mapValues m.fields.DashboardContainers ++ mapValues m.fields.DashboardCards ++
  mapValues m.fields.DashboardCharts ++ mapValues m.fields.DashboardHierarchies ++
  mapValues m.fields.DashboardImages ++ mapValues m.fields.DashboardInputs ++
  mapValues m.fields.DashboardTables ++ mapValues m.fields.DashboardTexts ++
  (mapValues m.fields.Variables).map Variable.asHclResource ++ mapValues m.fields.Locals

/-- The calls that a visit of the resources in order makes when it ends at the first
`false`: every resource with what the visitor returned for it. -/
def callsUntilStop {σ : Type} (resourceFunc : σ → HclResource → σ × Bool) :
    List HclResource → σ → List (HclResource × Bool)
  | [], _ => []
  | r :: rest, s =>
    let (s1, goOn) := resourceFunc s r
    (r, goOn) :: (if goOn then callsUntilStop resourceFunc rest s1 else [])

/-- A visitor that also keeps the log of its calls: the resource and what it returned. -/
def logged {σ : Type} (resourceFunc : σ → HclResource → σ × Bool) :
    σ × List (HclResource × Bool) → HclResource → (σ × List (HclResource × Bool)) × Bool :=
  fun s r =>
    let (s1, goOn) := resourceFunc s.1 r
    ((s1, s.2 ++ [(r, goOn)]), goOn)

end Mod

/-- The comparison of one pair of typed maps in `WorkspaceResourceMaps.Equals`: every entry
of the first map has an entry of the same name in the other that is `Equals` to it, and
every name of the other map is in the first. -/
def mapEquals {V : Type} (equals : V → V → Bool) (m other : List (String × V)) : Bool :=
  m.all (fun e =>
    match mapGet other e.1 with
    | none => false
    | some otherValue => equals e.2 otherValue) &&
  other.all (fun e => (mapGet m e.1).isSome)

/-- The method `WorkspaceResourceMaps.Equals`, with its first loop, over the mods of the
receiver, as the argument `modsEqual`. -/
def WorkspaceResourceMapsOf.EqualsWith {M : Type} (eq : Equalities)
    (modsEqual : List (String × M) → Bool) (m other : WorkspaceResourceMapsOf M) : Bool :=
  modsEqual other.Mods &&
  other.Mods.all (fun e => (mapGet m.Mods e.1).isSome) &&
  mapEquals eq.ResourceEquals m.Queries other.Queries &&
  mapEquals eq.ResourceEquals m.Controls other.Controls &&
  mapEquals eq.ResourceEquals m.Benchmarks other.Benchmarks &&
  mapEquals (Variable.Equals eq) m.Variables other.Variables &&
  mapEquals eq.ResourceEquals m.Reports other.Reports &&
  mapEquals eq.ResourceEquals m.ReportContainers other.ReportContainers &&
  mapEquals eq.ResourceEquals m.ReportCharts other.ReportCharts &&
  mapEquals eq.ResourceEquals m.ReportCounters other.ReportCounters &&
  mapEquals eq.ResourceEquals m.ReportHierarchies other.ReportHierarchies &&
  mapEquals eq.ResourceEquals m.ReportImages other.ReportImages &&
  mapEquals eq.ResourceEquals m.ReportTables other.ReportTables &&
  mapEquals eq.ResourceEquals m.ReportTexts other.ReportTexts &&
  mapEquals eq.ReferenceEquals m.References other.References

/-- The comparison of the categories in `Mod.Equals`: both nil, or both set with the same
length and the same elements. -/
def categoriesEqual : Option (List String) → Option (List String) → Bool
  | none, none => true
  | none, some _ => false
  | some _, none => false
  | some cs, some others => cs.length == others.length && cs == others

/-- The comparison of the tags in `Mod.Equals`: the same number of entries, and for every
entry of the receiver the other map gives the same value, where a key the other map lacks
gives the empty string. -/
def tagsEqual (tags otherTags : List (String × String)) : Bool :=
  tags.length == otherTags.length &&
  tags.all (fun e => e.2 == (mapGet otherTags e.1).getD "")

/-- The loops of `Mod.Equals` over the variables, or over the locals: every key of each map
is a key of the other one. -/
def keysEqual {V W : Type} (m : List (String × V)) (other : List (String × W)) : Bool :=
  m.all (fun e => (mapGet other e.1).isSome) && other.all (fun e => (mapGet m e.1).isSome)

/-- The method `Mod.Equals`, with the comparison of the resource maps as the argument
`resourceMapsEqual`. -/
def Mod.EqualsWith (resourceMapsEqual : WorkspaceResourceMaps → Bool) (m other : Mod) : Bool :=
  let res := m.ShortName == other.ShortName &&
    m.FullName == other.FullName &&
    SafeString m.fields.Color == SafeString other.fields.Color &&
    SafeString m.fields.Description == SafeString other.fields.Description &&
    SafeString m.fields.Documentation == SafeString other.fields.Documentation &&
    SafeString m.fields.Icon == SafeString other.fields.Icon &&
    SafeString m.fields.Title == SafeString other.fields.Title
  if !res then res
  -- categories
  else if !categoriesEqual m.Categories other.Categories then false
  -- tags
  else if !tagsEqual m.Tags other.Tags then false
  -- now check the child resources
  else if !resourceMapsEqual other.resourceMaps then false
  -- variables
  else if !keysEqual m.Variables other.Variables then false
  -- locals
  else if !keysEqual m.Locals other.Locals then false
  else true

mutual

/-- The method `Mod.Equals`. -/
def Mod.Equals (eq : Equalities) : Mod → Mod → Bool
  | Mod.mk f maps@(WorkspaceResourceMapsOf.mk mods ..), other =>
    Mod.EqualsWith
      (fun otherMaps =>
        WorkspaceResourceMapsOf.EqualsWith eq (fun otherMods => modsEqualLoop eq mods otherMods)
          maps otherMaps)
      (Mod.mk f maps) other

/-- The first loop of `WorkspaceResourceMaps.Equals`: every mod of the receiver has a mod of
the same name in the other map that is `Equals` to it. -/
def modsEqualLoop (eq : Equalities) : List (String × Mod) → List (String × Mod) → Bool
  | [], _ => true
  | (name, mod) :: rest, otherMods =>
    (match mapGet otherMods name with
      | none => false
      | some otherMod => Mod.Equals eq mod otherMod) &&
    modsEqualLoop eq rest otherMods

end

/-- The method `WorkspaceResourceMaps.Equals`. -/
def WorkspaceResourceMapsOf.Equals (eq : Equalities) (m other : WorkspaceResourceMaps) : Bool :=
  WorkspaceResourceMapsOf.EqualsWith eq (fun otherMods => modsEqualLoop eq m.Mods otherMods)
    m other

end modconfig

/-! # The workspace (`workspace/workspace.go`) -/

namespace workspace

open hcl modconfig

/-- The options of a file listing (`filehelpers.ListOptions`). -/
structure ListOptions where
  Flags : Nat := 0
  Exclude : List String := []
  Include : List String := []

/-- Modelled from the spec: the run context as the workspace builds and reads it (the type
is declared outside the files embedded here): the arguments of `NewRunContext`, the input
variables added to it, and the dependency mods a load leaves in it. -/
structure RunContext where
  WorkspaceLock : String := ""
  RootPath : String := ""
  ParseFlag : Nat := 0
  ListOptions : ListOptions := {}
  Variables : List (String × cty.Value) := []
  LoadedDependencyMods : List (String × Mod) := []

/-- The struct `Workspace`, without the file watcher and its handlers. -/
structure Workspace where
  Path : String := ""
  ModInstallationPath : String := ""
  Mod : Option modconfig.Mod := none
  Mods : List (String × modconfig.Mod) := []
  Variables : List (String × Variable) := []
  exclusions : List String := []
  listFlag : Nat := 0
  modFileExists : Bool := false
  loadPseudoResources : Bool := false
  resourceMaps : Option WorkspaceResourceMaps := none

/-- What the workspace takes from code declared outside the files embedded here. A result
that Go returns as `(value, error)` is the value or the message of the error. -/
structure Env where
  /-- `Workspace.getAllVariables(ctx)`: the evaluated input variables -/
  getAllVariables : Workspace → Except String (List (String × cty.Value))
  /-- `versionmap.LoadWorkspaceLock(path)` -/
  LoadWorkspaceLock : String → Except String String
  /-- the parse flags `parse.CreateDefaultMod` and `parse.CreatePseudoResources` -/
  CreateDefaultMod : Nat
  CreatePseudoResources : Nat
  /-- `filehelpers.InclusionsFromExtensions` applied to the mod data extension -/
  InclusionsFromExtensions : List String
  /-- `steampipeconfig.LoadMod(path, runCtx)`: the mod and the run context as the load
  leaves it, or the error -/
  LoadMod : String → RunContext → Except String (Mod × RunContext)
  /-- `Workspace.populateResourceMaps()`: the resource maps built for the workspace -/
  populateResourceMaps : Workspace → WorkspaceResourceMaps
  /-- `BuildRuntimeDependencyTree(workspace)` of a dashboard: the error, if any -/
  BuildRuntimeDependencyTree : HclResource → Workspace → Option String

/-- The method `getRunContext`. -/
def getRunContext (env : Env) (w : Workspace) : Except String RunContext :=
  let parseFlag := env.CreateDefaultMod
  let parseFlag := if w.loadPseudoResources then parseFlag ||| env.CreatePseudoResources
    else parseFlag
  -- load the workspace lock
  match env.LoadWorkspaceLock w.Path with
  | Except.error err =>
    Except.error ("failed to load installation cache from " ++ w.Path ++ ": " ++ err)
  | Except.ok workspaceLock =>
    Except.ok { WorkspaceLock := workspaceLock, RootPath := w.Path, ParseFlag := parseFlag,
                ListOptions := { Flags := w.listFlag, Exclude := w.exclusions,
                                 Include := env.InclusionsFromExtensions } }

/-- The loop of `verifyResourceRuntimeDependencies` over the dashboards. -/
def verifyLoop (env : Env) (w : Workspace) : List HclResource → Option String
  | [] => none
  | d :: rest =>
    match env.BuildRuntimeDependencyTree d w with
    | some err => some err
    | none => verifyLoop env w rest

/-- The method `verifyResourceRuntimeDependencies`: the error, if any. The resource maps
are set when it is called. -/
def verifyResourceRuntimeDependencies (env : Env) (w : Workspace) : Option String :=
  match w.resourceMaps with
  | none => none
  | some maps => verifyLoop env w (mapValues maps.Dashboards)

/-- The method `loadWorkspaceMod`: the workspace as the call leaves it, and the error it
returns, if any. -/
def loadWorkspaceMod (env : Env) (w : Workspace) : Workspace × Option String :=
  -- load and evaluate all variables
  match env.getAllVariables w with
  | Except.error err => (w, some err)
  | Except.ok inputVariables =>
    -- build run context which we use to load the workspace
    match getRunContext env w with
    | Except.error err => (w, some err)
    | Except.ok runCtx =>
      -- add variables to runContext
      let runCtx := { runCtx with Variables := inputVariables }
      -- now load the mod
      match env.LoadMod w.Path runCtx with
      | Except.error err => (w, some err)
      | Except.ok (m, runCtx) =>
        -- now set workspace properties
        let w := { w with Mod := some m }
        -- set variables on workspace
        let w := { w with Variables := m.Variables }
        let w := { w with Mods := runCtx.LoadedDependencyMods }
        -- NOTE: add in the workspace mod to the dependency mods
        let w := { w with Mods := mapSet w.Mods m.Name m }
        -- populate the workspace resource map
        let w := { w with resourceMaps := some (env.populateResourceMaps w) }
        -- verify all runtime dependencies can be resolved
        (w, verifyResourceRuntimeDependencies env w)

end workspace

/-! # Diffs, controls and the mod file (`steampipeconfig/modconfig`)

The change records, the control, and the methods of the mod that add a pseudo resource,
finish the decoding of the mod and read the mod file. -/

namespace utils

/-- Modelled from the spec: `utils.SafeStringsEqual` is declared outside the files embedded
here; it compares what `SafeString` gives for its two arguments, as `Panel.Diff` does by
hand, so that a nil pointer equals the empty string. -/
def SafeStringsEqual (s1 s2 : Option String) : Bool :=
  modconfig.SafeString s1 == modconfig.SafeString s2

/-- Modelled from the spec: `utils.SafeIntEqual` is declared outside the files embedded
here; two pointers are equal when both are nil or both point to the same number, as
`Panel.Diff` tests its width by hand. -/
def SafeIntEqual (i1 i2 : Option Int) : Bool :=
  match i1, i2 with
  | some a, some b => a == b
  | none, none => true
  | _, _ => false

end utils

namespace modconfig

open hcl

/-- Modelled from the spec: the change record of a tree item (`DashboardTreeItemDiffs`), a
set of changed property names and the children that were added and removed. The record
keeps the item by its name. -/
structure DashboardTreeItemDiffs where
  Name : String
  ChangedProperties : List String := []
  AddedItems : List String := []
  RemovedItems : List String := []
deriving DecidableEq, Repr

/-- The change record of the report tree (`ReportTreeItemDiffs`), of the same shape. -/
abbrev ReportTreeItemDiffs := DashboardTreeItemDiffs

namespace DashboardTreeItemDiffs

/-- Modelled from the spec: `AddPropertyDiff` puts the name into the set of changed
property names. -/
def AddPropertyDiff (d : DashboardTreeItemDiffs) (propertyName : String) :
    DashboardTreeItemDiffs :=
  if d.ChangedProperties.contains propertyName then d
  else { d with ChangedProperties := d.ChangedProperties ++ [propertyName] }

/-- Modelled from the spec: `HasChanges` is false exactly for a record of zero changes. -/
def HasChanges (d : DashboardTreeItemDiffs) : Bool :=
  d.ChangedProperties.length + d.AddedItems.length + d.RemovedItems.length > 0

end DashboardTreeItemDiffs

/-- The method `populateChildDiffs` of the change records, which is declared outside the
files embedded here: what it makes of the record for two cards and for two panels. -/
structure ChildDiffs where
  ofCards : DashboardTreeItemDiffs → DashboardCard → DashboardCard → DashboardTreeItemDiffs
  ofPanels : ReportTreeItemDiffs → Panel → Panel → ReportTreeItemDiffs

namespace DashboardCard

/-- The method `GetChildren`: a card has none. -/
def GetChildren (_c : DashboardCard) : List ModTreeItem := []

/-- The method `DashboardCard.Diff`. -/
def Diff (env : ChildDiffs) (c other : DashboardCard) : DashboardTreeItemDiffs :=
  let res : DashboardTreeItemDiffs := { Name := c.Name }
  let res :=
    if !utils.SafeStringsEqual (some c.fields.FullName) (some other.fields.FullName) then
      res.AddPropertyDiff "Name"
    else res
  let res :=
    if !utils.SafeStringsEqual c.Title other.Title then res.AddPropertyDiff "Title" else res
  let res :=
    if !utils.SafeStringsEqual c.SQL other.SQL then res.AddPropertyDiff "SQL" else res
  let res :=
    if !utils.SafeIntEqual c.Width other.Width then res.AddPropertyDiff "Width" else res
  let res :=
    if !utils.SafeStringsEqual c.Type_ other.Type_ then res.AddPropertyDiff "Type" else res
  let res :=
    if !utils.SafeStringsEqual c.Icon other.Icon then res.AddPropertyDiff "Icon" else res
  env.ofCards res c other

/-- The method `DashboardCard.Equals`. -/
def Equals (env : ChildDiffs) (c other : DashboardCard) : Bool :=
  let diff := c.Diff env other
  !diff.HasChanges

end DashboardCard

namespace Panel

/-- The method `Panel.Diff`; the receiver is the old panel. -/
def Diff (env : ChildDiffs) (p new : Panel) : ReportTreeItemDiffs :=
  let res : ReportTreeItemDiffs := { Name := p.Name }
  let res :=
    if SafeString p.fields.Title != SafeString new.fields.Title then
      res.AddPropertyDiff "Title"
    else res
  let res :=
    if SafeString p.fields.Source != SafeString new.fields.Source then
      res.AddPropertyDiff "Source"
    else res
  let res :=
    if SafeString p.fields.SQL != SafeString new.fields.SQL then res.AddPropertyDiff "SQL"
    else res
  let res :=
    if SafeString p.fields.Text != SafeString new.fields.Text then res.AddPropertyDiff "Text"
    else res
  let res :=
    if SafeString p.fields.Type_ != SafeString new.fields.Type_ then
      res.AddPropertyDiff "Type"
    else res
  let res :=
    if p.fields.Width.isNone || new.fields.Width.isNone then
      if !(p.fields.Width.isNone && new.fields.Width.isNone) then res.AddPropertyDiff "Width"
      else res
    else if p.fields.Width != new.fields.Width then res.AddPropertyDiff "Width"
    else res
  let res :=
    if p.fields.Height.isNone || new.fields.Height.isNone then
      if !(p.fields.Height.isNone && new.fields.Height.isNone) then
        res.AddPropertyDiff "Height"
      else res
    else if p.fields.Height != new.fields.Height then res.AddPropertyDiff "Height"
    else res
  env.ofPanels res p new

end Panel

/-- The name of a control group (`ControlGroupName`). -/
structure ControlGroupName where
  Name : String
deriving DecidableEq, Repr

/-- A value of the interface `ControlTreeItem` in the role of a parent or of a child: its
name and its path. -/
structure ControlTreeItem where
  Name : String
  Path : List String
deriving DecidableEq, Repr

/-- The struct `Control`. -/
structure Control where
  ShortName : String := ""
  FullName : String := ""
  Description : Option String := none
  Documentation : Option String := none
  Labels : Option (List String) := none
  Links : Option (List String) := none
  ParentName : Option ControlGroupName := none
  SQL : Option String := none
  Severity : Option String := none
  Title : Option String := none
  DeclRange : Range := { Filename := "", Start := ⟨0, 0, 0⟩, End := ⟨0, 0, 0⟩ }
  parent : Option ControlTreeItem := none
  metadata : Option ResourceMetadata := none
deriving DecidableEq, Repr

namespace Control

/-- The method `AddChild`: the control as the call leaves it, and the error. Controls
cannot have children, so it just returns the error. -/
def AddChild (c : Control) (_child : ControlTreeItem) : Control × Option String :=
  (c, some "cannot add child to a control")

/-- The method `GetParentName`. -/
def GetParentName (c : Control) : String :=
  match c.ParentName with
  | none => ""
  | some parentName => parentName.Name

/-- The method `SetParent`: the control with the parent set, and the error (nil). -/
def SetParent (c : Control) (parent : ControlTreeItem) : Control × Option String :=
  ({ c with parent := some parent }, none)

/-- The method `Name`. -/
def Name (c : Control) : String := c.FullName

/-- The method `Path`. -/
def Path (c : Control) : List String :=
  let path := [c.FullName]
  match c.parent with
  | some parent => parent.Path ++ path
  | none => path

end Control

end modconfig

namespace strings

/-- The pieces of a text between the occurrences of a separator character. -/
def splitChars (sep : Char) : List Char → List (List Char)
  | [] => [[]]
  | c :: cs =>
    if c = sep then [] :: splitChars sep cs
    else
      match splitChars sep cs with
      | [] => [[c]]
      | piece :: pieces => (c :: piece) :: pieces

/-- The function `strings.Split` for a separator of one character. -/
def Split (s : String) (sep : Char) : List String :=
  (splitChars sep s.toList).map String.mk

/-- The function `strings.Join`. -/
def Join (elems : List String) (sep : String) : String := sep.intercalate elems

end strings

namespace modconfig

open hcl

/-- What the methods of the mod take from code declared outside the files embedded here. -/
structure ModEnv where
  /-- `semver.NewVersion`: the version in its textual form, or nil for the error that
  `OnDecoded` ignores -/
  NewVersion : String → Option String
  /-- `Require.Empty` on a receiver that is not nil -/
  RequireEmpty : Require → Bool
  /-- `Require.initialise`: the requirements as it leaves them, and the error, if any -/
  RequireInitialise : Require → Require × Option String
  /-- `ResourceReference.String` -/
  ReferenceString : ResourceReference → String
  /-- `ResourceMetadata.SetMod` on a receiver that is not nil -/
  SetMod : ResourceMetadata → Mod → ResourceMetadata
  /-- `filepaths.ModFilePath` -/
  ModFilePath : String → String
  /-- `helpers.FileExists` -/
  FileExists : String → Bool
  /-- `os.ReadFile`: the content of the file, or the error -/
  ReadFile : String → Except String String

/-- The method `Require.Empty` on a pointer: it reads the fields of its receiver, so a nil
receiver is a panic (`none`). -/
def Require.Empty (env : ModEnv) : Option Require → Option Bool
  | none => none
  | some r => some (env.RequireEmpty r)

/-- One inner loop of `PopulateReferences`: every reference goes into the map under its
string form. -/
def addReferences (env : ModEnv) (references : List (String × ResourceReference))
    (refs : List ResourceReference) : List (String × ResourceReference) :=
  refs.foldl (fun m ref => mapSet m (env.ReferenceString ref) ref) references

/-- The method `WorkspaceResourceMaps.PopulateReferences`: the references of the mods, of
the queries, of the controls and of the benchmarks, in a fresh map. -/
def WorkspaceResourceMapsOf.PopulateReferences (env : ModEnv) (m : WorkspaceResourceMaps) :
    WorkspaceResourceMaps :=
  let references : List (String × ResourceReference) := []
  let references :=
    (mapValues m.Mods).foldl (fun acc mod => addReferences env acc mod.fields.References)
      references
  let references :=
    (mapValues m.Queries).foldl (fun acc query => addReferences env acc query.References)
      references
  let references :=
    (mapValues m.Controls).foldl (fun acc control => addReferences env acc control.References)
      references
  let references :=
    (mapValues m.Benchmarks).foldl
      (fun acc benchmark => addReferences env acc benchmark.References) references
  { m with References := references }

namespace Mod

/-- The error of `OnDecoded` for a mod with both blocks. -/
def bothRequireDiag (block : Block) : Diagnostic :=
  { Severity := DiagnosticSeverity.DiagError,
    Summary := "Both \x27require\x27 and legacy \x27requires\x27 blocks are defined",
    Detail := "", Subject := some block.DefRange, Expression := none }

/-- The statement of `OnDecoded` that handles the legacy `requires` block: the diagnostics
of its early return, or the fields as it leaves them. `none` is the panic of
`Require.Empty` on a nil receiver. -/
def handleLegacyRequire (env : ModEnv) (f : ModFields) (block : Block) :
    Option (Except Diagnostics ModFields) :=
  if f.LegacyRequire.isSome then
    match Require.Empty env f.Require with
    | none => none
    | some empty =>
      if !empty then
        match f.Require with
        | some require =>
          if !env.RequireEmpty require then some (Except.error [bothRequireDiag block])
          else some (Except.ok { f with Require := f.LegacyRequire })
        | none => some (Except.ok { f with Require := f.LegacyRequire })
      else some (Except.ok f)
  else some (Except.ok f)

/-- The method `Mod.OnDecoded`: the mod as the hook leaves it, and the diagnostics. `none`
is a panic. -/
def OnDecoded (env : ModEnv) (m : Mod) (block : Block) : Option (Mod × Diagnostics) :=
  match m with
  | Mod.mk f maps =>
    -- if VersionString is set, set Version
    let f :=
      if f.VersionString != "" && f.Version.isNone then
        { f with Version := env.NewVersion f.VersionString }
      else f
    -- handle legacy requires block
    match handleLegacyRequire env f block with
    | none => none
    | some (Except.error diags) => some (Mod.mk f maps, diags)
    | some (Except.ok f) =>
      -- populate resource map references
      let maps := WorkspaceResourceMapsOf.PopulateReferences env maps
      -- initialise our Require
      match f.Require with
      | none => some (Mod.mk f maps, [])
      | some require =>
        let (require, err) := env.RequireInitialise require
        let f := { f with Require := some require }
        match err with
        | some msg =>
          some (Mod.mk f maps,
            [{ Severity := DiagnosticSeverity.DiagError, Summary := msg, Detail := "",
               Subject := some block.DefRange, Expression := none }])
        | none => some (Mod.mk f maps, [])

/-- The method `AddPseudoResource`: the mod and the resource as the call leaves them. Only
a query is added, and only when the mod has no query of that name; the map holds the
pointer, so it holds the query with the mod set on its metadata. `none` is the panic of
`SetMod` on nil metadata. The maps of `resourceMaps` are kept apart from those of the
mod. -/
def AddPseudoResource (env : ModEnv) (m : Mod) (resource : HclResource) :
    Option (Mod × HclResource) :=
  if resource.BlockType == BlockTypeQuery then
    let r := resource
    -- check there is not already a query with the same name
    if (mapGet m.fields.Queries r.Name).isNone then
      match m with
      | Mod.mk f maps =>
        let m1 := Mod.mk { f with Queries := mapSet f.Queries r.Name r } maps
        -- set the mod on the query metadata
        match r.Metadata with
        | none => none
        | some metadata =>
          let r1 := { r with Metadata := some (env.SetMod metadata m1) }
          some (Mod.mk { f with Queries := mapSet f.Queries r.Name r1 } maps, r1)
    else some (m, r)
  else some (m, resource)

/-- The loop of `loadNonModDataInModFile` over the lines, from the index `i`. -/
def nonModLinesLoop (start end_ : Int) : List String → Int → List String → List String
  | [], _, resLines => resLines
  | line :: rest, i, resLines =>
    if (i < start || i > end_) && line != "" then
      nonModLinesLoop start end_ rest (i + 1) (resLines ++ [line])
    else nonModLinesLoop start end_ rest (i + 1) resLines

/-- The method `loadNonModDataInModFile`: the bytes (nil when there is no mod file), or the
error of reading the file. -/
def loadNonModDataInModFile (env : ModEnv) (m : Mod) : Except String (Option String) :=
  let modFilePath := env.ModFilePath m.fields.ModPath
  if !env.FileExists modFilePath then Except.ok none
  else
    match env.ReadFile modFilePath with
    | Except.error err => Except.error err
    | Except.ok fileData =>
      let fileLines := strings.Split fileData '\n'
      let decl := m.fields.DeclRange
      -- just use line positions
      let start : Int := (decl.Start.Line : Int) - 1
      let end_ : Int := (decl.End.Line : Int) - 1
      let resLines := nonModLinesLoop start end_ fileLines 0 []
      Except.ok (some (strings.Join resLines "\n"))

end Mod

end modconfig

/-! # Invokers (`constants/db.go`) -/

namespace constants

/-- The type `Invoker`, a pseudo enum for the command which starts the service. -/
abbrev Invoker := String

def InvokerService : Invoker := "service"

def InvokerQuery : Invoker := "query"

def InvokerCheck : Invoker := "check"

def InvokerPlugin : Invoker := "plugin"

def InvokerDashboard : Invoker := "dashboard"

def InvokerConnectionWatcher : Invoker := "connection-watcher"

/-- The method `Invoker.IsValid`: the error, if any. -/
def IsValid (i : Invoker) : Option String :=
  if i = InvokerService ∨ i = InvokerQuery ∨ i = InvokerCheck ∨ i = InvokerPlugin ∨
      i = InvokerDashboard then none
  else
    some ("invalid invoker. Can be one of \x27" ++ InvokerService ++ "\x27, \x27" ++
      InvokerQuery ++ "\x27, \x27" ++ InvokerPlugin ++ "\x27, \x27" ++ InvokerCheck ++
      "\x27 or \x27" ++ InvokerDashboard ++ "\x27 ")

end constants

/-! # The plugin manager (`plugin_manager/plugin_manager.go`) -/

namespace plugin_manager

/-- The reattach configuration of a running plugin (`pb.ReattachConfig`), with its process
id. -/
structure ReattachConfig where
  Protocol : String := ""
  Addr : String := ""
  Pid : Int := 0
deriving DecidableEq, Repr

/-- The struct `PluginManager`, without its mutex. -/
structure PluginManager where
  Plugins : List (String × ReattachConfig) := []
  configDir : String := ""
  connectionConfig : List (String × String) := []
deriving DecidableEq, Repr

/-- The processes of the system, as far as the plugin manager acts on them: the process ids
that run, the ones whose lookup fails, the ones that were killed, and the lines logged. -/
structure Processes where
  running : List Int := []
  unreadable : List Int := []
  killed : List Int := []
  log : List String := []
deriving DecidableEq, Repr

/-- The response of `Shutdown` (`pb.ShutdownResponse`), which has no fields. -/
structure ShutdownResponse where
deriving DecidableEq, Repr

/-- The method `killPlugin`: the processes as the call leaves them, and the error, if any.
A process that is not found is not an error; killing a process that runs succeeds. -/
def killPlugin (os : Processes) (pid : Int) : Processes × Option String :=
  if os.unreadable.contains pid then
    ({ os with log := os.log ++ ["[WARN] error finding process"] },
      some "error finding process")
  else if !os.running.contains pid then (os, none)
  else
    ({ os with running := os.running.filter (fun p => p != pid),
               killed := os.killed ++ [pid] }, none)

/-- The statements of `Shutdown` that follow its `return`: the loop that kills every
plugin. No call reaches them. -/
def killAllPlugins (m : PluginManager) (os : Processes) : Processes × List String :=
  (m.Plugins.map (fun e => e.2)).foldl
    (fun acc p =>
      let (os, err) := killPlugin { acc.1 with log := acc.1.log ++ ["[WARN] kill"] } p.Pid
      match err with
      | some e => (os, acc.2 ++ [e])
      | none => (os, acc.2))
    (os, [])

/-- The method `Shutdown`: the response and the error, the plugin manager and the
processes as the call leaves them. The function logs and returns; the mutex is taken at the
start and released by the deferred function, which has no panic to recover. -/
def Shutdown (m : PluginManager) (os : Processes) :
    (ShutdownResponse × Option String) × PluginManager × Processes :=
  let os := { os with log := os.log ++ ["[WARN] Shutdown"] }
  (({}, none), m, os)

end plugin_manager

/-! ## Concrete resources -/

namespace modconfig.demo

open hcl modconfig

/-- The card `card "base" { title = "Base"  width = 4  type = "info"  icon = "i"
display = "table"  sql = "select 1" }`. -/
def baseCard : DashboardCard :=
  DashboardCard.mk
    { FullName := "m.card.base", ShortName := "base", UnqualifiedName := "card.base",
      Title := some "Base", Width := some 4, Type_ := some "info", Icon := some "i",
      Display := some "table", SQL := some "select 1" } none

/-- The memory of a tree: the mod `m`, the dashboard `d1` under the mod, the container `k1`
under the dashboard and the container `k2` under `k1`; no path is computed yet. -/
def tree : Heap :=
  { items := [TreeItem.mod "mod.m",
              TreeItem.item "m.dashboard.d1" [] [0],
              TreeItem.item "m.container.k1" [] [1],
              TreeItem.item "m.container.k2" [] [2]] }

/-- The pointer to the mod `m` in `tree`. -/
def modPtr : ModTreeItem := 0

/-- The pointer to the dashboard `m.dashboard.d1` in `tree`. -/
def dashboardD1 : ModTreeItem := 1

/-- The pointer to the container `m.container.k1` in `tree`. -/
def containerK1 : ModTreeItem := 2

/-- The pointer to the container `m.container.k2` in `tree`. -/
def containerK2 : ModTreeItem := 3

/-- The card `card "c1" { base = card.base  title = "Mine" }`, child of the mod `m`. -/
def cardC1 : DashboardCard :=
  DashboardCard.mk
    { FullName := "m.card.c1", ShortName := "c1", UnqualifiedName := "card.c1",
      Title := some "Mine", parents := [modPtr] } (some baseCard)

/-- The card `c2`, child of the container `k1` and of the container `k2`. -/
def cardC2 : DashboardCard :=
  DashboardCard.mk
    { FullName := "m.card.c2", ShortName := "c2", UnqualifiedName := "card.c2",
      parents := [containerK1, containerK2] } none

/-- The panel `p1`, child of the container `k1` and of the container `k2`. -/
def panelP1 : Panel :=
  Panel.mk { FullName := "panel.p1", ShortName := "p1", parents := [containerK1, containerK2] }
    []

/-- Some block: the hook of the card does not read it. -/
def someBlock : Block :=
  Block.mk "card" ["c1"] [] { Filename := "mod.sp", Start := ⟨1, 1, 0⟩, End := ⟨1, 1, 0⟩ } []
    [] [] { Filename := "mod.sp", Start := ⟨1, 1, 0⟩, End := ⟨1, 1, 0⟩ }

/-- A resource of the block type and short name given, in the mod `m`. -/
def res (blockType name : String) : HclResource :=
  { BlockType := blockType, ShortName := name, FullName := "m." ++ blockType ++ "." ++ name,
    UnqualifiedName := blockType ++ "." ++ name,
    DeclRange := { Filename := "mod.sp", Start := ⟨1, 1, 0⟩, End := ⟨1, 1, 0⟩ },
    SQL := "", Query := none, Args := none, Params := [], Value := none,
    Properties := [], Children := [], Inputs := [], References := [], Mod := some "mod.m",
    Metadata := none }

/-- The mod `m` with two queries, a control, two cards, a text, a variable and a local. -/
def modM : Mod :=
  Mod.mk
    { ShortName := "m", FullName := "mod.m",
      Queries := [("m.query.q1", res "query" "q1"), ("m.query.q2", res "query" "q2")],
      Controls := [("m.control.k1", res "control" "k1")],
      DashboardCards := [("m.card.c1", res "card" "c1"), ("m.card.c2", res "card" "c2")],
      DashboardTexts := [("m.text.t1", res "text" "t1")],
      Variables := [("m.var.v1", { ShortName := "v1", FullName := "m.var.v1" })],
      Locals := [("m.local.l1", res "local" "l1")] } {}

/-- A visitor that counts its calls and always goes on. -/
def countAll : Nat → HclResource → Nat × Bool := fun n _ => (n + 1, true)

/-- A visitor that counts its calls and stops at the resource of the name given. -/
def stopAt (name : String) : Nat → HclResource → Nat × Bool :=
  fun n r => (n + 1, r.Name != name)

/-- Equality methods for the concrete inputs: resources by name and SQL, references by
their fields, values by their strings. -/
def eq : Equalities :=
  { ResourceEquals := fun a b => a.FullName == b.FullName && a.SQL == b.SQL,
    ReferenceEquals := fun a b => a == b,
    RawEquals := fun a b =>
      match a, b with
      | cty.Value.NullVal, cty.Value.NullVal => true
      | cty.Value.StringVal x, cty.Value.StringVal y => x == y
      | _, _ => false }

/-- The mod `t` with the one tag `a`, whose value is the empty string. -/
def modTagA : Mod :=
  Mod.mk { ShortName := "t", FullName := "mod.t", Tags := [("a", "")] } {}

/-- The mod `t` with the one tag `b`, whose value is the empty string. -/
def modTagB : Mod :=
  Mod.mk { ShortName := "t", FullName := "mod.t", Tags := [("b", "")] } {}

/-- The mod `v` with the variable `v1` of value `one`, the local `l1`, a tag and a query. -/
def modVarOne : Mod :=
  Mod.mk
    { ShortName := "v", FullName := "mod.v", Title := some "V", Categories := some ["c"],
      Tags := [("team", "x")],
      Variables := [("v.var.v1",
        { ShortName := "v1", FullName := "v.var.v1", Value := cty.Value.StringVal "one" })],
      Locals := [("v.local.l1", res "local" "l1")] }
    { Queries := [("m.query.q1", res "query" "q1")] }

/-- The mod `v` again, with the value `two` for its variable and another local of the same
key. -/
def modVarTwo : Mod :=
  Mod.mk
    { ShortName := "v", FullName := "mod.v", Title := some "V", Categories := some ["c"],
      Tags := [("team", "x")],
      Variables := [("v.var.v1",
        { ShortName := "v1", FullName := "v.var.v1", Value := cty.Value.StringVal "two" })],
      Locals := [("v.local.l1", res "local" "other")] }
    { Queries := [("m.query.q1", res "query" "q1")] }

end modconfig.demo

namespace workspace.demo

open hcl modconfig

/-- A workspace with the mod `v` loaded. -/
def loaded : Workspace :=
  { Path := "/ws", Mod := some modconfig.demo.modVarOne,
    Mods := [("mod.v", modconfig.demo.modVarOne)],
    Variables := modconfig.demo.modVarOne.Variables,
    resourceMaps := some { Queries := [("m.query.q1", modconfig.demo.res "query" "q1")] } }

/-- The load of the mod `m` succeeds, the resource maps hold the dashboard `d1`, and the
runtime dependencies of that dashboard cannot be resolved. -/
def envVerifyFails : Env :=
  { getAllVariables := fun _ => Except.ok [],
    LoadWorkspaceLock := fun _ => Except.ok "lock",
    CreateDefaultMod := 1,
    CreatePseudoResources := 2,
    InclusionsFromExtensions := ["**/*.sp"],
    LoadMod := fun _ runCtx => Except.ok (modconfig.demo.modM, runCtx),
    populateResourceMaps := fun _ =>
      { Dashboards := [("m.dashboard.d1", modconfig.demo.res "dashboard" "d1")] },
    BuildRuntimeDependencyTree := fun _ _ => some "runtime dependency not resolved" }

/-- The load of the mod fails. -/
def envLoadFails : Env :=
  { envVerifyFails with LoadMod := fun _ _ => Except.error "mod.sp: invalid block" }

end workspace.demo

namespace modconfig.demo

open hcl modconfig

/-- A `populateChildDiffs` for the concrete inputs: nothing for cards, which have no
children, and the property `Children` for two panels whose child panels differ in name or
order. -/
def childDiffs : ChildDiffs :=
  { ofCards := fun res _ _ => res,
    ofPanels := fun res p new =>
      if p.Panels.map Panel.Name != new.Panels.map Panel.Name then
        res.AddPropertyDiff "Children"
      else res }

/-- The card `card "c3" { title = "T"  display = "table" }`. -/
def cardDisplayTable : DashboardCard :=
  DashboardCard.mk
    { FullName := "m.card.c3", ShortName := "c3", UnqualifiedName := "card.c3",
      Title := some "T", Display := some "table" } none

/-- The card `card "c3" { title = "T"  display = "json" }`. -/
def cardDisplayJson : DashboardCard :=
  DashboardCard.mk
    { FullName := "m.card.c3", ShortName := "c3", UnqualifiedName := "card.c3",
      Title := some "T", Display := some "json" } none

/-- The card `card "c3" { title = "T"  display = "table"  width = 6 }`. -/
def cardWide : DashboardCard :=
  DashboardCard.mk
    { FullName := "m.card.c3", ShortName := "c3", UnqualifiedName := "card.c3",
      Title := some "T", Display := some "table", Width := some 6 } none

/-- The card `card "c4" { sql = "select 4" }`, whose title is not set. -/
def cardNoTitle : DashboardCard :=
  DashboardCard.mk
    { FullName := "m.card.c4", ShortName := "c4", UnqualifiedName := "card.c4",
      SQL := some "select 4" } none

/-- The card `card "c4" { sql = "select 4"  title = "" }`, whose title is the empty
string. -/
def cardEmptyTitle : DashboardCard :=
  DashboardCard.mk
    { FullName := "m.card.c4", ShortName := "c4", UnqualifiedName := "card.c4",
      SQL := some "select 4", Title := some "" } none

/-- The panel `p2` with the child panel `p1`, a title and a width. -/
def panelP2 : Panel :=
  Panel.mk { FullName := "panel.p2", ShortName := "p2", Title := some "P2", Width := some 4 }
    [panelP1]

end modconfig.demo

namespace modconfig.demo

open hcl modconfig

/-- The methods of the requirements and of the file system for the concrete inputs:
requirements are empty when they name no version, plugin or mod; initialising them changes
nothing; the mod file of a mod path is `mod.sp` in it and holds a mod of three lines between
a query and a comment. -/
def modEnv : ModEnv :=
  { NewVersion := fun s => some s,
    RequireEmpty := fun r => r.SteampipeVersionString == "" && r.Plugins.isEmpty &&
      r.Mods.isEmpty,
    RequireInitialise := fun r => (r, none),
    ReferenceString := fun ref => ref.From ++ "->" ++ ref.To,
    SetMod := fun metadata mod => { metadata with ResourceName := mod.ShortName },
    ModFilePath := fun modPath => modPath ++ "/mod.sp",
    FileExists := fun path => path == "/ws/mod.sp",
    ReadFile := fun path =>
      if path == "/ws/mod.sp" then
        Except.ok "query \"q\" \x7b\x7d\n\nmod \"m\" \x7b\n  title = \"M\"\n\x7d\n# end\n"
      else Except.error "no such file" }

/-- The query of the SQL file `q9.sql`, a pseudo resource with its metadata. -/
def pseudoQuery : HclResource :=
  { res "query" "q9" with
    SQL := "select 9",
    Metadata := some { ResourceName := "q9", FileName := "q9.sql", StartLineNumber := 1,
                       EndLineNumber := 1 } }

/-- The query of a SQL file `q1.sql`, whose name the mod `m` already binds. -/
def pseudoQueryQ1 : HclResource :=
  { res "query" "q1" with
    SQL := "select 0",
    Metadata := some { ResourceName := "q1", FileName := "q1.sql", StartLineNumber := 1,
                       EndLineNumber := 1 } }

/-- The legacy requirements: the mod `github.com/turbot/steampipe-mod-aws` at `1.0`. -/
def legacyRequire : Require :=
  { Mods := [{ Name := "github.com/turbot/steampipe-mod-aws", VersionString := "1.0" }] }

/-- A mod that declares the legacy `requires` block only: its `Require` is the empty one
that `NewMod` creates. -/
def modLegacyOnly : Mod :=
  Mod.mk { ShortName := "m", FullName := "mod.m", ModPath := "/ws",
           DeclRange := { Filename := "mod.sp", Start := ⟨3, 1, 0⟩, End := ⟨5, 1, 0⟩ },
           Require := some {}, LegacyRequire := some legacyRequire } {}

/-- A mod that declares both blocks, each with a mod dependency. -/
def modBothRequire : Mod :=
  Mod.mk { ShortName := "m", FullName := "mod.m", ModPath := "/ws",
           Require := some { Plugins := ["aws"] }, LegacyRequire := some legacyRequire } {}

/-- A control `control.k1` with the parent `benchmark.b1`. -/
def controlK1 : Control :=
  { ShortName := "k1", FullName := "control.k1", SQL := some "select 1",
    parent := some { Name := "benchmark.b1", Path := ["mod.m", "benchmark.b1"] } }

/-- A benchmark as a child. -/
def childB2 : ControlTreeItem := { Name := "benchmark.b2", Path := ["benchmark.b2"] }

end modconfig.demo

namespace plugin_manager.demo

/-- A plugin manager with the plugin of the connection `aws` running as process 42. -/
def manager : PluginManager :=
  { Plugins := [("aws", { Protocol := "grpc", Addr := "unix", Pid := 42 })] }

/-- The processes: 42 runs. -/
def processes : Processes := { running := [42] }

end plugin_manager.demo
namespace parse.demo

open hcl modconfig parse

/-- The block `query "q4" { sql = "select 1"  args = "x" }`, whose `args` is a string. -/
def queryArgsString : Block :=
  Block.mk "query" ["q4"] [lineRange 1] (lineRange 1)
    [attr "sql" "select 1" [] 2, attr "args" "x" [] 3] [] [] (lineRange 1)

end parse.demo

namespace modconfig.demo

open hcl modconfig

/-- The mod `s` with the tags `a = "x"` and `b = ""`. -/
def modTagsAB : Mod :=
  Mod.mk { ShortName := "s", FullName := "mod.s", Tags := [("a", "x"), ("b", "")] } {}

/-- The mod `s` with the tags `a = "x"` and `c = "y"`. -/
def modTagsAC : Mod :=
  Mod.mk { ShortName := "s", FullName := "mod.s", Tags := [("a", "x"), ("c", "y")] } {}

end modconfig.demo

/-! ## Theorems -/

namespace parse

open hcl modconfig

/-! ### Decode results -/

theorem decodeResult.mem_handleDecodeDiags (p : decodeResult) (diags : Diagnostics)
    (d : Diagnostic) (h : d ∈ p.Diags ∨ d ∈ diags) : d ∈ (p.handleDecodeDiags diags).Diags := by
  simp only [decodeResult.handleDecodeDiags, List.mem_append]
  exact h

theorem Diagnostics.hasErrors_nil : Diagnostics.HasErrors [] = false := rfl

theorem decodeResult.not_success_of_mem (p : decodeResult) (d : Diagnostic)
    (hd : d ∈ p.Diags) (he : d.Severity = DiagnosticSeverity.DiagError) :
    p.Success = false := by
  simp only [decodeResult.Success, Diagnostics.HasErrors, Bool.not_eq_false', List.any_eq_true]
  exact ⟨d, hd, by simp [he]⟩

/-! ### The param loop of `decodeQueryProvider` -/

theorem decodeParamsLoop_name (env : Env) (runCtx : RunContext) (blocks : List Block) :
    ∀ (r : HclResource) (ps : List ParamDef) (ds : Diagnostics),
      (decodeParamsLoop env runCtx blocks r ps ds).1.FullName = r.FullName ∧
      (decodeParamsLoop env runCtx blocks r ps ds).1.Query = r.Query ∧
      (decodeParamsLoop env runCtx blocks r ps ds).1.Args = r.Args := by
  induction blocks with
  | nil => intro r ps ds; simp [decodeParamsLoop]
  | cons b rest ih =>
    intro r ps ds
    simp only [decodeParamsLoop]
    split
    · split
      · rw [(ih _ _ _).1, (ih _ _ _).2.1, (ih _ _ _).2.2]; simp
      · exact ih _ _ _
    · exact ih _ _ _

theorem decodeParamsLoop_mono (env : Env) (runCtx : RunContext) (blocks : List Block) :
    ∀ (r : HclResource) (ps : List ParamDef) (ds : Diagnostics) (d : Diagnostic),
      d ∈ ds → d ∈ (decodeParamsLoop env runCtx blocks r ps ds).2.2 := by
  induction blocks with
  | nil => intro r ps ds d h; simpa [decodeParamsLoop] using h
  | cons b rest ih =>
    intro r ps ds d h
    simp only [decodeParamsLoop]
    split
    · split
      · apply ih
        split <;> simp [h]
      · apply ih
        split <;> simp [h]
    · exact ih _ _ _ _ h

theorem decodeParamsLoop_query_diag (env : Env) (runCtx : RunContext) (blocks : List Block) :
    ∀ (r : HclResource) (ps : List ParamDef) (ds : Diagnostics) (b : Block),
      b ∈ blocks → b.BlockType = BlockTypeParam → r.GetQuery.isSome = true →
      queryWithParamDiag r.Name b ∈ (decodeParamsLoop env runCtx blocks r ps ds).2.2 := by
  induction blocks with
  | nil => intro r ps ds b hb; simp at hb
  | cons b0 rest ih =>
    intro r ps ds b hb hty hq
    simp only [decodeParamsLoop]
    rcases List.mem_cons.mp hb with rfl | hrest
    · simp only [hty, if_true, hq]
      split
      · apply decodeParamsLoop_mono; simp
      · apply decodeParamsLoop_mono; simp
    · split
      · split
        · exact ih { r with References := r.References ++ (env.AddReferences r b0 runCtx).1 }
            _ _ b hrest hty hq
        · exact ih _ _ _ b hrest hty hq
      · exact ih _ _ _ b hrest hty hq

/-! ### `decodeQueryProvider` -/

/-- C1, as amended. A query-provider block whose decoded resource has both inline SQL and a
query reference, and whose content holds the `query` attribute, gets an unsuccessful
decode result that contains the error diagnostic naming both the SQL and the query
property, located at that attribute. -/
theorem decodeQueryProvider_sql_and_query (env : Env) (block : Block) (runCtx : RunContext)
    (shell decoded : HclResource) (bodyDiags : Diagnostics) (attr : Attribute)
    (hshell : resourceForBlock block runCtx = some (some shell, []))
    (hdecoded : env.DecodeBody block runCtx.EvalCtx shell = (decoded, bodyDiags))
    (hprovider : env.ImplementsQueryProvider decoded.BlockType = true)
    (hquery : decoded.GetQuery.isSome = true) (hsql : decoded.GetSQL ≠ "")
    (hattr : block.getAttribute "query" = some attr) :
    ∃ resource res,
      decodeQueryProvider env block runCtx = some (some resource, res) ∧
      res.Success = false ∧
      bothSqlAndQueryDiag decoded.Name attr ∈ res.Diags ∧
      (bothSqlAndQueryDiag decoded.Name attr).Severity = DiagnosticSeverity.DiagError ∧
      (bothSqlAndQueryDiag decoded.Name attr).Summary =
        decoded.Name ++
          " has both \x27SQL\x27 and \x27query\x27 property set - only 1 of these may be set" := by
  have hne : (decoded.GetSQL != "") = true := by simpa using hsql
  simp only [decodeQueryProvider, hshell, Diagnostics.HasErrors, List.any_nil, hdecoded,
    hprovider, hquery, hne, hattr, Bool.and_self, if_true, Bool.not_true]
  refine ⟨_, _, rfl, ?_, ?_, rfl, rfl⟩
  · apply decodeResult.not_success_of_mem _ (bothSqlAndQueryDiag decoded.Name attr) _ rfl
    apply decodeResult.mem_handleDecodeDiags
    left
    apply decodeResult.mem_handleDecodeDiags
    right
    simp
  · apply decodeResult.mem_handleDecodeDiags
    left
    apply decodeResult.mem_handleDecodeDiags
    right
    simp


theorem decodeQueryProvider_shape (env : Env) (block : Block) (runCtx : RunContext)
    (shell decoded : HclResource) (bodyDiags : Diagnostics)
    (hshell : resourceForBlock block runCtx = some (some shell, []))
    (hdecoded : env.DecodeBody block runCtx.EvalCtx shell = (decoded, bodyDiags))
    (hprovider : env.ImplementsQueryProvider decoded.BlockType = true) :
    ∃ (r : HclResource) (res0 : decodeResult) (ds : Diagnostics),
      decodeQueryProvider env block runCtx =
        some (some ((decodeParamsLoop env runCtx block.Blocks r [] ds).1.SetParams
                (decodeParamsLoop env runCtx block.Blocks r [] ds).2.1),
              res0.handleDecodeDiags (decodeParamsLoop env runCtx block.Blocks r [] ds).2.2) ∧
      r.FullName = decoded.FullName ∧ r.Query = decoded.Query ∧
      r.Args =
        (match block.getAttribute "args" with
          | some a =>
            if !(decodeArgs env a runCtx.EvalCtx decoded.Name).2.HasErrors then
              (decodeArgs env a runCtx.EvalCtx decoded.Name).1
            else decoded.Args
          | none => decoded.Args) ∧
      (decoded.Query = none →
        ds = block.BodyDiags ∧ res0 = decodeResult.empty.handleDecodeDiags bodyDiags) := by
  simp only [decodeQueryProvider, hshell, Diagnostics.hasErrors_nil, hdecoded,
    hprovider, Bool.not_true, Bool.false_eq_true, if_false]
  refine ⟨_, _, _, rfl, ?_, ?_, ?_, ?_⟩
  · split
    · split <;> rfl
    · rfl
  · split
    · split <;> rfl
    · rfl
  · split
    · split <;> rfl
    · rfl
  · intro hnone
    simp [HclResource.GetQuery, hnone, decodeResult.handleDecodeDiags, decodeResult.empty]

/-- C2. A query-provider block whose decoded resource has its query reference set gets, for
each nested param block, the error diagnostic saying that the resource has its query
property set and so cannot define param blocks, located at the definition of that param
block; with at least one param block the decode result is unsuccessful. -/
theorem decodeQueryProvider_query_and_param_blocks (env : Env) (block : Block)
    (runCtx : RunContext) (shell decoded : HclResource) (bodyDiags : Diagnostics)
    (hshell : resourceForBlock block runCtx = some (some shell, []))
    (hdecoded : env.DecodeBody block runCtx.EvalCtx shell = (decoded, bodyDiags))
    (hprovider : env.ImplementsQueryProvider decoded.BlockType = true)
    (hquery : decoded.GetQuery.isSome = true)
    (hparam : ∃ b ∈ block.Blocks, b.BlockType = BlockTypeParam) :
    ∃ resource res,
      decodeQueryProvider env block runCtx = some (some resource, res) ∧
      res.Success = false ∧
      ∀ b ∈ block.Blocks, b.BlockType = BlockTypeParam →
        ∃ d ∈ res.Diags,
          d.Severity = DiagnosticSeverity.DiagError ∧
          d.Summary =
            decoded.Name ++ " has \x27query\x27 property set so cannot define param blocks" ∧
          d.Subject = some b.DefRange := by
  obtain ⟨r, res0, ds, heq, hname, hq, -, -⟩ :=
    decodeQueryProvider_shape env block runCtx shell decoded bodyDiags hshell hdecoded hprovider
  have hrq : r.GetQuery.isSome = true := by
    simpa [HclResource.GetQuery, hq] using hquery
  have hmem : ∀ b ∈ block.Blocks, b.BlockType = BlockTypeParam →
      queryWithParamDiag decoded.Name b ∈
        (res0.handleDecodeDiags (decodeParamsLoop env runCtx block.Blocks r [] ds).2.2).Diags := by
    intro b hb hty
    apply decodeResult.mem_handleDecodeDiags
    right
    have := decodeParamsLoop_query_diag env runCtx block.Blocks r [] ds b hb hty hrq
    simpa [HclResource.Name, hname] using this
  refine ⟨_, _, heq, ?_, ?_⟩
  · obtain ⟨b, hb, hty⟩ := hparam
    exact decodeResult.not_success_of_mem _ _ (hmem b hb hty) rfl
  · intro b hb hty
    exact ⟨_, hmem b hb hty, rfl, rfl, rfl⟩


/-- C1 fails as stated. For `query "q2" { sql = "select 1"  query = query.q1  param "p1" {} }`
both properties are set, and the unsuccessful result holds three error diagnostics, one of
them about the param block: not exactly one error, and not all naming both properties. -/
theorem decodeQueryProvider_sql_and_query_several_errors :
    (decodeQueryProvider demo.env demo.queryBothParam demo.ctx0).map
      (fun out =>
        (out.1.map (fun r => (r.GetSQL, r.GetQuery)), out.2.Success,
          (out.2.Diags.filter
            (fun d => decide (d.Severity = DiagnosticSeverity.DiagError))).map
              (fun d => d.Summary))) =
    some (some ("select 1", some "query.q1"), false,
      ["query.q2 has both \x27SQL\x27 and \x27query\x27 property set - only 1 of these may be set",
       "query.q2 has both \x27SQL\x27 and \x27query\x27 property set - only 1 of these may be set",
       "query.q2 has \x27query\x27 property set so cannot define param blocks"]) := by
  decide

/-- Witness of C1 as amended: `query "q2" { sql = "select 1"  query = query.q1 }`. -/
theorem decodeQueryProvider_sql_and_query_witness :
    ∃ resource res,
      decodeQueryProvider demo.env demo.queryBoth demo.ctx0 =
        some (some resource, res) ∧
      res.Success = false ∧
      bothSqlAndQueryDiag "query.q2" (demo.attr "query" "query.q1" ["query.q1"] 3) ∈
        res.Diags ∧
      (bothSqlAndQueryDiag "query.q2"
        (demo.attr "query" "query.q1" ["query.q1"] 3)).Severity =
          DiagnosticSeverity.DiagError ∧
      (bothSqlAndQueryDiag "query.q2"
        (demo.attr "query" "query.q1" ["query.q1"] 3)).Summary =
        "query.q2" ++
          " has both \x27SQL\x27 and \x27query\x27 property set - only 1 of these may be set" :=
  decodeQueryProvider_sql_and_query demo.env demo.queryBoth demo.ctx0
    (demo.queryShell "q2")
    { demo.queryShell "q2" with SQL := "select 1", Query := some "query.q1" } []
    (demo.attr "query" "query.q1" ["query.q1"] 3) rfl rfl rfl rfl (by decide) rfl

/-- Witness of C2: `query "q2" { sql = "select 1"  query = query.q1  param "p1" {} }`. -/
theorem decodeQueryProvider_query_and_param_blocks_witness :
    ∃ resource res,
      decodeQueryProvider demo.env demo.queryBothParam demo.ctx0 =
        some (some resource, res) ∧
      res.Success = false ∧
      ∀ b ∈ demo.queryBothParam.Blocks, b.BlockType = BlockTypeParam →
        ∃ d ∈ res.Diags,
          d.Severity = DiagnosticSeverity.DiagError ∧
          d.Summary =
            "query.q2" ++ " has \x27query\x27 property set so cannot define param blocks" ∧
          d.Subject = some b.DefRange :=
  decodeQueryProvider_query_and_param_blocks demo.env demo.queryBothParam demo.ctx0
    (demo.queryShell "q2")
    { demo.queryShell "q2" with SQL := "select 1", Query := some "query.q1" } []
    rfl rfl rfl rfl ⟨demo.paramP1, by simp [demo.queryBothParam, Block.Blocks], rfl⟩

/-! ### `args` next to param blocks -/

theorem decodeParamsLoop_clean (env : Env) (runCtx : RunContext) (blocks : List Block) :
    ∀ (r : HclResource) (ps : List ParamDef) (ds : Diagnostics),
      r.Query = none →
      (∀ b ∈ blocks, b.BlockType = BlockTypeParam →
        (decodeParam env b runCtx r.FullName).2 = [] ∧
        ∀ r0 : HclResource, (env.AddReferences r0 b runCtx).2 = []) →
      (decodeParamsLoop env runCtx blocks r ps ds).2.2 = ds ∧
      (decodeParamsLoop env runCtx blocks r ps ds).2.1 =
        ps ++ (blocks.filter (fun b => decide (b.BlockType = BlockTypeParam))).map
          (fun b => (decodeParam env b runCtx r.FullName).1) := by
  induction blocks with
  | nil => intro r ps ds _ _; simp [decodeParamsLoop]
  | cons b rest ih =>
    intro r ps ds hq hclean
    have hrest : ∀ b ∈ rest, b.BlockType = BlockTypeParam →
        (decodeParam env b runCtx r.FullName).2 = [] ∧
        ∀ r0 : HclResource, (env.AddReferences r0 b runCtx).2 = [] :=
      fun b hb => hclean b (List.mem_cons_of_mem _ hb)
    simp only [decodeParamsLoop]
    by_cases hty : b.BlockType = BlockTypeParam
    · obtain ⟨hp, hr⟩ := hclean b (List.mem_cons_self _ _) hty
      have hp2 : (decodeParam env b runCtx r.Name).2 = [] := hp
      have hqs : r.GetQuery.isSome = false := by simp [HclResource.GetQuery, hq]
      simp only [hty, if_true, hqs, Bool.false_eq_true,
        if_false, hp2, Diagnostics.hasErrors_nil, Bool.not_false, hr, List.append_nil]
      have := ih { r with References := r.References ++ (env.AddReferences r b runCtx).1 }
        (ps ++ [(decodeParam env b runCtx r.Name).1]) ds hq hrest
      rw [this.1, this.2]
      simp [hty, HclResource.Name]
    · simp only [hty, if_false]
      have := ih r ps ds hq hrest
      rw [this.1, this.2]
      simp [hty]

/-- C3 fails as stated. The block
`query "q3" { sql = "select 1"  args = ["a"]  param "p1" {} }` declares both `args` and a
param block, and its decode result is successful and holds no diagnostic; the resource
carries the arguments and the parameter. -/
theorem decodeQueryProvider_args_and_param_success :
    (decodeQueryProvider demo.env demo.queryArgsParam demo.ctx0).map
      (fun out =>
        (out.2.Success, out.2.Diags,
          out.1.map (fun r => (r.Args, r.Params.map (fun p => p.Name))))) =
    some (true, [], some (some { Args := [], ArgsList := [] }, ["p1"])) := by
  decide

/-- C3, as amended. `args` and inline param blocks are not exclusive: a query-provider
block that declares both, has no query reference, and for which neither the decoding of
the body, the content extraction, the param blocks nor their references report a
diagnostic, gets a successful decode result without diagnostics, and the resource carries
the arguments (unless their decoding failed) and one parameter definition per param
block. -/
theorem decodeQueryProvider_args_and_param_blocks (env : Env) (block : Block)
    (runCtx : RunContext) (shell decoded : HclResource) (a : Attribute)
    (hshell : resourceForBlock block runCtx = some (some shell, []))
    (hdecoded : env.DecodeBody block runCtx.EvalCtx shell = (decoded, []))
    (hprovider : env.ImplementsQueryProvider decoded.BlockType = true)
    (hquery : decoded.GetQuery = none)
    (hbody : block.BodyDiags = [])
    (hargs : block.getAttribute "args" = some a)
    (_hparam : ∃ b ∈ block.Blocks, b.BlockType = BlockTypeParam)
    (hclean : ∀ b ∈ block.Blocks, b.BlockType = BlockTypeParam →
      (decodeParam env b runCtx decoded.Name).2 = [] ∧
      ∀ r0 : HclResource, (env.AddReferences r0 b runCtx).2 = []) :
    ∃ resource res,
      decodeQueryProvider env block runCtx = some (some resource, res) ∧
      res.Success = true ∧ res.Diags = [] ∧
      resource.Args =
        (if !(decodeArgs env a runCtx.EvalCtx decoded.Name).2.HasErrors then
          (decodeArgs env a runCtx.EvalCtx decoded.Name).1
        else decoded.Args) ∧
      resource.Params =
        (block.Blocks.filter (fun b => decide (b.BlockType = BlockTypeParam))).map
          (fun b => (decodeParam env b runCtx decoded.Name).1) := by
  obtain ⟨r, res0, ds, heq, hname, hq, ha, hds⟩ :=
    decodeQueryProvider_shape env block runCtx shell decoded [] hshell hdecoded hprovider
  obtain ⟨hds, hres0⟩ := hds hquery
  have hrq : r.Query = none := by rw [hq]; exact hquery
  have hclean2 : ∀ b ∈ block.Blocks, b.BlockType = BlockTypeParam →
      (decodeParam env b runCtx r.FullName).2 = [] ∧
      ∀ r0 : HclResource, (env.AddReferences r0 b runCtx).2 = [] := by
    intro b hb hty
    rw [hname]
    exact hclean b hb hty
  obtain ⟨hd, hp⟩ := decodeParamsLoop_clean env runCtx block.Blocks r [] ds hrq hclean2
  obtain ⟨-, -, hargs2⟩ := decodeParamsLoop_name env runCtx block.Blocks r [] ds
  refine ⟨_, _, heq, ?_, ?_, ?_, ?_⟩
  · rw [hd, hds, hbody, hres0]; rfl
  · rw [hd, hds, hbody, hres0]; rfl
  · simp only [HclResource.SetParams]
    rw [hargs2, ha, hargs]
  · simp only [HclResource.SetParams]
    rw [hp, hname]
    simp [HclResource.Name]

/-- Witness of C3 as amended:
`query "q3" { sql = "select 1"  args = ["a"]  param "p1" {} }`. -/
theorem decodeQueryProvider_args_and_param_blocks_witness :
    ∃ resource res,
      decodeQueryProvider demo.env demo.queryArgsParam demo.ctx0 =
        some (some resource, res) ∧
      res.Success = true ∧ res.Diags = [] ∧
      resource.Args = some { Args := [], ArgsList := [] } ∧
      resource.Params =
        [{ Name := "p1", FullName := "param.query.q3.p1", Description := none,
           Default := none }] :=
  decodeQueryProvider_args_and_param_blocks demo.env demo.queryArgsParam demo.ctx0
    (demo.queryShell "q3") { demo.queryShell "q3" with SQL := "select 1" }
    (demo.attr "args" "[\"a\"]" [] 3) rfl rfl rfl rfl rfl rfl
    ⟨demo.paramP1, by simp [demo.queryArgsParam, Block.Blocks], rfl⟩
    (by
      intro b hb _
      have hb2 : b = demo.paramP1 := by
        simpa [demo.queryArgsParam, Block.Blocks] using hb
      subst hb2
      exact ⟨rfl, fun _ => rfl⟩)

/-! ### `decodeBlock` and name validation -/

theorem decodeBlock_eq (env : Env) (block : Block) (runCtx : RunContext) :
    decodeBlock env block runCtx =
      decodeBlockWith env
        (fun reportContainer ctx =>
          decodeReportContainerBlocksFrom env block.Blocks reportContainer decodeResult.empty
            [] [] ctx)
        block runCtx := by
  cases block
  simp [decodeBlock, Block.Blocks]

theorem RunContext.pop_push (runCtx : RunContext) (block : Block) :
    (runCtx.PushDecodeBlock block).PopDecodeBlock = runCtx := rfl

/-- C4. An included block with at least one label whose first label is no legal identifier:
`decodeBlock` returns no resources and the result whose only diagnostic is the error
`Invalid name`, which is unsuccessful and lists no dependency, and it returns the run
context as it was (mod, symbol table and wait-list included), whatever the type-specific
decoders of the environment would do. A block without labels passes `validateName`
without diagnostics. -/
theorem decodeBlock_invalid_name (env : Env) (block : Block) (runCtx : RunContext)
    (label : String) (labels : List String) (labelRange : Range) (ranges : List Range)
    (hinclude : runCtx.ShouldIncludeBlock block = true)
    (hlabels : block.Labels = label :: labels)
    (hranges : block.LabelRanges = labelRange :: ranges)
    (hinvalid : env.ValidIdentifier label = false) :
    (decodeBlock env block runCtx =
      some ([],
        { Diags := [{ Severity := DiagnosticSeverity.DiagError, Summary := "Invalid name",
                      Detail := badIdentifierDetail, Subject := some labelRange,
                      Expression := none }],
          Depends := [] },
        runCtx)) ∧
    decodeResult.Success
      { Diags := [{ Severity := DiagnosticSeverity.DiagError, Summary := "Invalid name",
                    Detail := badIdentifierDetail, Subject := some labelRange,
                    Expression := none }],
        Depends := [] } = false ∧
    (∀ b : Block, b.Labels = [] → validateName env b = some []) := by
  refine ⟨?_, rfl, ?_⟩
  · have hanon : runCtx.IsBlockAnonymous block = false := by
      simp [RunContext.IsBlockAnonymous, hlabels]
    have hvalidate : validateName env block =
        some [{ Severity := DiagnosticSeverity.DiagError, Summary := "Invalid name",
                Detail := badIdentifierDetail, Subject := some labelRange,
                Expression := none }] := by
      simp [validateName, hlabels, hranges, hinvalid]
    rw [decodeBlock_eq]
    simp only [decodeBlockWith, hinclude, Bool.not_true, Bool.false_eq_true, if_false, hanon,
      hvalidate]
    rfl
  · intro b hb
    simp [validateName, hb]

/-- Witness of C4: `query "1bad" { sql = "select 1" }` in a fresh run context. -/
theorem decodeBlock_invalid_name_witness :
    (decodeBlock demo.env demo.queryBadName demo.ctx0 =
      some ([],
        { Diags := [{ Severity := DiagnosticSeverity.DiagError, Summary := "Invalid name",
                      Detail := badIdentifierDetail, Subject := some (demo.lineRange 7),
                      Expression := none }],
          Depends := [] },
        demo.ctx0)) ∧
    decodeResult.Success
      { Diags := [{ Severity := DiagnosticSeverity.DiagError, Summary := "Invalid name",
                    Detail := badIdentifierDetail, Subject := some (demo.lineRange 7),
                    Expression := none }],
        Depends := [] } = false ∧
    (∀ b : Block, b.Labels = [] → validateName demo.env b = some []) :=
  decodeBlock_invalid_name demo.env demo.queryBadName demo.ctx0 "1bad" [] (demo.lineRange 7) []
    rfl rfl rfl (by decide)

/-! ### `decodeLocals` -/

theorem decodeLocalsLoop_spec (env : Env) (runCtx : RunContext) (attrs : List Attribute) :
    ∀ (locals : List HclResource) (res : decodeResult),
      (decodeLocalsLoop env runCtx attrs locals res).1 =
        locals ++ (attrs.filter (fun a => env.ValidIdentifier a.Name)).map
          (fun a => NewLocal a.Name (env.Value a.Expr runCtx.EvalCtx).1 a.Range) ∧
      (decodeLocalsLoop env runCtx attrs locals res).2.Diags =
        res.Diags ++ attrs.flatMap (fun a =>
          if env.ValidIdentifier a.Name then (env.Value a.Expr runCtx.EvalCtx).2
          else [invalidLocalNameDiag a]) := by
  induction attrs with
  | nil => intro locals res; simp [decodeLocalsLoop]
  | cons a rest ih =>
    intro locals res
    simp only [decodeLocalsLoop]
    by_cases hv : env.ValidIdentifier a.Name = true
    · simp only [hv, Bool.not_true, Bool.false_eq_true, if_false]
      rw [(ih _ _).1, (ih _ _).2]
      simp [hv, decodeResult.handleDecodeDiags]
    · have hv2 : env.ValidIdentifier a.Name = false := by simpa using hv
      simp only [hv2, Bool.not_false, if_true]
      rw [(ih _ _).1, (ih _ _).2]
      simp [hv2]

theorem invalidLocalName_count (env : Env) (runCtx : RunContext) (attrs : List Attribute)
    (heval : ∀ a ∈ attrs, ∀ d ∈ (env.Value a.Expr runCtx.EvalCtx).2,
      d.Summary ≠ "Invalid local value name") :
    ((attrs.flatMap (fun a =>
        if env.ValidIdentifier a.Name then (env.Value a.Expr runCtx.EvalCtx).2
        else [invalidLocalNameDiag a])).filter
      (fun d => decide (d.Summary = "Invalid local value name"))).length =
    (attrs.filter (fun a => !env.ValidIdentifier a.Name)).length := by
  induction attrs with
  | nil => rfl
  | cons a rest ih =>
    have hrest := ih (fun b hb => heval b (List.mem_cons_of_mem _ hb))
    have ha := heval a (List.mem_cons_self _ _)
    simp only [List.flatMap_cons, List.filter_append, List.length_append, hrest]
    by_cases hv : env.ValidIdentifier a.Name = true
    · have hnone : (env.Value a.Expr runCtx.EvalCtx).2.filter
          (fun d => decide (d.Summary = "Invalid local value name")) = [] := by
        rw [List.filter_eq_nil_iff]
        intro d hd
        simpa using ha d hd
      simp [hv, hnone]
    · have hv2 : env.ValidIdentifier a.Name = false := by simpa using hv
      simp [hv2, invalidLocalNameDiag, Nat.add_comm]

/-- C5. For a locals block with at least one attribute, `decodeLocals` returns exactly the
locals of the attributes with a valid name, in the order of the attributes, each carrying
the name, value and range of its attribute; and the diagnostics of the result are,
attribute by attribute, the single error `Invalid local value name` for an attribute with
an invalid name, or else what the evaluation of the attribute reports. So every invalid
name is reported once, at its name range, and never keeps another attribute from becoming
a local: when no evaluation diagnostic bears that summary, the result holds as many
`Invalid local value name` diagnostics as there are attributes with an invalid name. -/
theorem decodeLocals_per_attribute (env : Env) (block : Block) (runCtx : RunContext)
    (hattrs : block.Attributes ≠ []) :
    (decodeLocals env block runCtx).1 =
      (block.Attributes.filter (fun a => env.ValidIdentifier a.Name)).map
        (fun a => NewLocal a.Name (env.Value a.Expr runCtx.EvalCtx).1 a.Range) ∧
    ((decodeLocals env block runCtx).1.map (fun l => l.ShortName) =
      (block.Attributes.filter (fun a => env.ValidIdentifier a.Name)).map (fun a => a.Name)) ∧
    (decodeLocals env block runCtx).2.Diags =
      block.Attributes.flatMap (fun a =>
        if env.ValidIdentifier a.Name then (env.Value a.Expr runCtx.EvalCtx).2
        else [{ Severity := DiagnosticSeverity.DiagError, Summary := "Invalid local value name",
                Detail := badIdentifierDetail, Subject := some a.NameRange,
                Expression := none }]) ∧
    ((∀ a ∈ block.Attributes, ∀ d ∈ (env.Value a.Expr runCtx.EvalCtx).2,
        d.Summary ≠ "Invalid local value name") →
      ((decodeLocals env block runCtx).2.Diags.filter
        (fun d => decide (d.Summary = "Invalid local value name"))).length =
      (block.Attributes.filter (fun a => !env.ValidIdentifier a.Name)).length) := by
  have hlen : (block.Attributes.length == 0) = false := by
    cases h : block.Attributes with
    | nil => exact absurd h hattrs
    | cons a rest => rfl
  have hspec := decodeLocalsLoop_spec env runCtx block.Attributes [] decodeResult.empty
  have h1 : (decodeLocals env block runCtx).1 =
      (block.Attributes.filter (fun a => env.ValidIdentifier a.Name)).map
        (fun a => NewLocal a.Name (env.Value a.Expr runCtx.EvalCtx).1 a.Range) := by
    simp only [decodeLocals, hlen, Bool.false_eq_true, if_false]
    rw [hspec.1]
    simp
  have h3 : (decodeLocals env block runCtx).2.Diags =
      block.Attributes.flatMap (fun a =>
        if env.ValidIdentifier a.Name then (env.Value a.Expr runCtx.EvalCtx).2
        else [invalidLocalNameDiag a]) := by
    simp only [decodeLocals, hlen, Bool.false_eq_true, if_false]
    rw [hspec.2]
    simp [decodeResult.empty]
  refine ⟨h1, ?_, h3, ?_⟩
  · rw [h1]
    simp [NewLocal, Function.comp_def]
  · intro heval
    rw [h3]
    exact invalidLocalName_count env runCtx block.Attributes heval

/-- Witness of C5: `locals { a = "x"  9z = "y"  b = "z" }` gives the locals `a` and `b` and
one error for `9z`. -/
theorem decodeLocals_per_attribute_witness :
    ((decodeLocals demo.env demo.localsBlock demo.ctx0).1.map (fun l => l.ShortName) =
      ["a", "b"]) ∧
    (decodeLocals demo.env demo.localsBlock demo.ctx0).2.Diags =
      [{ Severity := DiagnosticSeverity.DiagError, Summary := "Invalid local value name",
         Detail := badIdentifierDetail, Subject := some (demo.lineRange 12),
         Expression := none }] :=
  ⟨(decodeLocals_per_attribute demo.env demo.localsBlock demo.ctx0 (by decide)).2.1,
   (decodeLocals_per_attribute demo.env demo.localsBlock demo.ctx0 (by decide)).2.2.1⟩

/-! ### `handleDecodeResult` -/

theorem lookup_cons_filter (l : List (String × List String)) (k n : String)
    (v : List String) :
    List.lookup n ((k, v) :: l.filter (fun e => !(e.1 == k))) =
      if n = k then some v else List.lookup n l := by
  by_cases hnk : n = k
  · subst hnk
    simp [List.lookup]
  · have hbeq : (n == k) = false := by simpa using hnk
    simp only [List.lookup, hbeq, hnk, if_false]
    induction l with
    | nil => rfl
    | cons e rest ih =>
      obtain ⟨k0, v0⟩ := e
      by_cases hk0 : k0 = k
      · subst hk0
        simp [List.filter, List.lookup, hbeq, ih]
      · have hk0b : (k0 == k) = false := by simpa using hk0
        simp only [List.filter, hk0b, Bool.not_false, List.lookup]
        rw [ih]

theorem RunContext.addDependencies_lookup (runCtx : RunContext) (block : Block)
    (name : String) (deps : List String) :
    (runCtx.AddDependencies block name deps).1.Dependencies.lookup name = some deps ∧
    (∀ n, n ≠ name →
      (runCtx.AddDependencies block name deps).1.Dependencies.lookup n =
        runCtx.Dependencies.lookup n) ∧
    (runCtx.AddDependencies block name deps).1.CurrentMod = runCtx.CurrentMod ∧
    (runCtx.AddDependencies block name deps).1.Symbols = runCtx.Symbols ∧
    (runCtx.AddDependencies block name deps).2 = [] := by
  unfold RunContext.AddDependencies
  split
  · rename_i h
    exact ⟨h, fun _ _ => rfl, rfl, rfl, rfl⟩
  · refine ⟨?_, ?_, rfl, rfl, rfl⟩
    · simp [lookup_cons_filter]
    · intro n hn
      simp [lookup_cons_filter, hn]

/-- C6. For a block and a non-nil resource whose decode result is unsuccessful:
with at least one unmet dependency, `handleDecodeResult` leaves the run context that one
call of `AddDependencies` for the name of the resource and the listed dependencies
produces, in which the wait-list binds that name to exactly those dependencies and every
other name as before, and the mod and the symbol table are unchanged; the resource and the
diagnostics of the result are unchanged too. With no unmet dependency it returns resource,
result and run context as they were. -/
theorem handleDecodeResult_unsuccessful (env : Env) (resource : HclResource)
    (res : decodeResult) (block : Block) (runCtx : RunContext)
    (hfail : res.Success = false) :
    (res.Depends ≠ [] →
      handleDecodeResult env (some resource) res block runCtx =
        some (some resource, res,
          (runCtx.AddDependencies block resource.Name res.Depends).1) ∧
      (runCtx.AddDependencies block resource.Name res.Depends).1.Dependencies.lookup
        resource.Name = some res.Depends ∧
      (∀ n, n ≠ resource.Name →
        (runCtx.AddDependencies block resource.Name res.Depends).1.Dependencies.lookup n =
          runCtx.Dependencies.lookup n) ∧
      (runCtx.AddDependencies block resource.Name res.Depends).1.CurrentMod =
        runCtx.CurrentMod ∧
      (runCtx.AddDependencies block resource.Name res.Depends).1.Symbols = runCtx.Symbols) ∧
    (res.Depends = [] →
      handleDecodeResult env (some resource) res block runCtx =
        some (some resource, res, runCtx)) := by
  obtain ⟨h1, h2, h3, h4, h5⟩ :=
    RunContext.addDependencies_lookup runCtx block resource.Name res.Depends
  constructor
  · intro hdeps
    have hlen : decide (res.Depends.length > 0) = true := by
      cases h : res.Depends with
      | nil => exact absurd h hdeps
      | cons a rest => simp
    refine ⟨?_, h1, h2, h3, h4⟩
    simp only [handleDecodeResult, hfail, Bool.false_eq_true, if_false]
    simp only [gt_iff_lt, decide_eq_true_eq] at hlen
    simp only [gt_iff_lt, hlen, if_true, h5]
    simp [decodeResult.addDiags]
  · intro hdeps
    simp [handleDecodeResult, hfail, hdeps]

/-- Witness of C6: the query `q1` waiting for `var.v1`. -/
theorem handleDecodeResult_unsuccessful_witness :
    (demo.resWaiting.Depends ≠ [] →
      handleDecodeResult demo.env (some (demo.queryShell "q1")) demo.resWaiting demo.queryQ1
          demo.ctx0 =
        some (some (demo.queryShell "q1"), demo.resWaiting,
          (demo.ctx0.AddDependencies demo.queryQ1 (demo.queryShell "q1").Name
            demo.resWaiting.Depends).1) ∧
      (demo.ctx0.AddDependencies demo.queryQ1 (demo.queryShell "q1").Name
        demo.resWaiting.Depends).1.Dependencies.lookup (demo.queryShell "q1").Name =
          some demo.resWaiting.Depends ∧
      (∀ n, n ≠ (demo.queryShell "q1").Name →
        (demo.ctx0.AddDependencies demo.queryQ1 (demo.queryShell "q1").Name
          demo.resWaiting.Depends).1.Dependencies.lookup n =
            demo.ctx0.Dependencies.lookup n) ∧
      (demo.ctx0.AddDependencies demo.queryQ1 (demo.queryShell "q1").Name
        demo.resWaiting.Depends).1.CurrentMod = demo.ctx0.CurrentMod ∧
      (demo.ctx0.AddDependencies demo.queryQ1 (demo.queryShell "q1").Name
        demo.resWaiting.Depends).1.Symbols = demo.ctx0.Symbols) ∧
    (demo.resWaiting.Depends = [] →
      handleDecodeResult demo.env (some (demo.queryShell "q1")) demo.resWaiting demo.queryQ1
          demo.ctx0 =
        some (some (demo.queryShell "q1"), demo.resWaiting, demo.ctx0)) :=
  handleDecodeResult_unsuccessful demo.env (demo.queryShell "q1") demo.resWaiting demo.queryQ1
    demo.ctx0 (by decide)

/-- C7, the code at the failing input. The unlabelled block `chart { sql = "select 1" }` is
renamed by `decodeBlock` before `handleDecodeResult` looks at its labels, so the decoded
chart is registered under its synthetic name both in the maps of the mod and in the symbol
table of the run context. -/
theorem decodeBlock_anonymous_is_registered :
    (decodeBlock demo.env demo.chartAnonymous demo.ctx0).map
      (fun out =>
        (out.2.1.Success, out.1.map (fun r => r.map (fun x => x.Name)),
          out.2.2.CurrentMod.Resources.map (fun e => e.1),
          out.2.2.Symbols.map (fun e => e.1))) =
    some (true, [some "m.chart.anonymous_chart_0"], ["m.chart.anonymous_chart_0"],
      ["m.chart.anonymous_chart_0"]) ∧
    demo.ctx0.IsBlockAnonymous demo.chartAnonymous = true ∧
    demo.ctx0.CurrentMod.Resources.map (fun e => e.1) = [] ∧
    demo.ctx0.Symbols.map (fun e => e.1) = [] := by
  decide

/-- The same through the parent: decoding `container "c1" { chart { sql = "select 1" } }`
registers the nested unlabelled chart in the mod and in the symbol table before the
container itself, which lists it as its child. -/
theorem decodeBlock_container_registers_anonymous_child :
    (decodeBlock demo.env demo.containerC1 demo.ctx0).map
      (fun out =>
        (out.2.1.Success, out.1.map (fun r => r.map (fun x => (x.Name, x.Children))),
          out.2.2.CurrentMod.Resources.map (fun e => e.1),
          out.2.2.Symbols.map (fun e => e.1), out.2.2.DecodeStack.length)) =
    some (true, [some ("m.container.c1", ["m.chart.anonymous_chart_0"])],
      ["m.chart.anonymous_chart_0", "m.container.c1"],
      ["m.chart.anonymous_chart_0", "m.container.c1"], 0) := by
  rfl

theorem decodeResult.mem_addDiags (p : decodeResult) (diags : Diagnostics)
    (d : Diagnostic) (h : d ∈ p.Diags ∨ d ∈ diags) : d ∈ (p.addDiags diags).Diags := by
  simp only [decodeResult.addDiags, List.mem_append]
  exact h

theorem addResourceMetadata_name (env : Env) (r : HclResource) (srcRange : Range)
    (runCtx : RunContext) :
    (addResourceMetadata env r srcRange runCtx).1.FullName = r.FullName := by
  unfold addResourceMetadata
  split <;> rfl

theorem RunContext.addResource_mod (runCtx : RunContext) (r : HclResource) :
    (runCtx.AddResource r).1.CurrentMod = runCtx.CurrentMod := by
  unfold RunContext.AddResource
  split <;> rfl

theorem RunContext.addResource_bound (runCtx : RunContext) (r bound : HclResource)
    (h : runCtx.Symbols.lookup r.Name = some bound) :
    (runCtx.AddResource r).1 = runCtx := by
  unfold RunContext.AddResource
  rw [h]

/-- The successful branch of `handleDecodeResult` for a labelled block and a resource that
is no mod, stage by stage. -/
theorem handleDecodeResult_success_named (env : Env) (resource : HclResource)
    (res : decodeResult) (block : Block) (runCtx : RunContext)
    (hsuccess : res.Success = true)
    (hnamed : block.Labels ≠ [])
    (hnotmod : (env.OnDecoded resource block).1.BlockType ≠ BlockTypeMod) :
    ∃ (hooked withMod registered : HclResource) (res3 res4 : decodeResult),
      handleDecodeResult env (some resource) res block runCtx =
        some (some registered,
          res4.addDiags
            (({ runCtx with CurrentMod := (runCtx.CurrentMod.AddResource withMod).1
              }).AddResource registered).2,
          (({ runCtx with CurrentMod := (runCtx.CurrentMod.AddResource withMod).1
            }).AddResource registered).1) ∧
      hooked = (env.OnDecoded resource block).1 ∧
      withMod =
        ({ hooked with
            References := hooked.References ++ (env.AddReferences hooked block runCtx).1
          }).SetMod runCtx.CurrentMod.ShortName ∧
      res3 =
        (((res.addDiags (env.OnDecoded resource block).2).addDiags
          (env.AddReferences hooked block runCtx).2).addDiags
            (runCtx.CurrentMod.AddResource withMod).2) ∧
      registered.FullName = withMod.FullName ∧
      (∀ d, d ∈ res3.Diags → d ∈ res4.Diags) := by
  have hlen : (block.Labels.length == 0) = false := by
    cases h : block.Labels with
    | nil => exact absurd h hnamed
    | cons a rest => rfl
  simp only [handleDecodeResult, hsuccess, if_true, hlen, Bool.not_false, ne_eq, hnotmod,
    not_false_eq_true]
  by_cases himpl : env.ImplementsResourceWithMetadata
      (env.OnDecoded resource block).1.BlockType = true
  · simp only [HclResource.SetMod, himpl, if_true]
    refine ⟨(env.OnDecoded resource block).1, _, _, _, _, rfl, rfl, rfl, rfl, ?_, ?_⟩
    · exact addResourceMetadata_name _ _ _ _
    · intro d hd
      exact decodeResult.mem_addDiags _ _ _ (Or.inl hd)
  · simp only [HclResource.SetMod, himpl, Bool.false_eq_true, if_false]
    refine ⟨(env.OnDecoded resource block).1, _, _, _, _, rfl, rfl, rfl, rfl, ?_, ?_⟩
    · rfl
    · intro d hd
      exact hd

theorem lookup_append_isSome {V : Type} (l : List (String × V)) (k x : String) (v : V)
    (h : (l.lookup x).isSome = true ∨ x = k) : ((l ++ [(k, v)]).lookup x).isSome = true := by
  induction l with
  | nil =>
    rcases h with h | h
    · simp at h
    · subst h
      simp [List.lookup]
  | cons e l ih =>
    obtain ⟨a, b⟩ := e
    simp only [List.cons_append, List.lookup] at h ⊢
    cases hx : x == a
    · rw [hx] at h
      exact ih h
    · rfl

theorem lookup_append_cases {V : Type} (l : List (String × V)) (k x : String) (v : V)
    (h : ((l ++ [(k, v)]).lookup x).isSome = true) :
    (l.lookup x).isSome = true ∨ x = k := by
  induction l with
  | nil =>
    simp only [List.nil_append, List.lookup] at h
    cases hx : x == k
    · rw [hx] at h
      simp at h
    · exact Or.inr (by simpa using hx)
  | cons e l ih =>
    obtain ⟨a, b⟩ := e
    simp only [List.cons_append, List.lookup] at h ⊢
    cases hx : x == a
    · rw [hx] at h
      exact ih h
    · exact Or.inl rfl

theorem lookup_some_mem {V : Type} (l : List (String × V)) (k : String) (v : V)
    (h : l.lookup k = some v) : (k, v) ∈ l := by
  induction l with
  | nil => simp at h
  | cons e l ih =>
    obtain ⟨a, b⟩ := e
    simp only [List.lookup] at h
    cases hx : k == a
    · rw [hx] at h
      exact List.mem_cons_of_mem _ (ih h)
    · rw [hx] at h
      simp only [Option.some.injEq] at h
      have ha : k = a := by simpa using hx
      rw [ha, h]
      exact List.mem_cons_self _ _

theorem lookup_isSome_of_mem {V : Type} (l : List (String × V)) (e : String × V)
    (h : e ∈ l) : (l.lookup e.1).isSome = true := by
  induction l with
  | nil => simp at h
  | cons a l ih =>
    obtain ⟨k, v⟩ := a
    simp only [List.lookup]
    cases hx : e.1 == k
    · rcases List.mem_cons.mp h with h1 | h1
      · rw [h1] at hx
        simp at hx
      · exact ih h1
    · rfl

theorem RunContext.inStep_iff (r : RunContext) :
    r.inStep = true ↔
      ∀ name, (r.CurrentMod.lookup name).isSome = true →
        (r.Symbols.lookup name).isSome = true := by
  simp only [RunContext.inStep, List.all_eq_true, Mod.lookup]
  constructor
  · intro h name hname
    cases hl : r.CurrentMod.Resources.lookup name with
    | none => rw [hl] at hname; simp at hname
    | some v => exact h (name, v) (lookup_some_mem _ _ _ hl)
  · intro h e he
    exact h e.1 (lookup_isSome_of_mem _ e he)

theorem RunContext.addResource_in_step (r : RunContext) (x : HclResource)
    (hstep : r.inStep = true) : (r.AddResource x).1.inStep = true := by
  rw [RunContext.inStep_iff] at hstep ⊢
  unfold RunContext.AddResource
  split
  · exact hstep
  · intro name hname
    exact lookup_append_isSome _ _ _ _ (Or.inl (hstep name hname))

theorem RunContext.addResource_both_in_step (r : RunContext) (w x : HclResource)
    (hname : x.Name = w.Name) (hstep : r.inStep = true) :
    (({ r with CurrentMod := (r.CurrentMod.AddResource w).1 } : RunContext).AddResource
      x).1.inStep = true := by
  unfold Mod.AddResource
  split
  · exact RunContext.addResource_in_step r x hstep
  · rw [RunContext.inStep_iff] at hstep ⊢
    unfold RunContext.AddResource
    split
    · rename_i bound hb
      intro name hn
      rcases lookup_append_cases _ _ _ _ hn with h1 | h1
      · exact hstep name h1
      · show (r.Symbols.lookup name).isSome = true
        have hb2 : r.Symbols.lookup x.Name = some bound := hb
        rw [h1, ← hname, hb2]
        rfl
    · intro name hn
      rcases lookup_append_cases _ _ _ _ hn with h1 | h1
      · exact lookup_append_isSome _ _ _ _ (Or.inl (hstep name h1))
      · exact lookup_append_isSome _ _ _ _ (Or.inr (h1.trans hname.symm))

/-- C8. A successfully decoded resource of a labelled block that is no mod and whose
fully-qualified name (its name after the post-decode hook, prefixed with the short name of
the mod) is already bound in the current mod, in a run context whose mod and symbol table
are in step: `handleDecodeResult` makes the result unsuccessful, with the duplicate-name
error among its diagnostics, and leaves the maps of the mod and the symbol table unchanged,
so the first declaration stays the one bound to the name. -/
theorem handleDecodeResult_duplicate_name (env : Env) (resource first : HclResource)
    (res : decodeResult) (block : Block) (runCtx : RunContext)
    (hsuccess : res.Success = true)
    (hnamed : block.Labels ≠ [])
    (hnotmod : (env.OnDecoded resource block).1.BlockType ≠ BlockTypeMod)
    (hdup : runCtx.CurrentMod.lookup
      (runCtx.CurrentMod.ShortName ++ "." ++ (env.OnDecoded resource block).1.FullName) =
        some first)
    (hstep : runCtx.inStep = true) :
    ∃ registered res1 runCtx1,
      handleDecodeResult env (some resource) res block runCtx =
        some (some registered, res1, runCtx1) ∧
      registered.Name =
        runCtx.CurrentMod.ShortName ++ "." ++ (env.OnDecoded resource block).1.FullName ∧
      res1.Success = false ∧
      Mod.duplicateNameError registered.Name ∈ res1.Diags ∧
      runCtx1.CurrentMod = runCtx.CurrentMod ∧
      runCtx1.Symbols = runCtx.Symbols ∧
      runCtx1.CurrentMod.lookup registered.Name = some first := by
  obtain ⟨hooked, withMod, registered, res3, res4, heq, hhooked, hwithMod, hres3, hname,
    hres4⟩ := handleDecodeResult_success_named env resource res block runCtx hsuccess hnamed
      hnotmod
  have hwname : withMod.FullName =
      runCtx.CurrentMod.ShortName ++ "." ++ (env.OnDecoded resource block).1.FullName := by
    rw [hwithMod, hhooked]
    rfl
  have hadd : runCtx.CurrentMod.AddResource withMod =
      (runCtx.CurrentMod, [Mod.duplicateNameError withMod.FullName]) := by
    simp only [Mod.AddResource, HclResource.Name, hwname, hdup]
  have hctx : ({ runCtx with CurrentMod := (runCtx.CurrentMod.AddResource withMod).1 } :
      RunContext) = runCtx := by
    rw [hadd]
  rw [hctx] at heq
  have hrname : registered.Name = withMod.FullName := hname
  have hmem : Mod.duplicateNameError registered.Name ∈
      (res4.addDiags (runCtx.AddResource registered).2).Diags := by
    apply decodeResult.mem_addDiags
    left
    apply hres4
    rw [hres3, hadd, hrname]
    exact decodeResult.mem_addDiags _ _ _ (Or.inr (List.mem_singleton.mpr rfl))
  have hsym : ∃ bound, runCtx.Symbols.lookup registered.Name = some bound := by
    have h1 := (RunContext.inStep_iff runCtx).mp hstep registered.Name
      (by rw [hrname, hwname, hdup]; rfl)
    exact Option.isSome_iff_exists.mp h1
  obtain ⟨bound, hbound⟩ := hsym
  refine ⟨registered, _, _, heq, ?_, ?_, hmem, ?_, ?_, ?_⟩
  · rw [hrname, hwname]
  · exact decodeResult.not_success_of_mem _ _ hmem rfl
  · exact RunContext.addResource_mod _ _
  · rw [RunContext.addResource_bound runCtx registered bound hbound]
  · rw [RunContext.addResource_mod, hrname, hwname]
    exact hdup

set_option maxHeartbeats 4000000 in
/-- From a fresh run context, `decode` of two declarations of `query "q1"` returns the
duplicate-name error (of the mod and of the symbol table) and leaves the query of the first
declaration, `select 2`, in the mod and in the symbol table. -/
theorem decode_second_declaration_rejected :
    (decode (demo.envBlocks [demo.queryQ1, demo.queryQ1Again]) demo.ctx0).map
      (fun out =>
        (out.1.map (fun d => d.Summary),
          out.2.CurrentMod.Resources.map (fun e => (e.1, e.2.SQL)),
          out.2.Symbols.map (fun e => (e.1, e.2.SQL)))) =
    some (["mod defines more than one resource named m.query.q1",
           "mod defines more than one resource named m.query.q1"],
          [("m.query.q1", "select 2")], [("m.query.q1", "select 2")]) := by
  decide

/-- Witness of C8: a second `query "q1"` while mod and symbol table bind `m.query.q1`, as
they do after a first declaration. -/
theorem handleDecodeResult_duplicate_name_witness :
    demo.ctxBoth.inStep = true ∧
    (∃ registered res1 runCtx1,
      handleDecodeResult demo.env (some { demo.queryShell "q1" with SQL := "select 2" })
          decodeResult.empty demo.queryQ1 demo.ctxBoth =
        some (some registered, res1, runCtx1) ∧
      registered.Name = "m" ++ "." ++ "query.q1" ∧
      res1.Success = false ∧
      Mod.duplicateNameError registered.Name ∈ res1.Diags ∧
      runCtx1.CurrentMod = demo.ctxBoth.CurrentMod ∧
      runCtx1.Symbols = demo.ctxBoth.Symbols ∧
      runCtx1.CurrentMod.lookup registered.Name = some demo.firstQ1) :=
  ⟨by decide,
   handleDecodeResult_duplicate_name demo.env { demo.queryShell "q1" with SQL := "select 2" }
    demo.firstQ1 decodeResult.empty demo.queryQ1 demo.ctxBoth rfl (by decide) (by decide) rfl
    (by decide)⟩

/-! ### `decode` -/

theorem decodeLoop_eq_decodeEach (env : Env) (blocks : List Block) :
    ∀ (runCtx : RunContext) (diags : Diagnostics),
      decodeLoop env blocks runCtx diags =
        (decodeEach env blocks runCtx).map
          (fun out => (diags ++ diagsOfUnsuccessful out.1, out.2)) := by
  induction blocks with
  | nil => intro runCtx diags; simp [decodeLoop, decodeEach, diagsOfUnsuccessful]
  | cons b rest ih =>
    intro runCtx diags
    simp only [decodeLoop, decodeEach]
    cases hb : decodeBlock env b runCtx with
    | none => rfl
    | some out =>
      obtain ⟨resources, res, ctx1⟩ := out
      simp only []
      by_cases hs : res.Success = true
      · simp only [hs, Bool.not_true, Bool.false_eq_true, if_false]
        rw [ih]
        cases decodeEach env rest ctx1 with
        | none => rfl
        | some o => simp [diagsOfUnsuccessful, List.filter, hs]
      · have hs2 : res.Success = false := by simpa using hs
        simp only [hs2, Bool.not_false, if_true]
        rw [ih]
        cases decodeEach env rest ctx1 with
        | none => rfl
        | some o => simp [diagsOfUnsuccessful, List.filter, hs2]

theorem decodeEach_length (env : Env) (blocks : List Block) :
    ∀ (runCtx : RunContext) (out : List decodeResult × RunContext),
      decodeEach env blocks runCtx = some out → out.1.length = blocks.length := by
  induction blocks with
  | nil =>
    intro runCtx out h
    simp only [decodeEach, Option.some.injEq] at h
    subst h
    rfl
  | cons b rest ih =>
    intro runCtx out h
    simp only [decodeEach] at h
    cases hb : decodeBlock env b runCtx with
    | none => simp [hb] at h
    | some o =>
      obtain ⟨resources, res, ctx1⟩ := o
      simp only [hb] at h
      cases hr : decodeEach env rest ctx1 with
      | none => simp [hr] at h
      | some o2 =>
        simp only [hr, Option.some.injEq] at h
        subst h
        simp [ih ctx1 o2 hr]

theorem decode_eq_decodeEach (env : Env) (runCtx : RunContext) :
    decode env runCtx =
      (decodeEach env (env.BlocksToDecode runCtx).1 runCtx.ClearDependencies).map
        (fun out =>
          (orderingDiags (env.BlocksToDecode runCtx).2 ++ diagsOfUnsuccessful out.1, out.2)) := by
  simp only [decode]
  rw [decodeLoop_eq_decodeEach]
  cases (env.BlocksToDecode runCtx).2 <;> rfl

/-- C9. For every run context, `decode` is the pass that attempts `decodeBlock` on every
block that `BlocksToDecode` returns, once each, in the returned order and whatever the
results of the earlier blocks were, starting from the run context with the wait-list
cleared: it returns the ordering diagnostic (if any) followed by the diagnostics of each
unsuccessful block in that order, and it panics exactly when one of those calls does.
The pass yields one result per block. -/
theorem decode_attempts_every_block (env : Env) (runCtx : RunContext) :
    decode env runCtx =
      (decodeEach env (env.BlocksToDecode runCtx).1 runCtx.ClearDependencies).map
        (fun out =>
          (orderingDiags (env.BlocksToDecode runCtx).2 ++ diagsOfUnsuccessful out.1, out.2)) ∧
    (∀ out, decodeEach env (env.BlocksToDecode runCtx).1 runCtx.ClearDependencies = some out →
      out.1.length = (env.BlocksToDecode runCtx).1.length) := by
  constructor
  · exact decode_eq_decodeEach env runCtx
  · intro out h
    exact decodeEach_length env _ _ out h

/-- The pass goes on after a failed block: with the blocks `query "1bad"` and `query "q1"`,
`decode` returns the one error of the first block, and the second block is decoded and
registered in the mod and in the symbol table. -/
theorem decode_goes_on_after_failure :
    (decode (demo.envBlocks [demo.queryBadName, demo.queryQ1]) demo.ctx0).map
      (fun out =>
        (out.1.map (fun d => d.Summary), out.2.CurrentMod.Resources.map (fun e => e.1),
          out.2.Symbols.map (fun e => e.1))) =
    some (["Invalid name"], ["m.query.q1"], ["m.query.q1"]) := by
  decide

/-- C10. When `BlocksToDecode` fails, every outcome of `decode` starts with the error
diagnostic `failed to determine required dependency order` whose detail is the message of
the ordering error, so the diagnostics returned have errors; and when the failed ordering
comes with no blocks, `decode` returns exactly that diagnostic. -/
theorem decode_ordering_error (env : Env) (runCtx : RunContext) (blocks : List Block)
    (msg : String) (hfail : env.BlocksToDecode runCtx = (blocks, some msg)) :
    (∀ out, decode env runCtx = some out →
      ∃ rest, out.1 =
        { Severity := DiagnosticSeverity.DiagError,
          Summary := "failed to determine required dependency order",
          Detail := msg, Subject := none, Expression := none } :: rest) ∧
    (∀ out, decode env runCtx = some out → Diagnostics.HasErrors out.1 = true) ∧
    (blocks = [] →
      decode env runCtx =
        some ([{ Severity := DiagnosticSeverity.DiagError,
                 Summary := "failed to determine required dependency order",
                 Detail := msg, Subject := none, Expression := none }],
              runCtx.ClearDependencies)) := by
  have hdec := decode_eq_decodeEach env runCtx
  rw [hfail] at hdec
  have hhead : ∀ out, decode env runCtx = some out →
      ∃ rest, out.1 = orderingDiag msg :: rest := by
    intro out hout
    rw [hdec] at hout
    cases heach : decodeEach env blocks runCtx.ClearDependencies with
    | none => simp [heach] at hout
    | some o =>
      simp only [heach, Option.map_some', Option.some.injEq] at hout
      subst hout
      exact ⟨diagsOfUnsuccessful o.1, rfl⟩
  refine ⟨hhead, ?_, ?_⟩
  · intro out hout
    obtain ⟨rest, hrest⟩ := hhead out hout
    rw [hrest]
    rfl
  · intro hnil
    subst hnil
    rw [hdec]
    rfl

/-- Witness of C10: an ordering that fails on a cycle. -/
theorem decode_ordering_error_witness :
    (∀ out, decode demo.envCycle demo.ctx0 = some out →
      ∃ rest, out.1 =
        { Severity := DiagnosticSeverity.DiagError,
          Summary := "failed to determine required dependency order",
          Detail := "cycle: benchmark.x -> benchmark.y -> benchmark.x", Subject := none,
          Expression := none } :: rest) ∧
    (∀ out, decode demo.envCycle demo.ctx0 = some out → Diagnostics.HasErrors out.1 = true) ∧
    (([] : List Block) = [] →
      decode demo.envCycle demo.ctx0 =
        some ([{ Severity := DiagnosticSeverity.DiagError,
                 Summary := "failed to determine required dependency order",
                 Detail := "cycle: benchmark.x -> benchmark.y -> benchmark.x",
                 Subject := none, Expression := none }],
              demo.ctx0.ClearDependencies)) :=
  decode_ordering_error demo.envCycle demo.ctx0 []
    "cycle: benchmark.x -> benchmark.y -> benchmark.x" rfl

/-! ### The stack of blocks being decoded -/

theorem RunContext.addResource_stack (runCtx : RunContext) (r : HclResource) :
    (runCtx.AddResource r).1.DecodeStack = runCtx.DecodeStack := by
  unfold RunContext.AddResource
  split <;> rfl

theorem RunContext.addDependencies_stack (runCtx : RunContext) (block : Block)
    (name : String) (deps : List String) :
    (runCtx.AddDependencies block name deps).1.DecodeStack = runCtx.DecodeStack := by
  unfold RunContext.AddDependencies
  split <;> rfl

theorem handleDecodeResult_stack (env : Env) (resource : Option HclResource)
    (res : decodeResult) (block : Block) (runCtx : RunContext)
    (out : Option HclResource × decodeResult × RunContext)
    (h : handleDecodeResult env resource res block runCtx = some out) :
    out.2.2.DecodeStack = runCtx.DecodeStack := by
  unfold handleDecodeResult at h
  by_cases hs : res.Success = true
  · simp only [hs, if_true] at h
    cases resource with
    | none => simp at h
    | some r =>
      simp only [] at h
      by_cases hm : (env.OnDecoded r block).1.BlockType ≠ BlockTypeMod <;>
      by_cases ha : (block.Labels.length == 0) = true <;>
      simp only [hm, ha, if_true, if_false, Bool.not_true, Bool.not_false, Bool.false_eq_true,
        ne_eq, not_true_eq_false, not_false_eq_true, Option.some.injEq] at h <;>
      subst h <;>
      simp [RunContext.addResource_stack]
  · have hs2 : res.Success = false := by simpa using hs
    simp only [hs2, Bool.false_eq_true, if_false] at h
    split at h
    · cases resource with
      | none => simp at h
      | some r =>
        simp only [Option.some.injEq] at h
        subst h
        exact RunContext.addDependencies_stack _ _ _ _
    · simp only [Option.some.injEq] at h
      subst h
      rfl

theorem handleDecodeResults_stack (env : Env) (block : Block)
    (resources : List (Option HclResource)) :
    ∀ (res : decodeResult) (runCtx : RunContext)
      (out : List (Option HclResource) × decodeResult × RunContext),
      handleDecodeResults env block resources res runCtx = some out →
      out.2.2.DecodeStack = runCtx.DecodeStack := by
  induction resources with
  | nil =>
    intro res runCtx out h
    simp only [handleDecodeResults, Option.some.injEq] at h
    subst h
    rfl
  | cons r rest ih =>
    intro res runCtx out h
    simp only [handleDecodeResults] at h
    cases h1 : handleDecodeResult env r res block runCtx with
    | none => simp [h1] at h
    | some o1 =>
      obtain ⟨r1, res1, ctx1⟩ := o1
      simp only [h1] at h
      cases h2 : handleDecodeResults env block rest res1 ctx1 with
      | none => simp [h2] at h
      | some o2 =>
        obtain ⟨rs2, res2, ctx2⟩ := o2
        simp only [h2, Option.some.injEq] at h
        subst h
        have e1 := handleDecodeResult_stack env r res block runCtx _ h1
        have e2 := ih res1 ctx1 _ h2
        simp only [] at e1 e2 ⊢
        rw [e2, e1]

theorem decodeReportContainer_stack (env : Env)
    (decodeBlocks : HclResource → RunContext → Option (decodeResult × HclResource × RunContext))
    (hblocks : ∀ rc ctx out, decodeBlocks rc ctx = some out →
      out.2.2.DecodeStack = ctx.DecodeStack)
    (block : Block) (runCtx : RunContext)
    (out : Option HclResource × decodeResult × RunContext)
    (h : decodeReportContainer env decodeBlocks block runCtx = some out) :
    out.2.2.DecodeStack = runCtx.DecodeStack := by
  unfold decodeReportContainer at h
  split at h
  · simp at h
  · simp only [] at h
    split at h
    · simp only [Option.some.injEq] at h
      subst h
      rfl
    · split at h
      · split at h
        · simp at h
        · rename_i hb
          simp only [Option.some.injEq] at h
          subst h
          exact hblocks _ _ _ hb
      · simp only [Option.some.injEq] at h
        subst h
        rfl

theorem decodeByType_stack (env : Env)
    (decodeBlocks : HclResource → RunContext → Option (decodeResult × HclResource × RunContext))
    (hblocks : ∀ rc ctx out, decodeBlocks rc ctx = some out →
      out.2.2.DecodeStack = ctx.DecodeStack)
    (block : Block) (runCtx : RunContext)
    (out : List (Option HclResource) × decodeResult × RunContext)
    (h : decodeByType env decodeBlocks block runCtx = some out) :
    out.2.2.DecodeStack = runCtx.DecodeStack := by
  unfold decodeByType at h
  split at h
  · cases hq : decodeQueryProvider env block runCtx with
    | none => simp [hq] at h
    | some o =>
      simp only [hq, Option.map_some', Option.some.injEq] at h
      subst h
      rfl
  · split at h
    · simp only [Option.some.injEq] at h
      subst h
      rfl
    · split at h
      · cases hc : decodeReportContainer env decodeBlocks block runCtx with
        | none => simp [hc] at h
        | some o =>
          simp only [hc, Option.map_some', Option.some.injEq] at h
          subst h
          exact decodeReportContainer_stack env decodeBlocks hblocks block runCtx o hc
      · split at h
        · simp only [Option.some.injEq] at h
          subst h
          rfl
        · split at h
          · cases hb : decodeBenchmark env block runCtx with
            | none => simp [hb] at h
            | some o =>
              simp only [hb, Option.map_some', Option.some.injEq] at h
              subst h
              rfl
          · cases hr : decodeResource env block runCtx with
            | none => simp [hr] at h
            | some o =>
              simp only [hr, Option.map_some', Option.some.injEq] at h
              subst h
              rfl

theorem decodeBlockWith_stack (env : Env)
    (decodeBlocks : HclResource → RunContext → Option (decodeResult × HclResource × RunContext))
    (hblocks : ∀ rc ctx out, decodeBlocks rc ctx = some out →
      out.2.2.DecodeStack = ctx.DecodeStack)
    (block : Block) (runCtx : RunContext)
    (out : List (Option HclResource) × decodeResult × RunContext)
    (h : decodeBlockWith env decodeBlocks block runCtx = some out) :
    out.2.2.DecodeStack = runCtx.DecodeStack := by
  unfold decodeBlockWith at h
  split at h
  · simp only [Option.some.injEq] at h
    subst h
    rfl
  · simp only [] at h
    split at h
    · simp at h
    · split at h
      · simp only [Option.some.injEq] at h
        subst h
        rfl
      · split at h
        · simp at h
        · rename_i hd
          split at h
          · simp at h
          · rename_i hh
            simp only [Option.some.injEq] at h
            subst h
            have e1 := decodeByType_stack env decodeBlocks hblocks _ _ _ hd
            have e2 := handleDecodeResults_stack env _ _ _ _ _ hh
            simp only [] at e1 e2
            simp only [RunContext.PopDecodeBlock, e2, e1, RunContext.PushDecodeBlock,
              List.tail_cons]

mutual

theorem decodeBlock_stack (env : Env) :
    ∀ (block : Block) (runCtx : RunContext)
      (out : List (Option HclResource) × decodeResult × RunContext),
      decodeBlock env block runCtx = some out → out.2.2.DecodeStack = runCtx.DecodeStack
  | Block.mk t l lr d a bs bd s, runCtx, out, h => by
    simp only [decodeBlock] at h
    exact decodeBlockWith_stack env _
      (fun rc ctx o ho =>
        decodeReportContainerBlocksFrom_stack env bs rc decodeResult.empty [] [] ctx o ho)
      _ runCtx out h

theorem decodeReportContainerBlocksFrom_stack (env : Env) :
    ∀ (blocks : List Block) (reportContainer : HclResource) (res : decodeResult)
      (children inputs : List String) (runCtx : RunContext)
      (out : decodeResult × HclResource × RunContext),
      decodeReportContainerBlocksFrom env blocks reportContainer res children inputs runCtx =
        some out →
      out.2.2.DecodeStack = runCtx.DecodeStack
  | [], reportContainer, res, children, inputs, runCtx, out, h => by
    simp only [decodeReportContainerBlocksFrom, Option.some.injEq] at h
    subst h
    rfl
  | b :: rest, reportContainer, res, children, inputs, runCtx, out, h => by
    simp only [decodeReportContainerBlocksFrom] at h
    cases hb : decodeBlock env b runCtx with
    | none => simp [hb] at h
    | some o =>
      obtain ⟨resources, blockRes, ctx1⟩ := o
      have e1 := decodeBlock_stack env b runCtx _ hb
      simp only [hb] at h
      simp only [] at e1
      split at h
      · have e2 := decodeReportContainerBlocksFrom_stack env rest _ _ _ _ _ out h
        rw [e2, e1]
      · split at h
        · simp at h
        · have e2 := decodeReportContainerBlocksFrom_stack env rest _ _ _ _ _ out h
          rw [e2, e1]

end

/-- C11. Whenever `decodeBlock` returns, the stack of the blocks being decoded is exactly
the stack it found, whatever the return path: invalid name, failed decode, success, or the
decoding of the nested blocks of a container, each of which leaves the stack as it found
it in turn. As this holds from every stack, however deep, each push is undone by one pop.
A block that `ShouldIncludeBlock` excludes is returned at once, with the run context
untouched: neither a push nor a pop. -/
theorem decodeBlock_leaves_decode_stack (env : Env) (block : Block) (runCtx : RunContext)
    (out : List (Option HclResource) × decodeResult × RunContext)
    (h : decodeBlock env block runCtx = some out) :
    out.2.2.DecodeStack = runCtx.DecodeStack ∧
    (runCtx.ShouldIncludeBlock block = false → out = ([], decodeResult.empty, runCtx)) := by
  refine ⟨decodeBlock_stack env block runCtx out h, ?_⟩
  intro hexcluded
  rw [decodeBlock_eq] at h
  simp only [decodeBlockWith, hexcluded, Bool.not_false, if_true, Option.some.injEq] at h
  exact h.symm

/-- Witness of C11: `container "c1" { chart { sql = "select 1" } }`, decoded while
`query "q1"` is on the stack. -/
theorem decodeBlock_leaves_decode_stack_witness :
    ∃ out, decodeBlock demo.env demo.containerC1 demo.ctxDecoding = some out ∧
      out.2.2.DecodeStack = demo.ctxDecoding.DecodeStack ∧
      (demo.ctxDecoding.ShouldIncludeBlock demo.containerC1 = false →
        out = ([], decodeResult.empty, demo.ctxDecoding)) := by
  have hsome : (decodeBlock demo.env demo.containerC1 demo.ctxDecoding).isSome = true := rfl
  obtain ⟨out, hout⟩ := Option.isSome_iff_exists.mp hsome
  exact ⟨out, hout,
    decodeBlock_leaves_decode_stack demo.env demo.containerC1 demo.ctxDecoding out hout⟩

/-! ### The mod and the symbol table stay in step -/

theorem handleDecodeResult_in_step (env : Env) (resource : Option HclResource)
    (res : decodeResult) (block : Block) (runCtx : RunContext)
    (out : Option HclResource × decodeResult × RunContext)
    (h : handleDecodeResult env resource res block runCtx = some out)
    (hstep : runCtx.inStep = true) : out.2.2.inStep = true := by
  by_cases hs : res.Success = true
  · cases resource with
    | none => simp [handleDecodeResult, hs] at h
    | some r =>
      by_cases ha : block.Labels = []
      · have hlen : (block.Labels.length == 0) = true := by rw [ha]; rfl
        unfold handleDecodeResult at h
        simp only [hs, if_true, hlen, Bool.not_true, Bool.false_eq_true, if_false] at h
        split at h <;>
        · simp only [Option.some.injEq] at h
          subst h
          exact hstep
      · by_cases hm : (env.OnDecoded r block).1.BlockType ≠ BlockTypeMod
        · obtain ⟨hooked, withMod, registered, res3, res4, heq, _, _, _, hname, _⟩ :=
            handleDecodeResult_success_named env r res block runCtx hs ha hm
          rw [heq] at h
          simp only [Option.some.injEq] at h
          subst h
          exact RunContext.addResource_both_in_step runCtx withMod registered hname hstep
        · have hlen : (block.Labels.length == 0) = false := by
            cases hl : block.Labels with
            | nil => exact absurd hl ha
            | cons a rest => rfl
          unfold handleDecodeResult at h
          simp only [hs, if_true, hlen, Bool.not_false, hm, if_false] at h
          simp only [Option.some.injEq] at h
          subst h
          exact RunContext.addResource_in_step _ _ hstep
  · have hs2 : res.Success = false := by simpa using hs
    unfold handleDecodeResult at h
    simp only [hs2, Bool.false_eq_true, if_false] at h
    split at h
    · cases resource with
      | none => simp at h
      | some r =>
        simp only [Option.some.injEq] at h
        subst h
        unfold RunContext.AddDependencies
        split <;> exact hstep
    · simp only [Option.some.injEq] at h
      subst h
      exact hstep

theorem handleDecodeResults_in_step (env : Env) (block : Block)
    (resources : List (Option HclResource)) :
    ∀ (res : decodeResult) (runCtx : RunContext)
      (out : List (Option HclResource) × decodeResult × RunContext),
      handleDecodeResults env block resources res runCtx = some out →
      runCtx.inStep = true → out.2.2.inStep = true := by
  induction resources with
  | nil =>
    intro res runCtx out h hstep
    simp only [handleDecodeResults, Option.some.injEq] at h
    subst h
    exact hstep
  | cons r rest ih =>
    intro res runCtx out h hstep
    simp only [handleDecodeResults] at h
    cases h1 : handleDecodeResult env r res block runCtx with
    | none => simp [h1] at h
    | some o1 =>
      obtain ⟨r1, res1, ctx1⟩ := o1
      simp only [h1] at h
      cases h2 : handleDecodeResults env block rest res1 ctx1 with
      | none => simp [h2] at h
      | some o2 =>
        obtain ⟨rs2, res2, ctx2⟩ := o2
        simp only [h2, Option.some.injEq] at h
        subst h
        have e1 := handleDecodeResult_in_step env r res block runCtx _ h1 hstep
        have e2 := ih res1 ctx1 (rs2, res2, ctx2) h2 e1
        exact e2

theorem decodeReportContainer_in_step (env : Env)
    (decodeBlocks : HclResource → RunContext → Option (decodeResult × HclResource × RunContext))
    (hblocks : ∀ rc ctx out, decodeBlocks rc ctx = some out →
      ctx.inStep = true → out.2.2.inStep = true)
    (block : Block) (runCtx : RunContext)
    (out : Option HclResource × decodeResult × RunContext)
    (h : decodeReportContainer env decodeBlocks block runCtx = some out)
    (hstep : runCtx.inStep = true) : out.2.2.inStep = true := by
  unfold decodeReportContainer at h
  split at h
  · simp at h
  · simp only [] at h
    split at h
    · simp only [Option.some.injEq] at h
      subst h
      exact hstep
    · split at h
      · split at h
        · simp at h
        · rename_i hb
          simp only [Option.some.injEq] at h
          subst h
          exact hblocks _ _ _ hb hstep
      · simp only [Option.some.injEq] at h
        subst h
        exact hstep

theorem decodeByType_in_step (env : Env)
    (decodeBlocks : HclResource → RunContext → Option (decodeResult × HclResource × RunContext))
    (hblocks : ∀ rc ctx out, decodeBlocks rc ctx = some out →
      ctx.inStep = true → out.2.2.inStep = true)
    (block : Block) (runCtx : RunContext)
    (out : List (Option HclResource) × decodeResult × RunContext)
    (h : decodeByType env decodeBlocks block runCtx = some out)
    (hstep : runCtx.inStep = true) : out.2.2.inStep = true := by
  unfold decodeByType at h
  split at h
  · cases hq : decodeQueryProvider env block runCtx with
    | none => simp [hq] at h
    | some o =>
      simp only [hq, Option.map_some', Option.some.injEq] at h
      subst h
      exact hstep
  · split at h
    · simp only [Option.some.injEq] at h
      subst h
      exact hstep
    · split at h
      · cases hc : decodeReportContainer env decodeBlocks block runCtx with
        | none => simp [hc] at h
        | some o =>
          simp only [hc, Option.map_some', Option.some.injEq] at h
          subst h
          exact decodeReportContainer_in_step env decodeBlocks hblocks block runCtx o hc hstep
      · split at h
        · simp only [Option.some.injEq] at h
          subst h
          exact hstep
        · split at h
          · cases hb : decodeBenchmark env block runCtx with
            | none => simp [hb] at h
            | some o =>
              simp only [hb, Option.map_some', Option.some.injEq] at h
              subst h
              exact hstep
          · cases hr : decodeResource env block runCtx with
            | none => simp [hr] at h
            | some o =>
              simp only [hr, Option.map_some', Option.some.injEq] at h
              subst h
              exact hstep

theorem decodeBlockWith_in_step (env : Env)
    (decodeBlocks : HclResource → RunContext → Option (decodeResult × HclResource × RunContext))
    (hblocks : ∀ rc ctx out, decodeBlocks rc ctx = some out →
      ctx.inStep = true → out.2.2.inStep = true)
    (block : Block) (runCtx : RunContext)
    (out : List (Option HclResource) × decodeResult × RunContext)
    (h : decodeBlockWith env decodeBlocks block runCtx = some out)
    (hstep : runCtx.inStep = true) : out.2.2.inStep = true := by
  unfold decodeBlockWith at h
  split at h
  · simp only [Option.some.injEq] at h
    subst h
    exact hstep
  · simp only [] at h
    split at h
    · simp at h
    · split at h
      · simp only [Option.some.injEq] at h
        subst h
        exact hstep
      · split at h
        · simp at h
        · rename_i hd
          split at h
          · simp at h
          · rename_i hh
            simp only [Option.some.injEq] at h
            subst h
            have e1 := decodeByType_in_step env decodeBlocks hblocks _ _ _ hd hstep
            have e2 := handleDecodeResults_in_step env _ _ _ _ _ hh e1
            exact e2

mutual

theorem decodeBlock_in_step (env : Env) :
    ∀ (block : Block) (runCtx : RunContext)
      (out : List (Option HclResource) × decodeResult × RunContext),
      decodeBlock env block runCtx = some out → runCtx.inStep = true →
      out.2.2.inStep = true
  | Block.mk t l lr d a bs bd s, runCtx, out, h, hstep => by
    simp only [decodeBlock] at h
    exact decodeBlockWith_in_step env _
      (fun rc ctx o ho hc =>
        decodeReportContainerBlocksFrom_in_step env bs rc decodeResult.empty [] [] ctx o ho hc)
      _ runCtx out h hstep

theorem decodeReportContainerBlocksFrom_in_step (env : Env) :
    ∀ (blocks : List Block) (reportContainer : HclResource) (res : decodeResult)
      (children inputs : List String) (runCtx : RunContext)
      (out : decodeResult × HclResource × RunContext),
      decodeReportContainerBlocksFrom env blocks reportContainer res children inputs runCtx =
        some out →
      runCtx.inStep = true → out.2.2.inStep = true
  | [], reportContainer, res, children, inputs, runCtx, out, h, hstep => by
    simp only [decodeReportContainerBlocksFrom, Option.some.injEq] at h
    subst h
    exact hstep
  | b :: rest, reportContainer, res, children, inputs, runCtx, out, h, hstep => by
    simp only [decodeReportContainerBlocksFrom] at h
    cases hb : decodeBlock env b runCtx with
    | none => simp [hb] at h
    | some o =>
      obtain ⟨resources, blockRes, ctx1⟩ := o
      have e1 := decodeBlock_in_step env b runCtx _ hb hstep
      simp only [hb] at h
      simp only [] at e1
      split at h
      · exact decodeReportContainerBlocksFrom_in_step env rest _ _ _ _ _ out h e1
      · split at h
        · simp at h
        · exact decodeReportContainerBlocksFrom_in_step env rest _ _ _ _ _ out h e1

end

theorem decodeLoop_in_step (env : Env) (blocks : List Block) :
    ∀ (runCtx : RunContext) (diags : Diagnostics) (out : Diagnostics × RunContext),
      decodeLoop env blocks runCtx diags = some out → runCtx.inStep = true →
      out.2.inStep = true := by
  induction blocks with
  | nil =>
    intro runCtx diags out h hstep
    simp only [decodeLoop, Option.some.injEq] at h
    subst h
    exact hstep
  | cons b rest ih =>
    intro runCtx diags out h hstep
    simp only [decodeLoop] at h
    cases hb : decodeBlock env b runCtx with
    | none => simp [hb] at h
    | some o =>
      obtain ⟨resources, res, ctx1⟩ := o
      have e1 := decodeBlock_in_step env b runCtx _ hb hstep
      simp only [hb] at h
      split at h <;> exact ih _ _ out h e1

/-- A run context whose mod has no resource yet is in step, and `decode` takes a run
context that is in step to one that is in step: whenever the decoder meets a name that the
mod binds, the symbol table binds it too. -/
theorem decode_in_step (env : Env) (runCtx : RunContext)
    (out : Diagnostics × RunContext) (h : decode env runCtx = some out) :
    (runCtx.CurrentMod.Resources = [] → runCtx.inStep = true) ∧
    (runCtx.inStep = true → out.2.inStep = true) := by
  constructor
  · intro hempty
    simp [RunContext.inStep, hempty]
  · intro hstep
    unfold decode at h
    exact decodeLoop_in_step env _ _ _ out h hstep

end parse

namespace modconfig

open hcl

/-! ### `DashboardCard.OnDecoded` -/

theorem DashboardCard.setBaseProperties_some (f : DashboardCardFields) (base : DashboardCard) :
    DashboardCard.setBaseProperties (DashboardCard.mk f (some base)) =
      DashboardCard.mk
        { f with
          Title := if f.Title.isNone then base.Title else f.Title,
          Type_ := if f.Type_.isNone then base.Type_ else f.Type_,
          Icon := if f.Icon.isNone then base.Icon else f.Icon,
          Width := if f.Width.isNone then base.Width else f.Width,
          SQL := if f.SQL.isNone then base.SQL else f.SQL } (some base) := by
  obtain ⟨a1, a2, a3, title, width, type, icon, display, sql, a10, a11, a12, a13, a14, a15, a16,
    a17, a18⟩ := f
  cases title <;> cases width <;> cases type <;> cases icon <;> cases sql <;> rfl

/-- C13. After `OnDecoded`, every property of the card that was set before the call (title,
type, icon, width, sql, display) has the value it had, whatever the base holds; a card
without base is left exactly as it was; and the hook returns no diagnostics. -/
theorem DashboardCard.OnDecoded_keeps_set_properties (c : DashboardCard) (block : Block) :
    (c.Title ≠ none → (c.OnDecoded block).1.Title = c.Title) ∧
    (c.Type_ ≠ none → (c.OnDecoded block).1.Type_ = c.Type_) ∧
    (c.Icon ≠ none → (c.OnDecoded block).1.Icon = c.Icon) ∧
    (c.Width ≠ none → (c.OnDecoded block).1.Width = c.Width) ∧
    (c.SQL ≠ none → (c.OnDecoded block).1.SQL = c.SQL) ∧
    (c.Display ≠ none → (c.OnDecoded block).1.Display = c.Display) ∧
    (c.Base = none → (c.OnDecoded block).1 = c) ∧
    (c.OnDecoded block).2 = [] := by
  cases c with
  | mk f b =>
    cases b with
    | none =>
      simp [DashboardCard.OnDecoded, DashboardCard.setBaseProperties]
    | some base =>
      simp only [DashboardCard.OnDecoded, DashboardCard.setBaseProperties_some,
        DashboardCard.Title, DashboardCard.Type_, DashboardCard.Icon, DashboardCard.Width,
        DashboardCard.SQL, DashboardCard.Display, DashboardCard.fields, DashboardCard.Base]
      refine ⟨?_, ?_, ?_, ?_, ?_, ?_, ?_, ?_⟩
      · cases f.Title <;> simp
      · cases f.Type_ <;> simp
      · cases f.Icon <;> simp
      · cases f.Width <;> simp
      · cases f.SQL <;> simp
      · simp
      · simp
      · trivial

/-- Witness of C13: the card `c1` with its own title and the base `base`. -/
theorem DashboardCard.OnDecoded_keeps_set_properties_witness :
    (demo.cardC1.OnDecoded demo.someBlock).1.Title = some "Mine" ∧
    demo.baseCard.Title = some "Base" ∧
    (demo.baseCard.OnDecoded demo.someBlock).1 = demo.baseCard :=
  ⟨(DashboardCard.OnDecoded_keeps_set_properties demo.cardC1 demo.someBlock).1 (by decide),
   rfl,
   (DashboardCard.OnDecoded_keeps_set_properties demo.baseCard demo.someBlock).2.2.2.2.2.2.1
     rfl⟩

/-- C14, the code at the failing input. The card `c1` leaves `display`, `width`, `type`,
`icon` and `sql` unset and has the base `base`, whose `display` is `table`: after
`OnDecoded` the card has the width, type, icon and sql of the base, and still no
`display`. -/
theorem DashboardCard.OnDecoded_does_not_inherit_display :
    demo.cardC1.Display = none ∧
    demo.cardC1.Base.map (fun b => b.Display) = some (some "table") ∧
    (demo.cardC1.OnDecoded demo.someBlock).1.Display = none ∧
    (demo.cardC1.OnDecoded demo.someBlock).1.Width = some 4 ∧
    (demo.cardC1.OnDecoded demo.someBlock).1.Type_ = some "info" ∧
    (demo.cardC1.OnDecoded demo.someBlock).1.Icon = some "i" ∧
    (demo.cardC1.OnDecoded demo.someBlock).1.SQL = some "select 1" := by
  decide

end modconfig

namespace modconfig

/-! ### Paths in the mod tree -/

/-- C19, the code at the failing input. In the tree mod, `d1`, `k1`, `k2` (each the child
of the one before) no path is computed yet. The panel `p1` is a child of `k1` and of `k2`:
its first `GetPaths` returns two paths, and the first of them ends with the name of `k2`,
not with the name of the panel. The path of `k1` has room for one more name, the panel
writes its name there, and `k2`, whose paths are computed next, writes its own name over
it. The card `c2` with the same parents fares the same. `Mod.GetPaths` is the one path that
holds the name of the mod. -/
theorem Panel.GetPaths_shares_backing_array :
    demo.panelP1.Paths = [] ∧
    demo.panelP1.parents = [demo.containerK1, demo.containerK2] ∧
    (demo.panelP1.GetPaths 4 demo.tree).map (fun out => out.1.map out.2.2.read) =
      some [["mod.m", "m.dashboard.d1", "m.container.k1", "m.container.k2"],
            ["mod.m", "m.dashboard.d1", "m.container.k1", "m.container.k2", "panel.p1"]] ∧
    (demo.cardC2.GetPaths 4 demo.tree).map (fun out => out.1.map out.2.2.read) =
      some [["mod.m", "m.dashboard.d1", "m.container.k1", "m.container.k2"],
            ["mod.m", "m.dashboard.d1", "m.container.k1", "m.container.k2", "m.card.c2"]] ∧
    (Heap.GetPaths 4 demo.tree demo.containerK1).map (fun out => out.1.map out.2.read) =
      some [["mod.m", "m.dashboard.d1", "m.container.k1"]] ∧
    (Heap.GetPaths 4 demo.tree demo.containerK1).map (fun out => out.1.map (fun p => p.cap)) =
      some [4] ∧
    (demo.modM.GetPaths demo.tree).1.map (demo.modM.GetPaths demo.tree).2.read =
      [[demo.modM.Name]] := by
  decide

/-! ### `AddParent` after `GetPaths` -/

theorem DashboardCard.GetPaths_stores (fuel : Nat) (c0 c : DashboardCard) (h0 h : Heap)
    (paths : List NodePath) (hfirst : c0.GetPaths fuel h0 = some (paths, c, h)) :
    c.Paths = paths := by
  unfold DashboardCard.GetPaths at hfirst
  split at hfirst
  · split at hfirst
    · simp at hfirst
    · simp only [Option.some.injEq, Prod.mk.injEq] at hfirst
      obtain ⟨hp, hc, _⟩ := hfirst
      rw [← hc]
      exact hp
  · simp only [Option.some.injEq, Prod.mk.injEq] at hfirst
    obtain ⟨hp, hc, _⟩ := hfirst
    rw [← hc]
    exact hp

theorem DashboardCard.GetPaths_of_nonempty (fuel : Nat) (c : DashboardCard) (h : Heap)
    (hne : c.Paths ≠ []) : c.GetPaths fuel h = some (c.Paths, c, h) := by
  unfold DashboardCard.GetPaths
  have hlen : (c.Paths.length == 0) = false := by
    cases hp : c.Paths with
    | nil => exact absurd hp hne
    | cons a rest => rfl
  simp [hlen]

theorem DashboardCard.AddParent_fields (c : DashboardCard) (p : ModTreeItem) :
    (c.AddParent p).1.Paths = c.Paths ∧ (c.AddParent p).1.parents = c.parents ++ [p] ∧
    (c.AddParent p).1.Name = c.Name ∧ (c.AddParent p).2 = none := by
  cases c with
  | mk f b =>
    simp [DashboardCard.AddParent, DashboardCard.Paths, DashboardCard.fields,
      DashboardCard.parents, DashboardCard.Name]

/-- C20, the code at a counterexample. The card `c1`, child of the mod `m`, has the one
path through the mod once `GetPaths` has computed it; after `AddParent` of the dashboard
`d1` the next `GetPaths` returns that same one path, and no path through the dashboard,
although the dashboard is among the parents. -/
theorem DashboardCard.GetPaths_stale_after_AddParent :
    (demo.cardC1.GetPaths 4 demo.tree).map (fun out => out.1.map out.2.2.read) =
      some [["mod.m", "m.card.c1"]] ∧
    ((demo.cardC1.GetPaths 4 demo.tree).map
      (fun out => ((out.2.1.AddParent demo.dashboardD1).1.parents))) =
        some [demo.modPtr, demo.dashboardD1] ∧
    ((demo.cardC1.GetPaths 4 demo.tree).bind
      (fun out => ((out.2.1.AddParent demo.dashboardD1).1.GetPaths 4 out.2.2).map
        (fun out2 => out2.1.map out2.2.2.read))) = some [["mod.m", "m.card.c1"]] ∧
    (Heap.GetPaths 4 demo.tree demo.dashboardD1).map (fun out => out.1.map out.2.read) =
      some [["mod.m", "m.dashboard.d1"]] := by
  decide

/-- C20, amended. `AddParent` appends the parent and leaves the stored paths alone, and
`GetPaths` returns stored paths without looking at the parents. So when a call of
`GetPaths` has computed at least one path for the card, then after a later `AddParent(p)`
the next `GetPaths` returns exactly the paths of that call, from an unchanged memory, for
any depth of the tree: the stored paths are not invalidated, and none of them goes through
`p`. -/
theorem DashboardCard.GetPaths_after_AddParent (fuel fuel2 : Nat) (c0 c : DashboardCard)
    (h0 h : Heap) (paths : List NodePath) (p : ModTreeItem)
    (hfirst : c0.GetPaths fuel h0 = some (paths, c, h)) (hne : paths ≠ []) :
    (c.AddParent p).1.parents = c.parents ++ [p] ∧
    (c.AddParent p).1.Paths = paths ∧
    (c.AddParent p).1.GetPaths fuel2 h = some (paths, (c.AddParent p).1, h) := by
  have hstored := DashboardCard.GetPaths_stores fuel c0 c h0 h paths hfirst
  obtain ⟨hp, hps, _, _⟩ := DashboardCard.AddParent_fields c p
  refine ⟨hps, hp.trans hstored, ?_⟩
  have hne2 : (c.AddParent p).1.Paths ≠ [] := by
    rw [hp, hstored]
    exact hne
  rw [DashboardCard.GetPaths_of_nonempty fuel2 _ h hne2, hp, hstored]

/-- Witness of C20 (amended): the card `c1` with its computed path and the new parent
`d1`. -/
theorem DashboardCard.GetPaths_after_AddParent_witness :
    ∃ paths c h, demo.cardC1.GetPaths 4 demo.tree = some (paths, c, h) ∧
      paths.map h.read = [["mod.m", "m.card.c1"]] ∧
      (c.AddParent demo.dashboardD1).1.parents = c.parents ++ [demo.dashboardD1] ∧
      (c.AddParent demo.dashboardD1).1.Paths = paths ∧
      (c.AddParent demo.dashboardD1).1.GetPaths 0 h =
        some (paths, (c.AddParent demo.dashboardD1).1, h) := by
  have hsome : (demo.cardC1.GetPaths 4 demo.tree).isSome = true := by decide
  obtain ⟨out, hout⟩ := Option.isSome_iff_exists.mp hsome
  obtain ⟨paths, c, h⟩ := out
  have hread : (demo.cardC1.GetPaths 4 demo.tree).map (fun out => out.1.map out.2.2.read) =
      some [["mod.m", "m.card.c1"]] := by decide
  have hpaths : paths ≠ [] := by
    intro hnil
    rw [hout, hnil] at hread
    simp at hread
  rw [hout] at hread
  exact ⟨paths, c, h, hout, by simpa using hread,
    DashboardCard.GetPaths_after_AddParent 4 0 demo.cardC1 c demo.tree h paths
      demo.dashboardD1 hout hpaths⟩

end modconfig

namespace modconfig

/-! ### `Mod.WalkResources` -/

theorem Mod.walkLoop_append {σ : Type} (f : σ → HclResource → σ × Bool)
    (l rest : List HclResource) (s : σ) :
    Mod.walkLoop f (l ++ rest) s =
      if (Mod.walkLoop f l s).2 then Mod.walkLoop f rest (Mod.walkLoop f l s).1
      else ((Mod.walkLoop f l s).1, false) := by
  induction l generalizing s with
  | nil => simp [Mod.walkLoop]
  | cons r l ih =>
    simp only [List.cons_append, Mod.walkLoop]
    rcases h : f s r with ⟨s1, goOn⟩
    cases goOn
    · simp [Mod.walkLoop]
    · simp [ih]

theorem Mod.WalkResources_eq_walkLoop {σ : Type} (m : Mod) (f : σ → HclResource → σ × Bool)
    (s0 : σ) : m.WalkResources f s0 = (Mod.walkLoop f m.allResources s0).1 := by
  unfold Mod.WalkResources Mod.allResources
  simp only [List.append_assoc]
  rw [Mod.walkLoop_append]
  obtain ⟨s1, b⟩ := Mod.walkLoop f (mapValues m.fields.Queries) s0
  cases b
  · simp
  simp only [Bool.not_true, Bool.false_eq_true, ↓reduceIte]
  rw [Mod.walkLoop_append]
  obtain ⟨s2, b⟩ := Mod.walkLoop f (mapValues m.fields.Controls) s1
  cases b
  · simp
  simp only [Bool.not_true, Bool.false_eq_true, ↓reduceIte]
  rw [Mod.walkLoop_append]
  obtain ⟨s3, b⟩ := Mod.walkLoop f (mapValues m.fields.Benchmarks) s2
  cases b
  · simp
  simp only [Bool.not_true, Bool.false_eq_true, ↓reduceIte]
  rw [Mod.walkLoop_append]
  obtain ⟨s4, b⟩ := Mod.walkLoop f (mapValues m.fields.Dashboards) s3
  cases b
  · simp
  simp only [Bool.not_true, Bool.false_eq_true, ↓reduceIte]
  rw [Mod.walkLoop_append]
  obtain ⟨s5, b⟩ := Mod.walkLoop f (mapValues m.fields.DashboardContainers) s4
  cases b
  · simp
  simp only [Bool.not_true, Bool.false_eq_true, ↓reduceIte]
  rw [Mod.walkLoop_append]
  obtain ⟨s6, b⟩ := Mod.walkLoop f (mapValues m.fields.DashboardCards) s5
  cases b
  · simp
  simp only [Bool.not_true, Bool.false_eq_true, ↓reduceIte]
  rw [Mod.walkLoop_append]
  obtain ⟨s7, b⟩ := Mod.walkLoop f (mapValues m.fields.DashboardCharts) s6
  cases b
  · simp
  simp only [Bool.not_true, Bool.false_eq_true, ↓reduceIte]
  rw [Mod.walkLoop_append]
  obtain ⟨s8, b⟩ := Mod.walkLoop f (mapValues m.fields.DashboardHierarchies) s7
  cases b
  · simp
  simp only [Bool.not_true, Bool.false_eq_true, ↓reduceIte]
  rw [Mod.walkLoop_append]
  obtain ⟨s9, b⟩ := Mod.walkLoop f (mapValues m.fields.DashboardImages) s8
  cases b
  · simp
  simp only [Bool.not_true, Bool.false_eq_true, ↓reduceIte]
  rw [Mod.walkLoop_append]
  obtain ⟨s10, b⟩ := Mod.walkLoop f (mapValues m.fields.DashboardInputs) s9
  cases b
  · simp
  simp only [Bool.not_true, Bool.false_eq_true, ↓reduceIte]
  rw [Mod.walkLoop_append]
  obtain ⟨s11, b⟩ := Mod.walkLoop f (mapValues m.fields.DashboardTables) s10
  cases b
  · simp
  simp only [Bool.not_true, Bool.false_eq_true, ↓reduceIte]
  rw [Mod.walkLoop_append]
  obtain ⟨s12, b⟩ := Mod.walkLoop f (mapValues m.fields.DashboardTexts) s11
  cases b
  · simp
  simp only [Bool.not_true, Bool.false_eq_true, ↓reduceIte]
  rw [Mod.walkLoop_append]
  obtain ⟨s13, b⟩ := Mod.walkLoop f ((mapValues m.fields.Variables).map Variable.asHclResource) s12
  cases b
  · simp
  simp only [Bool.not_true, Bool.false_eq_true, ↓reduceIte]

theorem Mod.walkLoop_logged {σ : Type} (visit : σ → HclResource → σ × Bool)
    (l : List HclResource) (s : σ) (log : List (HclResource × Bool)) :
    Mod.walkLoop (Mod.logged visit) l (s, log) =
      (((Mod.walkLoop visit l s).1, log ++ Mod.callsUntilStop visit l s),
        (Mod.walkLoop visit l s).2) := by
  induction l generalizing s log with
  | nil => simp [Mod.walkLoop, Mod.callsUntilStop]
  | cons r l ih =>
    simp only [Mod.walkLoop, Mod.logged, Mod.callsUntilStop]
    rcases h : visit s r with ⟨s1, goOn⟩
    cases goOn
    · simp
    · simp [ih]

theorem Mod.walkLoop_always_true {σ : Type} (visit : σ → HclResource → σ × Bool)
    (h : ∀ s r, (visit s r).2 = true) (l : List HclResource) (s : σ) :
    Mod.walkLoop visit l s = (l.foldl (fun s r => (visit s r).1) s, true) ∧
    Mod.callsUntilStop visit l s = l.map (fun r => (r, true)) := by
  induction l generalizing s with
  | nil => simp [Mod.walkLoop, Mod.callsUntilStop]
  | cons r l ih =>
    simp only [Mod.walkLoop, Mod.callsUntilStop, List.foldl_cons, List.map_cons]
    have hr := h s r
    rcases hv : visit s r with ⟨s1, goOn⟩
    rw [hv] at hr
    simp only at hr
    subst hr
    simp [ih]

theorem Mod.callsUntilStop_false_last {σ : Type} (visit : σ → HclResource → σ × Bool)
    (l : List HclResource) (s : σ) (pre post : List (HclResource × Bool))
    (e : HclResource × Bool) (h : Mod.callsUntilStop visit l s = pre ++ e :: post)
    (he : e.2 = false) : post = [] := by
  induction l generalizing s pre with
  | nil => simp [Mod.callsUntilStop] at h
  | cons r l ih =>
    simp only [Mod.callsUntilStop] at h
    rcases hv : visit s r with ⟨s1, goOn⟩
    rw [hv] at h
    simp only at h
    cases pre with
    | nil =>
      simp only [List.nil_append, List.cons.injEq] at h
      obtain ⟨he1, hpost⟩ := h
      have : goOn = false := by rw [← he, ← he1]
      subst this
      simpa using hpost.symm
    | cons e1 pre =>
      simp only [List.cons_append, List.cons.injEq] at h
      obtain ⟨_, hrest⟩ := h
      cases goOn with
      | false => simp at hrest
      | true => exact ih s1 pre (by simpa using hrest)

theorem Mod.callsUntilStop_prefix {σ : Type} (visit : σ → HclResource → σ × Bool)
    (l : List HclResource) (s : σ) :
    (Mod.callsUntilStop visit l s).map (fun e => e.1) <+: l := by
  induction l generalizing s with
  | nil => simp [Mod.callsUntilStop]
  | cons r l ih =>
    simp only [Mod.callsUntilStop]
    rcases hv : visit s r with ⟨s1, goOn⟩
    cases goOn
    · simp only [Bool.false_eq_true, ↓reduceIte, List.map_cons, List.map_nil]
      exact ⟨l, rfl⟩
    · simp only [↓reduceIte, List.map_cons]
      obtain ⟨t, ht⟩ := ih s1
      exact ⟨t, by simp [ht]⟩

/-- C15. With a visitor that always returns true, `WalkResources` calls the visitor on the
resources of the typed maps in the fixed order of the types (queries, controls, benchmarks,
dashboards, dashboard containers, cards, charts, hierarchies, images, inputs, tables,
texts, variables, locals), once for every entry of every map: the state after the walk is
the fold of the visitor over that list, and the log of the calls is that list, every call
having returned true. -/
theorem Mod.WalkResources_visits_all_in_type_order {σ : Type} (m : Mod)
    (visit : σ → HclResource → σ × Bool) (s : σ) (h : ∀ s r, (visit s r).2 = true) :
    m.WalkResources visit s = m.allResources.foldl (fun s r => (visit s r).1) s ∧
    (m.WalkResources (Mod.logged visit) (s, [])).2 =
      m.allResources.map (fun r => (r, true)) := by
  rw [Mod.WalkResources_eq_walkLoop, Mod.WalkResources_eq_walkLoop, Mod.walkLoop_logged,
    (Mod.walkLoop_always_true visit h m.allResources s).1,
    (Mod.walkLoop_always_true visit h m.allResources s).2]
  simp

/-- Witness of C15: the counting visitor on the mod `m` is called eight times, on the two
queries, the control, the two cards, the text, the variable and the local, in that
order. -/
theorem Mod.WalkResources_visits_all_in_type_order_witness :
    demo.modM.allResources.map (fun r => r.Name) =
      ["m.query.q1", "m.query.q2", "m.control.k1", "m.card.c1", "m.card.c2", "m.text.t1",
       "m.var.v1", "m.local.l1"] ∧
    demo.modM.WalkResources demo.countAll 0 =
      demo.modM.allResources.foldl (fun s r => (demo.countAll s r).1) 0 ∧
    (demo.modM.WalkResources (Mod.logged demo.countAll) (0, [])).2 =
      demo.modM.allResources.map (fun r => (r, true)) :=
  ⟨by decide,
   Mod.WalkResources_visits_all_in_type_order demo.modM demo.countAll 0 (fun _ _ => rfl)⟩

/-- C16. For every mod and every visitor, in the log of the calls that `WalkResources`
makes, a call that returned false is followed by no other call, so false is returned at
most once and by the last call; the resources visited are an initial part of the resources
in the order of the types; and keeping the log does not change the walk. -/
theorem Mod.WalkResources_stops_at_false {σ : Type} (m : Mod)
    (visit : σ → HclResource → σ × Bool) (s : σ) :
    (∀ (pre post : List (HclResource × Bool)) (e : HclResource × Bool),
      (m.WalkResources (Mod.logged visit) (s, [])).2 = pre ++ e :: post →
      e.2 = false → post = []) ∧
    (m.WalkResources (Mod.logged visit) (s, [])).2.map (fun e => e.1) <+: m.allResources ∧
    (m.WalkResources (Mod.logged visit) (s, [])).1 = m.WalkResources visit s := by
  rw [Mod.WalkResources_eq_walkLoop, Mod.WalkResources_eq_walkLoop, Mod.walkLoop_logged]
  simp only [List.nil_append]
  exact ⟨fun pre post e hlog he => Mod.callsUntilStop_false_last visit _ s pre post e hlog he,
    Mod.callsUntilStop_prefix visit _ s, trivial⟩

/-- Witness of C16: the visitor that stops at the second query of the mod `m` is called on
the two queries only, although the maps of the controls, cards, texts, variables and locals
that follow are not empty; and `containsResource` finds that query. -/
theorem Mod.WalkResources_stops_at_false_witness :
    (demo.modM.WalkResources (Mod.logged (demo.stopAt "m.query.q2")) (0, [])).2.map
        (fun e => (e.1.Name, e.2)) = [("m.query.q1", true), ("m.query.q2", false)] ∧
    demo.modM.containsResource "m.query.q2" = true ∧
    (demo.modM.WalkResources (Mod.logged (demo.stopAt "m.query.q2")) (0, [])).2.map
        (fun e => e.1) <+: demo.modM.allResources :=
  ⟨by decide, by decide,
   (Mod.WalkResources_stops_at_false demo.modM (demo.stopAt "m.query.q2") 0).2.1⟩

end modconfig

namespace modconfig

/-! ### `Mod.Equals` -/

theorem Mod.Equals_eq (eq : Equalities) (m other : Mod) :
    Mod.Equals eq m other =
      Mod.EqualsWith
        (fun otherMaps => WorkspaceResourceMapsOf.Equals eq m.resourceMaps otherMaps) m other := by
  cases m with
  | mk f maps =>
    cases maps
    rw [Mod.Equals]
    rfl

/-- C17, the code at the failing input. The mods `t` with the tags `a = ""` and `b = ""`
are `Equals`, whatever the equality of the resources is, although the key `a` is a tag of
the first mod only and the key `b` a tag of the second only. -/
theorem Mod.Equals_true_with_different_tag_keys (eq : Equalities) :
    Mod.Equals eq demo.modTagA demo.modTagB = true ∧
    demo.modTagA.Tags = [("a", "")] ∧ demo.modTagB.Tags = [("b", "")] ∧
    mapGet demo.modTagA.Tags "a" = some "" ∧ mapGet demo.modTagB.Tags "a" = none := by
  refine ⟨?_, rfl, rfl, by decide, by decide⟩
  rw [Mod.Equals_eq]
  rfl

theorem mapGet_isSome_iff {V : Type} (m : List (String × V)) (key : String) :
    (mapGet m key).isSome = true ↔ ∃ e ∈ m, e.1 = key := by
  unfold mapGet
  induction m with
  | nil => simp
  | cons e m ih =>
    obtain ⟨k, v⟩ := e
    by_cases hk : key = k
    · subst hk
      simp [List.lookup]
    · have hne : (key == k) = false := by simpa using hk
      simp only [List.lookup, hne, ih, List.mem_cons, exists_eq_or_imp]
      constructor
      · intro h
        exact Or.inr h
      · rintro (h | h)
        · exact absurd h.symm hk
        · exact h

theorem all_keys_iff {V W : Type} (m : List (String × V)) (other : List (String × W)) :
    m.all (fun e => (mapGet other e.1).isSome) = true ↔
      ∀ key, (mapGet m key).isSome = true → (mapGet other key).isSome = true := by
  simp only [List.all_eq_true, mapGet_isSome_iff]
  constructor
  · rintro h key ⟨e, he, rfl⟩
    exact h e he
  · intro h e he
    exact h e.1 ⟨e, he, rfl⟩

theorem keysEqual_iff {V W : Type} (m : List (String × V)) (other : List (String × W)) :
    keysEqual m other = true ↔
      ∀ key, (mapGet m key).isSome = (mapGet other key).isSome := by
  simp only [keysEqual, Bool.and_eq_true, all_keys_iff]
  constructor
  · rintro ⟨h1, h2⟩ key
    exact Bool.eq_iff_iff.mpr ⟨h1 key, h2 key⟩
  · intro h
    exact ⟨fun key hk => (h key) ▸ hk, fun key hk => (h key).symm ▸ hk⟩

theorem categoriesEqual_self (cs : Option (List String)) : categoriesEqual cs cs = true := by
  cases cs <;> simp [categoriesEqual]

theorem tagsEqual_of_agree (tags otherTags : List (String × String))
    (hlen : tags.length = otherTags.length)
    (h : ∀ e ∈ tags, mapGet otherTags e.1 = some e.2) : tagsEqual tags otherTags = true := by
  simp only [tagsEqual, hlen, beq_self_eq_true, Bool.true_and, List.all_eq_true]
  intro e he
  simp [h e he]

/-- C18. For mods that agree on the names, on the scalar properties (as `SafeString` reads
them), on the categories, on the tags and on the resource maps, `Equals` is true exactly
when the variables of the two mods have the same keys and the locals of the two mods have
the same keys; the values of the variables and of the locals are not read. -/
theorem Mod.Equals_iff_same_variable_and_local_keys (eq : Equalities) (m other : Mod)
    (hShort : m.ShortName = other.ShortName) (hFull : m.FullName = other.FullName)
    (hColor : SafeString m.fields.Color = SafeString other.fields.Color)
    (hDescription : SafeString m.fields.Description = SafeString other.fields.Description)
    (hDocumentation :
      SafeString m.fields.Documentation = SafeString other.fields.Documentation)
    (hIcon : SafeString m.fields.Icon = SafeString other.fields.Icon)
    (hTitle : SafeString m.fields.Title = SafeString other.fields.Title)
    (hCategories : m.Categories = other.Categories)
    (hTagCount : m.Tags.length = other.Tags.length)
    (hTags : ∀ e ∈ m.Tags, mapGet other.Tags e.1 = some e.2)
    (hMaps : WorkspaceResourceMapsOf.Equals eq m.resourceMaps other.resourceMaps = true) :
    Mod.Equals eq m other = true ↔
      (∀ key, (mapGet m.Variables key).isSome = (mapGet other.Variables key).isSome) ∧
      (∀ key, (mapGet m.Locals key).isSome = (mapGet other.Locals key).isSome) := by
  rw [Mod.Equals_eq, ← keysEqual_iff, ← keysEqual_iff]
  have hcat : categoriesEqual m.Categories other.Categories = true := by
    rw [hCategories]
    exact categoriesEqual_self _
  have htag := tagsEqual_of_agree m.Tags other.Tags hTagCount hTags
  simp only [Mod.EqualsWith, hShort, hFull, hColor, hDescription, hDocumentation, hIcon,
    hTitle, hcat, htag, hMaps, beq_self_eq_true, Bool.and_self, Bool.not_true,
    Bool.false_eq_true, ↓reduceIte]
  cases keysEqual m.Variables other.Variables <;>
    cases keysEqual m.Locals other.Locals <;> simp

/-- Witness of C18: the two mods `v` agree on everything but the value of the variable
`v1` and the local behind the key `l1`, and are `Equals`. -/
theorem Mod.Equals_iff_same_variable_and_local_keys_witness :
    (mapGet demo.modVarOne.Variables "v.var.v1").map (fun v => v.Value) =
      some (cty.Value.StringVal "one") ∧
    (mapGet demo.modVarTwo.Variables "v.var.v1").map (fun v => v.Value) =
      some (cty.Value.StringVal "two") ∧
    Mod.Equals demo.eq demo.modVarOne demo.modVarTwo = true :=
  ⟨rfl, rfl,
   (Mod.Equals_iff_same_variable_and_local_keys demo.eq demo.modVarOne demo.modVarTwo
      rfl rfl rfl rfl rfl rfl rfl rfl rfl (by decide) (by decide)).mpr
     ⟨(keysEqual_iff _ _).mp (by decide), (keysEqual_iff _ _).mp (by decide)⟩⟩

end modconfig

namespace workspace

open modconfig

/-! ### `loadWorkspaceMod` -/

/-- C12, the code at a counterexample. The workspace has the mod `v` loaded; the load of
the mod `m` succeeds and the verification of the runtime dependencies fails:
`loadWorkspaceMod` returns the error, and the workspace holds the mod `m`, its variables,
the mods with `m` among them and the new resource maps. -/
theorem loadWorkspaceMod_error_after_replacement :
    (loadWorkspaceMod demo.envVerifyFails demo.loaded).2 =
      some "runtime dependency not resolved" ∧
    demo.loaded.Mod.map Mod.Name = some "mod.v" ∧
    (loadWorkspaceMod demo.envVerifyFails demo.loaded).1.Mod.map Mod.Name = some "mod.m" ∧
    demo.loaded.Variables.map (fun e => e.1) = ["v.var.v1"] ∧
    (loadWorkspaceMod demo.envVerifyFails demo.loaded).1.Variables.map (fun e => e.1) =
      ["m.var.v1"] ∧
    demo.loaded.Mods.map (fun e => e.1) = ["mod.v"] ∧
    (loadWorkspaceMod demo.envVerifyFails demo.loaded).1.Mods.map (fun e => e.1) =
      ["mod.m"] ∧
    demo.loaded.resourceMaps.map (fun maps => maps.Dashboards.map (fun e => e.1)) =
      some [] ∧
    (loadWorkspaceMod demo.envVerifyFails demo.loaded).1.resourceMaps.map
      (fun maps => maps.Dashboards.map (fun e => e.1)) = some ["m.dashboard.d1"] := by
  decide

/-- C12, amended. When `loadWorkspaceMod` returns an error, either the error comes from the
evaluation of the variables, from the run context or from the load of the mod, and the
workspace is as before the call; or the load has succeeded and the error comes from the
verification of the runtime dependencies, and the workspace holds the new mod, its
variables, the dependency mods with the new mod added, and the resource maps built from
them. -/
theorem loadWorkspaceMod_error (env : Env) (w : Workspace) (err : String)
    (h : (loadWorkspaceMod env w).2 = some err) :
    ((loadWorkspaceMod env w).1 = w ∧
      (env.getAllVariables w = Except.error err ∨
        getRunContext env w = Except.error err ∨
        ∃ inputVariables runCtx,
          env.getAllVariables w = Except.ok inputVariables ∧
          getRunContext env w = Except.ok runCtx ∧
          env.LoadMod w.Path { runCtx with Variables := inputVariables } =
            Except.error err)) ∨
    (∃ inputVariables runCtx m loadedCtx,
      env.getAllVariables w = Except.ok inputVariables ∧
      getRunContext env w = Except.ok runCtx ∧
      env.LoadMod w.Path { runCtx with Variables := inputVariables } =
        Except.ok (m, loadedCtx) ∧
      (loadWorkspaceMod env w).1.Mod = some m ∧
      (loadWorkspaceMod env w).1.Variables = m.Variables ∧
      (loadWorkspaceMod env w).1.Mods = mapSet loadedCtx.LoadedDependencyMods m.Name m ∧
      (loadWorkspaceMod env w).1.resourceMaps.isSome = true ∧
      verifyResourceRuntimeDependencies env (loadWorkspaceMod env w).1 = some err) := by
  unfold loadWorkspaceMod at h ⊢
  cases hv : env.getAllVariables w with
  | error e =>
    rw [hv] at h
    simp only [Option.some.injEq] at h
    subst h
    exact Or.inl ⟨rfl, Or.inl rfl⟩
  | ok inputVariables =>
    rw [hv] at h
    simp only at h ⊢
    cases hr : getRunContext env w with
    | error e =>
      rw [hr] at h
      simp only [Option.some.injEq] at h
      subst h
      exact Or.inl ⟨rfl, Or.inr (Or.inl rfl)⟩
    | ok runCtx =>
      rw [hr] at h
      simp only at h ⊢
      cases hl : env.LoadMod w.Path { runCtx with Variables := inputVariables } with
      | error e =>
        rw [hl] at h
        simp only [Option.some.injEq] at h
        subst h
        exact Or.inl ⟨rfl, Or.inr (Or.inr ⟨inputVariables, runCtx, rfl, rfl, hl⟩)⟩
      | ok loaded =>
        obtain ⟨m, loadedCtx⟩ := loaded
        rw [hl] at h
        simp only at h
        exact Or.inr ⟨inputVariables, runCtx, m, loadedCtx, rfl, rfl, hl, rfl, rfl, rfl, rfl, h⟩

/-- Witness of C12 (amended): the load of the mod fails, and the workspace is as before. -/
theorem loadWorkspaceMod_error_witness :
    (loadWorkspaceMod demo.envLoadFails demo.loaded).2 = some "mod.sp: invalid block" ∧
    (loadWorkspaceMod demo.envLoadFails demo.loaded).1.Mod.map Mod.Name = some "mod.v" ∧
    (((loadWorkspaceMod demo.envLoadFails demo.loaded).1 = demo.loaded ∧
      (demo.envLoadFails.getAllVariables demo.loaded =
          Except.error "mod.sp: invalid block" ∨
        getRunContext demo.envLoadFails demo.loaded = Except.error "mod.sp: invalid block" ∨
        ∃ inputVariables runCtx,
          demo.envLoadFails.getAllVariables demo.loaded = Except.ok inputVariables ∧
          getRunContext demo.envLoadFails demo.loaded = Except.ok runCtx ∧
          demo.envLoadFails.LoadMod demo.loaded.Path
            { runCtx with Variables := inputVariables } =
            Except.error "mod.sp: invalid block")) ∨
    (∃ inputVariables runCtx m loadedCtx,
      demo.envLoadFails.getAllVariables demo.loaded = Except.ok inputVariables ∧
      getRunContext demo.envLoadFails demo.loaded = Except.ok runCtx ∧
      demo.envLoadFails.LoadMod demo.loaded.Path
        { runCtx with Variables := inputVariables } = Except.ok (m, loadedCtx) ∧
      (loadWorkspaceMod demo.envLoadFails demo.loaded).1.Mod = some m ∧
      (loadWorkspaceMod demo.envLoadFails demo.loaded).1.Variables = m.Variables ∧
      (loadWorkspaceMod demo.envLoadFails demo.loaded).1.Mods =
        mapSet loadedCtx.LoadedDependencyMods m.Name m ∧
      (loadWorkspaceMod demo.envLoadFails demo.loaded).1.resourceMaps.isSome = true ∧
      verifyResourceRuntimeDependencies demo.envLoadFails
        (loadWorkspaceMod demo.envLoadFails demo.loaded).1 =
        some "mod.sp: invalid block")) :=
  ⟨rfl, by decide,
   loadWorkspaceMod_error demo.envLoadFails demo.loaded "mod.sp: invalid block" rfl⟩

end workspace

namespace modconfig

/-! ### `Diff` and `Equals` of cards and panels -/

theorem SafeIntEqual_self (i : Option Int) : utils.SafeIntEqual i i = true := by
  cases i <;> simp [utils.SafeIntEqual]

theorem SafeIntEqual_iff (i j : Option Int) : utils.SafeIntEqual i j = true ↔ i = j := by
  cases i <;> cases j <;> simp [utils.SafeIntEqual]

theorem SafeStringsEqual_iff (s t : Option String) :
    utils.SafeStringsEqual s t = true ↔ SafeString s = SafeString t := by
  simp [utils.SafeStringsEqual]

theorem DashboardTreeItemDiffs.mem_AddPropertyDiff (d : DashboardTreeItemDiffs)
    (n x : String) :
    x ∈ (d.AddPropertyDiff n).ChangedProperties ↔ x ∈ d.ChangedProperties ∨ x = n := by
  simp only [DashboardTreeItemDiffs.AddPropertyDiff]
  by_cases h : n ∈ d.ChangedProperties
  · have hc : d.ChangedProperties.contains n = true := by simpa using h
    simp only [hc, if_true]
    constructor
    · exact Or.inl
    · rintro (hx | hx)
      · exact hx
      · subst hx
        exact h
  · have hc : ¬ d.ChangedProperties.contains n = true := by simpa using h
    rw [if_neg hc]
    simp

theorem DashboardTreeItemDiffs.mem_foldl_add (tests : List (Bool × String))
    (d : DashboardTreeItemDiffs) (x : String) :
    x ∈ (tests.foldl (fun res e => if e.1 = true then res.AddPropertyDiff e.2 else res)
        d).ChangedProperties ↔
      x ∈ d.ChangedProperties ∨ (true, x) ∈ tests := by
  induction tests generalizing d with
  | nil => simp
  | cons e tests ih =>
    obtain ⟨cond, n⟩ := e
    rw [List.foldl_cons, ih]
    cases cond
    · simp
    · simp only [if_true, DashboardTreeItemDiffs.mem_AddPropertyDiff, List.mem_cons,
        Prod.mk.injEq, true_and]
      tauto

theorem DashboardCard.Diff_eq_foldl (env : ChildDiffs) (c d : DashboardCard) :
    c.Diff env d =
      env.ofCards
        ([(!utils.SafeStringsEqual (some c.fields.FullName) (some d.fields.FullName), "Name"),
          (!utils.SafeStringsEqual c.Title d.Title, "Title"),
          (!utils.SafeStringsEqual c.SQL d.SQL, "SQL"),
          (!utils.SafeIntEqual c.Width d.Width, "Width"),
          (!utils.SafeStringsEqual c.Type_ d.Type_, "Type"),
          (!utils.SafeStringsEqual c.Icon d.Icon, "Icon")].foldl
          (fun res e => if e.1 = true then res.AddPropertyDiff e.2 else res)
          { Name := c.Name }) c d := rfl

/-- C21. For every card and every panel, the record of `Diff` of the resource against
itself holds no changed property name, given that `populateChildDiffs`, which is not part
of the files embedded here, adds no property name for an item diffed against itself. -/
theorem Diff_self_records_no_property (env : ChildDiffs) (c : DashboardCard) (p : Panel)
    (hcard : ∀ res, (env.ofCards res c c).ChangedProperties = res.ChangedProperties)
    (hpanel : ∀ res, (env.ofPanels res p p).ChangedProperties = res.ChangedProperties) :
    (c.Diff env c).ChangedProperties = [] ∧ (p.Diff env p).ChangedProperties = [] := by
  constructor
  · simp [DashboardCard.Diff, utils.SafeStringsEqual, SafeIntEqual_self, hcard]
  · simp only [Panel.Diff, bne_self_eq_false, Bool.false_eq_true, if_false, hpanel]
    cases p.fields.Width <;> cases p.fields.Height <;> simp

/-- Witness of C21: the card `c1` with its base, and the panel `p2` with a child panel. -/
theorem Diff_self_records_no_property_witness :
    (demo.cardC1.Diff demo.childDiffs demo.cardC1).ChangedProperties = [] ∧
    (demo.panelP2.Diff demo.childDiffs demo.panelP2).ChangedProperties = [] :=
  Diff_self_records_no_property demo.childDiffs demo.cardC1 demo.panelP2
    (fun _ => rfl) (fun _ => by simp [demo.childDiffs])

theorem DashboardCard.Diff_properties (env : ChildDiffs) (c d : DashboardCard)
    (hleaf : ∀ res, env.ofCards res c d = res) (name : String) :
    name ∈ (c.Diff env d).ChangedProperties ↔
      (name = "Name" ∧ c.fields.FullName ≠ d.fields.FullName) ∨
      (name = "Title" ∧ SafeString c.Title ≠ SafeString d.Title) ∨
      (name = "SQL" ∧ SafeString c.SQL ≠ SafeString d.SQL) ∨
      (name = "Width" ∧ c.Width ≠ d.Width) ∨
      (name = "Type" ∧ SafeString c.Type_ ≠ SafeString d.Type_) ∨
      (name = "Icon" ∧ SafeString c.Icon ≠ SafeString d.Icon) := by
  have hw : (true = !utils.SafeIntEqual c.Width d.Width) ↔ c.Width ≠ d.Width := by
    rw [ne_eq, ← SafeIntEqual_iff]
    cases utils.SafeIntEqual c.Width d.Width <;> simp
  have hs : ∀ s t : Option String,
      (true = !utils.SafeStringsEqual s t) ↔ SafeString s ≠ SafeString t := by
    intro s t
    rw [ne_eq, ← SafeStringsEqual_iff]
    cases utils.SafeStringsEqual s t <;> simp
  have hn : (true = !utils.SafeStringsEqual (some c.fields.FullName)
      (some d.fields.FullName)) ↔ c.fields.FullName ≠ d.fields.FullName := by
    rw [hs]
    simp [SafeString]
  rw [DashboardCard.Diff_eq_foldl, hleaf, DashboardTreeItemDiffs.mem_foldl_add]
  simp only [List.not_mem_nil, false_or, List.mem_cons, Prod.mk.injEq, or_false]
  rw [hw, hn, hs c.Title d.Title, hs c.SQL d.SQL, hs c.Type_ d.Type_, hs c.Icon d.Icon]
  simp only [and_comm]

theorem DashboardTreeItemDiffs.foldl_add_items (tests : List (Bool × String))
    (d : DashboardTreeItemDiffs) :
    (tests.foldl (fun res e => if e.1 = true then res.AddPropertyDiff e.2 else res)
        d).AddedItems = d.AddedItems ∧
    (tests.foldl (fun res e => if e.1 = true then res.AddPropertyDiff e.2 else res)
        d).RemovedItems = d.RemovedItems := by
  induction tests generalizing d with
  | nil => simp
  | cons e tests ih =>
    rw [List.foldl_cons]
    obtain ⟨h1, h2⟩ := ih (if e.1 = true then d.AddPropertyDiff e.2 else d)
    rw [h1, h2]
    by_cases he : e.1 = true
    · simp only [he, if_true, DashboardTreeItemDiffs.AddPropertyDiff]
      split <;> simp
    · simp [he]

theorem DashboardTreeItemDiffs.HasChanges_iff (d : DashboardTreeItemDiffs)
    (ha : d.AddedItems = []) (hr : d.RemovedItems = []) :
    d.HasChanges = true ↔ ∃ name, name ∈ d.ChangedProperties := by
  simp only [DashboardTreeItemDiffs.HasChanges, ha, hr, List.length_nil, Nat.add_zero,
    gt_iff_lt, decide_eq_true_eq, List.length_pos]
  exact ⟨List.exists_mem_of_ne_nil _, fun ⟨_, h⟩ => List.ne_nil_of_mem h⟩

/-- The comparisons of `DashboardCard.Diff` do not include `Display`: for two cards that
differ in `display` only, `table` against `json`, the record holds no property name. -/
theorem DashboardCard.Diff_display_not_compared :
    demo.cardDisplayTable.Display = some "table" ∧
    demo.cardDisplayJson.Display = some "json" ∧
    (demo.cardDisplayTable.Diff demo.childDiffs demo.cardDisplayJson).ChangedProperties =
      [] := by
  decide

/-- C22, the code at a counterexample. A card whose title is not set and a card whose
title is set to the empty string differ in the value of `title`, and in nothing else:
`Diff` records no property name and `Equals` is true, as the strings are compared through
`SafeStringsEqual`. -/
theorem DashboardCard.Diff_unset_equals_empty :
    demo.cardNoTitle.Title = none ∧
    demo.cardEmptyTitle.Title = some "" ∧
    (demo.cardNoTitle.Diff demo.childDiffs demo.cardEmptyTitle).ChangedProperties = [] ∧
    demo.cardNoTitle.Equals demo.childDiffs demo.cardEmptyTitle = true := by
  decide

/-- C22, amended. For cards, whose `populateChildDiffs` has no children to record, each of
the property names `Name`, `Title`, `SQL`, `Width`, `Type` and `Icon` is recorded by
`c.Diff(d)` exactly when the value of that property differs between the two cards, a
string property that is not set counting as the empty string; and `c.Equals(d)` is false
whenever one of these properties differs in that sense. -/
theorem DashboardCard.Diff_records_differing_properties (env : ChildDiffs)
    (c d : DashboardCard) (hleaf : ∀ res, env.ofCards res c d = res) :
    ("Name" ∈ (c.Diff env d).ChangedProperties ↔ c.fields.FullName ≠ d.fields.FullName) ∧
    ("Title" ∈ (c.Diff env d).ChangedProperties ↔ SafeString c.Title ≠ SafeString d.Title) ∧
    ("SQL" ∈ (c.Diff env d).ChangedProperties ↔ SafeString c.SQL ≠ SafeString d.SQL) ∧
    ("Width" ∈ (c.Diff env d).ChangedProperties ↔ c.Width ≠ d.Width) ∧
    ("Type" ∈ (c.Diff env d).ChangedProperties ↔ SafeString c.Type_ ≠ SafeString d.Type_) ∧
    ("Icon" ∈ (c.Diff env d).ChangedProperties ↔ SafeString c.Icon ≠ SafeString d.Icon) ∧
    (c.fields.FullName ≠ d.fields.FullName ∨ SafeString c.Title ≠ SafeString d.Title ∨
      SafeString c.SQL ≠ SafeString d.SQL ∨ c.Width ≠ d.Width ∨
      SafeString c.Type_ ≠ SafeString d.Type_ ∨ SafeString c.Icon ≠ SafeString d.Icon →
      c.Equals env d = false) := by
  have hmem := DashboardCard.Diff_properties env c d hleaf
  refine ⟨(hmem "Name").trans (by simp), (hmem "Title").trans (by simp),
    (hmem "SQL").trans (by simp), (hmem "Width").trans (by simp),
    (hmem "Type").trans (by simp), (hmem "Icon").trans (by simp), ?_⟩
  have hitems : (c.Diff env d).AddedItems = [] ∧ (c.Diff env d).RemovedItems = [] := by
    rw [DashboardCard.Diff_eq_foldl, hleaf]
    exact DashboardTreeItemDiffs.foldl_add_items _ _
  have hchg := DashboardTreeItemDiffs.HasChanges_iff (c.Diff env d) hitems.1 hitems.2
  simp only [DashboardCard.Equals, Bool.not_eq_false', hchg, hmem]
  rintro (h | h | h | h | h | h)
  · exact ⟨"Name", Or.inl ⟨rfl, h⟩⟩
  · exact ⟨"Title", Or.inr (Or.inl ⟨rfl, h⟩)⟩
  · exact ⟨"SQL", Or.inr (Or.inr (Or.inl ⟨rfl, h⟩))⟩
  · exact ⟨"Width", Or.inr (Or.inr (Or.inr (Or.inl ⟨rfl, h⟩)))⟩
  · exact ⟨"Type", Or.inr (Or.inr (Or.inr (Or.inr (Or.inl ⟨rfl, h⟩))))⟩
  · exact ⟨"Icon", Or.inr (Or.inr (Or.inr (Or.inr (Or.inr ⟨rfl, h⟩))))⟩

/-- Witness of C22 (amended): the cards `c3` without width and with the width 6 differ in
`Width` and agree on the title. -/
theorem DashboardCard.Diff_records_differing_properties_witness :
    "Width" ∈ (demo.cardDisplayTable.Diff demo.childDiffs demo.cardWide).ChangedProperties ∧
    "Title" ∉ (demo.cardDisplayTable.Diff demo.childDiffs demo.cardWide).ChangedProperties ∧
    demo.cardDisplayTable.Equals demo.childDiffs demo.cardWide = false :=
  ⟨(DashboardCard.Diff_records_differing_properties demo.childDiffs demo.cardDisplayTable
      demo.cardWide (fun _ => rfl)).2.2.2.1.mpr (by decide),
   fun hmem =>
    (DashboardCard.Diff_records_differing_properties demo.childDiffs demo.cardDisplayTable
      demo.cardWide (fun _ => rfl)).2.1.mp hmem rfl,
   (DashboardCard.Diff_records_differing_properties demo.childDiffs demo.cardDisplayTable
      demo.cardWide (fun _ => rfl)).2.2.2.2.2.2 (Or.inr (Or.inr (Or.inr (Or.inl (by decide)))))⟩

end modconfig

namespace modconfig

/-! ### `Control.AddChild` -/

/-- C23. For every control and every child, `AddChild` returns the error `cannot add child
to a control` and leaves the control, its fields and its parent, as it was. The method is
total: it reads nothing of its receiver or of the child. -/
theorem Control.AddChild_returns_error (c : Control) (child : ControlTreeItem) :
    (c.AddChild child).2 = some "cannot add child to a control" ∧
    (c.AddChild child).2 ≠ none ∧
    (c.AddChild child).1 = c ∧
    (c.AddChild child).1.parent = c.parent :=
  ⟨rfl, by simp [Control.AddChild], rfl, rfl⟩

/-- Witness of C23: the control `k1` under the benchmark `b1` keeps its parent. -/
theorem Control.AddChild_returns_error_witness :
    (demo.controlK1.AddChild demo.childB2).2 = some "cannot add child to a control" ∧
    (demo.controlK1.AddChild demo.childB2).1.Path = ["mod.m", "benchmark.b1", "control.k1"] :=
  ⟨(Control.AddChild_returns_error demo.controlK1 demo.childB2).1, by decide⟩

end modconfig

namespace constants

/-! ### `Invoker.IsValid` -/

/-- C25, the code at the failing input. `IsValid` returns an error for the declared
invoker `connection-watcher`; it returns no error exactly for the five values `service`,
`query`, `check`, `plugin` and `dashboard`. -/
theorem IsValid_rejects_connection_watcher :
    (IsValid InvokerConnectionWatcher).isSome = true ∧
    (∀ i : Invoker, IsValid i = none ↔
      i = InvokerService ∨ i = InvokerQuery ∨ i = InvokerCheck ∨ i = InvokerPlugin ∨
        i = InvokerDashboard) := by
  refine ⟨by decide, fun i => ?_⟩
  unfold IsValid
  split <;> simp_all

end constants

namespace plugin_manager

/-! ### `PluginManager.Shutdown` -/

/-- C30. For every state of the plugin manager and of the processes, `Shutdown` returns the
empty response and no error, kills no process and leaves the plugins as they are; all it
does is log. -/
theorem Shutdown_returns_before_killing (m : PluginManager) (os : Processes) :
    (Shutdown m os).1 = ({}, none) ∧
    (Shutdown m os).2.1 = m ∧
    (Shutdown m os).2.2.killed = os.killed ∧
    (Shutdown m os).2.2.running = os.running ∧
    (Shutdown m os).2.2.log = os.log ++ ["[WARN] Shutdown"] :=
  ⟨rfl, rfl, rfl, rfl, rfl⟩

/-- Witness of C30: with the plugin of `aws` running as process 42, the loop after the
`return` would kill 42; `Shutdown` leaves it running and in the map. -/
theorem Shutdown_returns_before_killing_witness :
    (killAllPlugins demo.manager demo.processes).1.killed = [42] ∧
    (Shutdown demo.manager demo.processes).2.2.killed = [] ∧
    (Shutdown demo.manager demo.processes).2.2.running = [42] ∧
    (Shutdown demo.manager demo.processes).2.1.Plugins = demo.manager.Plugins :=
  ⟨by decide,
   (Shutdown_returns_before_killing demo.manager demo.processes).2.2.1,
   (Shutdown_returns_before_killing demo.manager demo.processes).2.2.2.1,
   congrArg PluginManager.Plugins
     (Shutdown_returns_before_killing demo.manager demo.processes).2.1⟩

end plugin_manager

namespace modconfig

/-! ### `Mod.AddPseudoResource` -/

theorem mapGet_append_new {V : Type} (m : List (String × V)) (key : String) (value : V)
    (h : (mapGet m key).isNone = true) : mapGet (m ++ [(key, value)]) key = some value := by
  unfold mapGet at h ⊢
  induction m with
  | nil => simp [List.lookup]
  | cons e m ih =>
    obtain ⟨k, v⟩ := e
    simp only [List.cons_append, List.lookup] at h ⊢
    cases hk : key == k
    · rw [hk] at h
      exact ih h
    · rw [hk] at h
      simp at h

theorem mapSet_new {V : Type} (m : List (String × V)) (key : String) (value : V)
    (h : (mapGet m key).isNone = true) : mapSet m key value = m ++ [(key, value)] := by
  unfold mapGet at h
  have hs : (m.lookup key).isSome = false := by
    cases hl : m.lookup key
    · rfl
    · rw [hl] at h
      simp at h
  simp [mapSet, hs]

theorem Mod.AddPseudoResource_present (env : ModEnv) (m : Mod) (q : HclResource)
    (hpresent : (mapGet m.fields.Queries q.Name).isSome = true) :
    m.AddPseudoResource env q = some (m, q) := by
  have hnone : (mapGet m.fields.Queries q.Name).isNone = false := by
    cases hl : mapGet m.fields.Queries q.Name
    · rw [hl] at hpresent
      simp at hpresent
    · rfl
  unfold Mod.AddPseudoResource
  simp only [hnone, Bool.false_eq_true, if_false]
  split <;> rfl

theorem Mod.AddPseudoResource_absent (env : ModEnv) (m : Mod) (q : HclResource)
    (metadata : ResourceMetadata) (hq : q.BlockType = BlockTypeQuery)
    (hmeta : q.Metadata = some metadata)
    (habsent : (mapGet m.fields.Queries q.Name).isNone = true) :
    m.AddPseudoResource env q =
      some
        (Mod.mk
          { m.fields with
            Queries := m.fields.Queries ++
              [(q.Name,
                { q with Metadata := some (env.SetMod metadata
                    (Mod.mk { m.fields with Queries := m.fields.Queries ++ [(q.Name, q)] }
                      m.resourceMaps)) })] }
          m.resourceMaps,
         { q with Metadata := some (env.SetMod metadata
             (Mod.mk { m.fields with Queries := m.fields.Queries ++ [(q.Name, q)] }
               m.resourceMaps)) }) := by
  cases m with
  | mk f maps =>
    simp only [Mod.fields] at habsent
    simp only [Mod.AddPseudoResource, hq, beq_self_eq_true, if_true, Mod.fields, habsent,
      hmeta, Mod.resourceMaps, mapSet_new _ _ _ habsent]

/-- C24. For every mod and every pseudo-resource query `q` (with its metadata set, as the
loader of pseudo resources sets it): when the mod has no query of the name of `q`,
`AddPseudoResource` adds `q` under its name, with the mod set on its metadata, and leaves
the other queries as they are; when a query of that name exists, the mod and `q` are left
unchanged; and a second call with the same query changes nothing more. -/
theorem Mod.AddPseudoResource_existing_wins (env : ModEnv) (m : Mod) (q : HclResource)
    (metadata : ResourceMetadata) (hq : q.BlockType = BlockTypeQuery)
    (hmeta : q.Metadata = some metadata) :
    ((mapGet m.fields.Queries q.Name).isNone = true →
      ∃ m1 q1, m.AddPseudoResource env q = some (m1, q1) ∧
        q1.Name = q.Name ∧ { q1 with Metadata := q.Metadata } = q ∧
        m1.fields = { m.fields with Queries := m.fields.Queries ++ [(q.Name, q1)] } ∧
        m1.resourceMaps = m.resourceMaps ∧
        mapGet m1.fields.Queries q.Name = some q1 ∧
        m1.AddPseudoResource env q1 = some (m1, q1) ∧
        m1.AddPseudoResource env q = some (m1, q)) ∧
    ((mapGet m.fields.Queries q.Name).isSome = true →
      m.AddPseudoResource env q = some (m, q) ∧
      ((m.AddPseudoResource env q).bind (fun out => out.1.AddPseudoResource env out.2)) =
        some (m, q)) := by
  constructor
  · intro habsent
    have key : ∀ v : HclResource,
        (mapGet (m.fields.Queries ++ [(q.Name, v)]) q.Name).isSome = true := by
      intro v
      rw [mapGet_append_new _ _ _ habsent]
      rfl
    exact ⟨_, _, Mod.AddPseudoResource_absent env m q metadata hq hmeta habsent, rfl, rfl, rfl,
      rfl, mapGet_append_new _ _ _ habsent, Mod.AddPseudoResource_present env _ _ (key _),
      Mod.AddPseudoResource_present env _ _ (key _)⟩
  · intro hpresent
    have h := Mod.AddPseudoResource_present env m q hpresent
    refine ⟨h, ?_⟩
    rw [h]
    exact h

/-- Witness of C24: the mod `m` has no query `q9` and takes the pseudo resource of the file
`q9.sql`; it has a query `q1` and stays as it is for the pseudo resource of `q1.sql`. -/
theorem Mod.AddPseudoResource_existing_wins_witness :
    (∃ m1 q1, demo.modM.AddPseudoResource demo.modEnv demo.pseudoQuery = some (m1, q1) ∧
        q1.Name = demo.pseudoQuery.Name ∧
        { q1 with Metadata := demo.pseudoQuery.Metadata } = demo.pseudoQuery ∧
        m1.fields = { demo.modM.fields with
          Queries := demo.modM.fields.Queries ++ [(demo.pseudoQuery.Name, q1)] } ∧
        m1.resourceMaps = demo.modM.resourceMaps ∧
        mapGet m1.fields.Queries demo.pseudoQuery.Name = some q1 ∧
        m1.AddPseudoResource demo.modEnv q1 = some (m1, q1) ∧
        m1.AddPseudoResource demo.modEnv demo.pseudoQuery = some (m1, demo.pseudoQuery)) ∧
    (mapGet demo.modM.fields.Queries demo.pseudoQueryQ1.Name).map (fun r => r.SQL) =
      some "" ∧
    demo.modM.AddPseudoResource demo.modEnv demo.pseudoQueryQ1 =
      some (demo.modM, demo.pseudoQueryQ1) :=
  ⟨(Mod.AddPseudoResource_existing_wins demo.modEnv demo.modM demo.pseudoQuery _ rfl rfl).1
      (by decide),
   by decide,
   ((Mod.AddPseudoResource_existing_wins demo.modEnv demo.modM demo.pseudoQueryQ1 _ rfl
      rfl).2 (by decide)).1⟩

end modconfig

namespace modconfig

/-! ### `Mod.OnDecoded` and the legacy `requires` block -/

theorem Mod.handleLegacyRequire_keeps_require (env : ModEnv) (f g : ModFields)
    (block : hcl.Block) (h : Mod.handleLegacyRequire env f block = some (Except.ok g)) :
    g = f := by
  unfold Mod.handleLegacyRequire at h
  split at h
  · cases hr : f.Require with
    | none => simp [Require.Empty, hr] at h
    | some r =>
      simp only [Require.Empty, hr] at h
      cases he : env.RequireEmpty r <;> simp [he] at h
      exact h.symm
  · simp at h
    exact h.symm

theorem Mod.OnDecoded_both_blocks (env : ModEnv) (f : ModFields)
    (maps : WorkspaceResourceMaps) (block : hcl.Block) (require legacy : Require)
    (hrequire : f.Require = some require) (hlegacy : f.LegacyRequire = some legacy)
    (hnonempty : env.RequireEmpty require = false) :
    ∃ g, Mod.OnDecoded env (Mod.mk f maps) block =
      some (Mod.mk g maps, [Mod.bothRequireDiag block]) ∧ g.Require = some require := by
  by_cases hv : (f.VersionString != "" && f.Version.isNone) = true
  · refine ⟨{ f with Version := env.NewVersion f.VersionString }, ?_, hrequire⟩
    simp [Mod.OnDecoded, Mod.handleLegacyRequire, hv, hrequire, hlegacy, hnonempty,
      Require.Empty]
  · refine ⟨f, ?_, hrequire⟩
    simp [Mod.OnDecoded, Mod.handleLegacyRequire, hv, hrequire, hlegacy, hnonempty,
      Require.Empty]

/-- C28, the code at the failing input. The mod declares the legacy `requires` block, with
a dependency on a mod, and no `require` block, so that its `Require` is empty: `OnDecoded`
returns no diagnostic and leaves `Require` empty; the legacy requirements are not taken.
For a mod that declares both blocks the one error is returned. -/
theorem Mod.OnDecoded_ignores_legacy_requires :
    demo.modLegacyOnly.fields.LegacyRequire = some demo.legacyRequire ∧
    demo.modLegacyOnly.fields.Require = some {} ∧
    (Mod.OnDecoded demo.modEnv demo.modLegacyOnly demo.someBlock).map
      (fun out => (out.1.fields.Require, out.2)) = some (some {}, []) ∧
    (Mod.OnDecoded demo.modEnv demo.modBothRequire demo.someBlock).map (fun out => out.2) =
      some [Mod.bothRequireDiag demo.someBlock] := by
  decide

end modconfig

namespace strings

/-! ### `strings.Split` -/

theorem splitChars_ne_nil (sep : Char) (cs : List Char) : splitChars sep cs ≠ [] := by
  cases cs with
  | nil => simp [splitChars]
  | cons c cs =>
    simp only [splitChars]
    split
    · simp
    · split <;> simp

theorem splitChars_intercalate (sep : Char) (cs : List Char) :
    List.intercalate [sep] (splitChars sep cs) = cs := by
  induction cs with
  | nil => simp [splitChars, List.intercalate]
  | cons c cs ih =>
    simp only [splitChars]
    split
    · rename_i hc
      subst hc
      cases hs : splitChars c cs with
      | nil => exact absurd hs (splitChars_ne_nil c cs)
      | cons piece pieces =>
        rw [hs] at ih
        simp only [List.intercalate, List.intersperse, List.flatten_cons, List.nil_append,
          List.singleton_append] at ih ⊢
        rw [ih]
    · cases hs : splitChars sep cs with
      | nil => exact absurd hs (splitChars_ne_nil sep cs)
      | cons piece pieces =>
        rw [hs] at ih
        simp only
        cases pieces with
        | nil =>
          simp only [List.intercalate, List.intersperse, List.flatten_cons, List.flatten_nil,
            List.append_nil] at ih ⊢
          rw [ih]
        | cons p ps =>
          simp only [List.intercalate, List.intersperse, List.flatten_cons,
            List.cons_append] at ih ⊢
          rw [ih]

theorem splitChars_no_sep (sep : Char) (cs : List Char) :
    ∀ piece ∈ splitChars sep cs, sep ∉ piece := by
  induction cs with
  | nil => simp [splitChars]
  | cons c cs ih =>
    simp only [splitChars]
    split
    · intro piece hp
      rcases List.mem_cons.mp hp with h | h
      · subst h
        simp
      · exact ih piece h
    · rename_i hc
      cases hs : splitChars sep cs with
      | nil => exact absurd hs (splitChars_ne_nil sep cs)
      | cons piece pieces =>
        rw [hs] at ih
        intro q hq
        rcases List.mem_cons.mp hq with h | h
        · subst h
          intro hmem
          rcases List.mem_cons.mp hmem with h1 | h1
          · exact hc h1.symm
          · exact ih piece (List.mem_cons_self _ _) h1
        · exact ih q (List.mem_cons_of_mem _ h)

end strings

namespace modconfig

/-! ### `Mod.loadNonModDataInModFile` -/

theorem Mod.nonModLinesLoop_eq_filter (start end_ : Int) (lines : List String) (n : Nat)
    (resLines : List String) :
    Mod.nonModLinesLoop start end_ lines (n : Int) resLines =
      resLines ++
        ((lines.enumFrom n).filter
          (fun e => (((e.1 : Int) < start) || ((e.1 : Int) > end_)) && e.2 != "")).map
          (fun e => e.2) := by
  induction lines generalizing n resLines with
  | nil => simp [Mod.nonModLinesLoop]
  | cons line rest ih =>
    have hnext : (n : Int) + 1 = ((n + 1 : Nat) : Int) := by simp
    simp only [Mod.nonModLinesLoop, List.enumFrom_cons, List.filter_cons]
    rw [hnext]
    by_cases hkeep :
        ((((n : Int) < start) || ((n : Int) > end_)) && line != "") = true
    · simp only [hkeep, if_true, ih, List.map_cons, List.append_assoc, List.singleton_append]
    · simp only [hkeep, if_false, ih, Bool.false_eq_true]

/-- C29. For a mod file that exists and is read, `loadNonModDataInModFile` returns the
lines of the file that are not empty and whose zero-based index is outside the range from
`DeclRange.Start.Line - 1` to `DeclRange.End.Line - 1`, in the order of the file and joined
by newlines; these lines are a part of the lines of the file and none of them is empty. -/
theorem Mod.loadNonModDataInModFile_keeps_lines_outside_mod (env : ModEnv) (m : Mod)
    (fileData : String)
    (hexists : env.FileExists (env.ModFilePath m.fields.ModPath) = true)
    (hread : env.ReadFile (env.ModFilePath m.fields.ModPath) = Except.ok fileData) :
    Mod.loadNonModDataInModFile env m =
      Except.ok (some (strings.Join
        (((strings.Split fileData '\n').enum.filter
          (fun e =>
            (((e.1 : Int) < (m.fields.DeclRange.Start.Line : Int) - 1) ||
              ((e.1 : Int) > (m.fields.DeclRange.End.Line : Int) - 1)) && e.2 != "")).map
          (fun e => e.2)) "\n")) ∧
    (((strings.Split fileData '\n').enum.filter
          (fun e =>
            (((e.1 : Int) < (m.fields.DeclRange.Start.Line : Int) - 1) ||
              ((e.1 : Int) > (m.fields.DeclRange.End.Line : Int) - 1)) && e.2 != "")).map
          (fun e => e.2)).Sublist (strings.Split fileData '\n') ∧
    (∀ line ∈ ((strings.Split fileData '\n').enum.filter
          (fun e =>
            (((e.1 : Int) < (m.fields.DeclRange.Start.Line : Int) - 1) ||
              ((e.1 : Int) > (m.fields.DeclRange.End.Line : Int) - 1)) && e.2 != "")).map
          (fun e => e.2), line ≠ "") := by
  refine ⟨?_, ?_, ?_⟩
  · have h := Mod.nonModLinesLoop_eq_filter ((m.fields.DeclRange.Start.Line : Int) - 1)
      ((m.fields.DeclRange.End.Line : Int) - 1) (strings.Split fileData '\n') 0 []
    simp only [Nat.cast_zero, List.nil_append] at h
    simp only [Mod.loadNonModDataInModFile, hexists, Bool.not_true, Bool.false_eq_true,
      if_false, hread, h, List.enum]
  · have hsub := ((strings.Split fileData '\n').enum.filter_sublist
      (p := fun e =>
        (((e.1 : Int) < (m.fields.DeclRange.Start.Line : Int) - 1) ||
          ((e.1 : Int) > (m.fields.DeclRange.End.Line : Int) - 1)) && e.2 != "")).map
      (fun e => e.2)
    simpa [List.enum_map_snd] using hsub
  · intro line hline
    simp only [List.mem_map, List.mem_filter, Bool.and_eq_true, bne_iff_ne, ne_eq] at hline
    obtain ⟨e, ⟨_, _, hne⟩, rfl⟩ := hline
    exact hne

/-- Witness of C29: the mod file holds a query, an empty line, the mod on the lines 3 to 5,
a comment and a last empty line; the query and the comment are kept. -/
theorem Mod.loadNonModDataInModFile_keeps_lines_outside_mod_witness :
    strings.Split "query \"q\" \x7b\x7d\n\nmod \"m\" \x7b\n  title = \"M\"\n\x7d\n# end\n" '\n' =
      ["query \"q\" \x7b\x7d", "", "mod \"m\" \x7b", "  title = \"M\"", "\x7d", "# end", ""] ∧
    Mod.loadNonModDataInModFile demo.modEnv demo.modLegacyOnly =
      Except.ok (some "query \"q\" \x7b\x7d\n# end") :=
  ⟨by decide,
   (Mod.loadNonModDataInModFile_keeps_lines_outside_mod demo.modEnv demo.modLegacyOnly
      "query \"q\" \x7b\x7d\n\nmod \"m\" \x7b\n  title = \"M\"\n\x7d\n# end\n" rfl rfl).1.trans
      rfl⟩

end modconfig

namespace parse

open hcl modconfig

/-! ### The diagnostics of `decodeArgs` -/

/-- C26, the code at the failing input. For the block
`query "q4" { sql = "select 1"  args = "x" }` the value of `args` is a string: `decodeArgs`
returns the error `query.q4 has invalid parameter config` at the range of the attribute,
and the decode result of `decodeQueryProvider` is successful and holds no diagnostic; the
resource is returned without arguments. -/
theorem decodeQueryProvider_drops_args_error :
    demo.queryArgsString.getAttribute "args" = some (demo.attr "args" "x" [] 3) ∧
    (decodeArgs demo.env (demo.attr "args" "x" [] 3) demo.ctx0.EvalCtx "query.q4").2 =
      [{ Severity := DiagnosticSeverity.DiagError,
         Summary := "query.q4 has invalid parameter config",
         Detail := "\x27params\x27 property must be either a map or an array",
         Subject := some (demo.lineRange 3), Expression := none }] ∧
    (decodeQueryProvider demo.env demo.queryArgsString demo.ctx0).map
      (fun out => (out.2.Success, out.2.Diags, out.1.map (fun r => (r.Name, r.Args)))) =
    some (true, [], some ("query.q4", none)) := by
  decide

end parse

namespace modconfig

/-! ### Symmetry of `Mod.Equals` -/

/-- C27, the code at the failing input. The mods `s` with the tags `a = "x"`, `b = ""` and
`a = "x"`, `c = "y"` differ in nothing else: the first `Equals` the second, and the second
does not `Equals` the first, whatever the equality of the resources is. -/
theorem Mod.Equals_not_symmetric (eq : Equalities) :
    Mod.Equals eq demo.modTagsAB demo.modTagsAC = true ∧
    Mod.Equals eq demo.modTagsAC demo.modTagsAB = false := by
  rw [Mod.Equals_eq, Mod.Equals_eq]
  exact ⟨rfl, rfl⟩

end modconfig
